import Mathlib

/-!
Verification development for the swc CSS vendor-prefixer
(`crates/swc_css_prefixer/src/prefixer.rs`) and the swc HTML lexer
(`crates/swc_html_parser/src/lexer/mod.rs`).

The Rust sources are embedded shallowly:

* spans and `raw` fields are erased: every comparison performed by the
  sources on the nodes modelled here is either `eq_ignore_span` or a
  `PartialEq` test that can only differ on nodes whose non-span content
  already differs, so structural equality of the span-less model coincides
  with the comparisons of the source;
* machine floating point values (`f64`) are modelled as exact rationals;
* external data files (the browser-compatibility table, the named-entity
  table) are parameters of the model;
* the helper visitors of `swc_css_utils` (`replace_function_name`,
  `replace_ident`, the pseudo-class and pseudo-element selector
  replacers) and the
  `preset_env_base` version structures are not part of the given sources
  and are modelled from the specification, as marked on each definition.

Equality of model trees is given by executable `Bool`-valued structural
equality functions, mirroring `eq_ignore_span` of the source.
-/

namespace Spec2Proof

/-! ## Browser versions and the target predicate

Embeds `should_enable` and `should_prefix` of `prefixer.rs` (lines 46-110).
-/

/-- Modelled from the spec: a semantic version as used by `preset_env_base`
(`Versions` maps browser names to an optional semantic version); ordered
lexicographically by major, minor, patch. -/
structure Version where
  major : Nat
  minor : Nat
  patch : Nat
deriving DecidableEq, Repr

/-- Lexicographic comparison on semantic versions. -/
def Version.le (a b : Version) : Bool :=
  if a.major ≠ b.major then a.major < b.major
  else if a.minor ≠ b.minor then a.minor < b.minor
  else a.patch ≤ b.patch

/-- Modelled from the spec: the `Versions` mapping of `preset_env_base`,
"a mapping from a fixed set of browser names (e.g. `chrome, firefox,
safari, edge, ie, opera, ios_saf, android`) to an optional semantic
version". -/
structure Versions where
  chrome : Option Version := none
  firefox : Option Version := none
  safari : Option Version := none
  edge : Option Version := none
  ie : Option Version := none
  opera : Option Version := none
  iosSaf : Option Version := none
  android : Option Version := none
deriving DecidableEq, Repr

/-- Browser slots of a `Versions` value in the fixed field order, with their
names (the iteration order used by the `zip!` macro of the source). -/
def Versions.slots (v : Versions) : List (String × Option Version) :=
  [("chrome", v.chrome), ("firefox", v.firefox), ("safari", v.safari),
   ("edge", v.edge), ("ie", v.ie), ("opera", v.opera),
   ("ios_saf", v.iosSaf), ("android", v.android)]

/-- Modelled from the spec: `Versions::is_any_target` — the target is "any
target" when every browser slot is unset. -/
def Versions.isAnyTarget (v : Versions) : Bool :=
  v.slots.all (fun s => s.2.isNone)

/-- The three `Versions` arguments of `should_enable` zipped slot-wise,
keeping the browser name of the target slot (as `zip!` does). -/
def slotsZip (target low high : Versions) :
    List (String × Option Version × Option Version × Option Version) :=
  (target.slots.zip (low.slots.zip high.slots)).map
    (fun p => (p.1.1, p.1.2, p.2.1.2, p.2.2.2))

/-- Embeds `should_enable` (prefixer.rs lines 46-96): if every target
version and both boundaries are absent for every browser, return the
default; otherwise there must be a browser whose present target version
lies in the boundary interval, with the Android→Chrome fallback on both
boundaries. -/
def shouldEnable (target low high : Versions) (dflt : Bool) : Bool :=
  if (slotsZip target low high).all
      (fun s => s.2.1.isNone && s.2.2.1.isNone && s.2.2.2.isNone) then
    dflt
  else
    (slotsZip target low high).any (fun s =>
      match s.2.1 with
      | none => false
      | some targetVersion =>
        let lowOrFallback :=
          match s.2.2.1 with
          | some l => some l
          | none => if s.1 = "android" then low.chrome else none
        match lowOrFallback with
        | none => false
        | some lowVersion =>
          if lowVersion.le targetVersion then
            let highOrFallback :=
              match s.2.2.2 with
              | some h => some h
              | none => if s.1 = "android" then high.chrome else none
            match highOrFallback with
            | none => true
            | some highVersion => targetVersion.le highVersion
          else
            false)

/-- The compatibility table (`PREFIXES_AND_BROWSERS`): external data,
modelled as a lookup function from feature key to the low/high boundary
columns. -/
def CompatTable : Type := String → Option (Versions × Versions)

/-- Embeds `should_prefix` (prefixer.rs lines 98-110): any-target returns
`true` outright; a key present in the table consults `should_enable` with
default `false`; a missing key returns the caller-supplied default. -/
def shouldPrefixFor (table : CompatTable) (property : String)
    (target : Versions) (dflt : Bool) : Bool :=
  if target.isAnyTarget then
    true
  else
    match table property with
    | some vs => shouldEnable target vs.1 vs.2 false
    | none => dflt

/-- ASCII lowercasing of one character. -/
def lowerChar (c : Char) : Char :=
  if 'A' ≤ c ∧ c ≤ 'Z' then Char.ofNat (c.toNat + 32) else c

/-- Lowercasing of a string (Rust `to_lowercase` and the lowering half of
`eq_ignore_ascii_case`), modelled on the ASCII range. -/
def strLower (s : String) : String :=
  ⟨s.data.map lowerChar⟩

/-! ## Component values and the value-level rewriters

Embeds the component-value fragment of `swc_css_ast` used by declaration
values, and the legacy-variant replacers of `prefixer.rs`
(`CrossFadeFunctionReplacerOnLegacyVariant`,
`ImageSetFunctionReplacerOnLegacyVariant`,
`LinearGradientFunctionReplacerOnLegacyVariant`) together with
`replace_function_name` of `swc_css_utils`.

The modelled value grammar has identifiers, functions, comma delimiters,
strings, `url(...)` values and numeric values (rationals standing for
`f64`); dimension values (angles, lengths) are outside the modelled
grammar, so the angle branch of the gradient replacer has no counterpart
here. -/

inductive CompVal where
  | ident (value : String)
  | func (name : String) (args : List CompVal)
  | comma
  | str (value : String)
  | url (value : String)
  | num (value : Rat)
  | pct (value : Rat)
  | int (value : Int)

mutual
/-- Structural equality of component values (the span-less counterpart of
`eq_ignore_span` and of `PartialEq` on nodes produced by the rewriters). -/
def cvEq : CompVal → CompVal → Bool
  | .ident a, .ident b => a == b
  | .func n1 a1, .func n2 a2 => n1 == n2 && cvEqList a1 a2
  | .comma, .comma => true
  | .str a, .str b => a == b
  | .url a, .url b => a == b
  | .num a, .num b => a == b
  | .pct a, .pct b => a == b
  | .int a, .int b => a == b
  | _, _ => false
termination_by structural c _ => c
def cvEqList : List CompVal → List CompVal → Bool
  | [], [] => true
  | a :: as, b :: bs => cvEq a b && cvEqList as bs
  | _, _ => false
termination_by structural l _ => l
end

mutual
/-- Modelled from the spec: `replace_function_name` of `swc_css_utils`
performs a "function-name swap": every function whose lowercased name
equals `f` is renamed to `t`, visiting children first. -/
def replFnName (f t : String) : CompVal → CompVal
  | .func name args =>
    let args2 := replFnNameList f t args
    if strLower name == f then .func t args2 else .func name args2
  | c => c
termination_by structural c => c
def replFnNameList (f t : String) : List CompVal → List CompVal
  | [] => []
  | c :: cs => replFnName f t c :: replFnNameList f t cs
termination_by structural l => l
end

mutual
/-- Embeds `ImageSetFunctionReplacerOnLegacyVariant` (prefixer.rs lines
236-293): inside any function, string arguments are rewrapped as
`url(...)`; every function whose lowercased name equals `f` is renamed to
`t`; children are visited first with the in-function flag set. -/
def replImageSet (f t : String) (inFunction : Bool) : CompVal → CompVal
  | .func name args =>
    let args2 := replImageSetList f t true args
    if strLower name == f then .func t args2 else .func name args2
  | .str s => if inFunction then .url s else .str s
  | c => c
termination_by structural c => c
def replImageSetList (f t : String) (inFunction : Bool) :
    List CompVal → List CompVal
  | [] => []
  | c :: cs =>
    replImageSet f t inFunction c :: replImageSetList f t inFunction cs
termination_by structural l => l
end

/-- Numeric transparency contribution of one component of a `cross-fade`
argument group: percentages divided by 100, numbers and integers as-is
(prefixer.rs lines 148-176). -/
def crossFadeNumeric : CompVal → Option Rat
  | .pct v => some (v / 100)
  | .num v => some v
  | .int v => some (v : Rat)
  | _ => none

/-- Splits a component-value list at comma delimiters, keeping empty
groups, mirroring `split_mut` on the comma predicate. -/
def splitByComma : List CompVal → List (List CompVal)
  | [] => [[]]
  | .comma :: rest =>
    [] :: splitByComma rest
  | c :: rest =>
    match splitByComma rest with
    | [] => [[c]]
    | g :: gs => (c :: g) :: gs

/-- Collects at most one transparency value from a group; `none` as the
outer option signals the abort caused by a second numeric component in the
same group (the early `return`). -/
def crossFadeGroupValue : List CompVal → Option (Option Rat)
  | [] => some none
  | c :: cs =>
    match crossFadeNumeric c with
    | some v =>
      match crossFadeGroupValue cs with
      | some none => some (some v)
      | _ => none
    | none => crossFadeGroupValue cs

/-- Transparency options of the comma-separated groups of a `cross-fade`
argument list, collected left to right; `none` signals any abort
(`return`) of the source loop: a second numeric in one group, or a group
encountered when two values were already collected. -/
def crossFadeCollect :
    List (List CompVal) → List (Option Rat) → Option (List (Option Rat))
  | [], acc => some acc
  | g :: gs, acc =>
    if acc.length ≥ 2 then none
    else
      match crossFadeGroupValue g with
      | none => none
      | some v => crossFadeCollect gs (acc ++ [v])

/-- The single numeric transparency computed from the two collected group
options (prefixer.rs lines 185-193); `none` is the abortive `_` arm. -/
def crossFadeTransparency : Option Rat → Option Rat → Option Rat
  | none, none => some (1 / 2)
  | some number, none => some number
  | none, some number => some (1 - number)
  | some first, some second =>
    if first + second == 1 then some first else none

mutual
/-- Embeds `CrossFadeFunctionReplacerOnLegacyVariant` (prefixer.rs lines
121-227): on a function whose lowercased name equals `f`, compute the
transparency of the two comma-separated argument groups; on success drop
every numeric component, append a comma and the transparency as a number,
and rename the function to `t`; children are visited first. -/
def replCrossFade (f t : String) : CompVal → CompVal
  | .func name args =>
    let args2 := replCrossFadeList f t args
    if strLower name == f then
      match crossFadeCollect (splitByComma args2) [] with
      | none => .func name args2
      | some vs =>
        if h : vs.length = 2 then
          match crossFadeTransparency (vs.get ⟨0, by omega⟩) (vs.get ⟨1, by omega⟩) with
          | none => .func name args2
          | some v =>
            .func t
              ((args2.filter (fun c => (crossFadeNumeric c).isNone)) ++
               [CompVal.comma, CompVal.num v])
        else .func name args2
    else .func name args2
  | c => c
termination_by structural c => c
def replCrossFadeList (f t : String) : List CompVal → List CompVal
  | [] => []
  | c :: cs => replCrossFade f t c :: replCrossFadeList f t cs
termination_by structural l => l
end

/-- The old-spec inverted direction keyword of the gradient replacer
(prefixer.rs lines 316-324); the match is case-sensitive. -/
def getOldDirection : String → Option String
  | "top" => some "bottom"
  | "left" => some "right"
  | "bottom" => some "top"
  | "right" => some "left"
  | _ => none

/-- Extracts the sub-list `value[lo..hi]` of a component-value list (Rust
slice semantics on in-bounds indices). -/
def cvSlice (value : List CompVal) (lo hi : Nat) : List CompVal :=
  (value.drop lo).take (hi - lo)

/-- Direction rewriting of a renamed linear gradient: when the first
argument is the identifier `to` (ASCII-case-insensitively) the one- or
two-keyword direction is replaced by the inverted keyword(s)
(prefixer.rs lines 310-372). Angle dimensions are outside the modelled
value grammar. -/
def gradientRewriteDirection (value : List CompVal) : List CompVal :=
  match value.head? with
  | some (.ident toKw) =>
    if strLower toKw == "to" then
      match value.get? 1, value.get? 2 with
      | some (.ident firstValue), some (.ident secondValue) =>
        match getOldDirection firstValue, getOldDirection secondValue with
        | some newFirst, some newSecond =>
          [CompVal.ident newFirst, CompVal.ident newSecond] ++ value.drop 3
        | _, _ => value
      | some (.ident firstValue), some _ =>
        match getOldDirection firstValue with
        | some newDirection => [CompVal.ident newDirection] ++ value.drop 2
        | none => value
      | _, _ => value
    else value
  | _ => value

/-- Position of the first `at` identifier (ASCII-case-insensitively) in an
argument list. -/
def atIndexOf (value : List CompVal) : Option Nat :=
  value.findIdx? (fun c =>
    match c with
    | .ident s => strLower s == "at"
    | _ => false)

/-- Position of the first comma delimiter in an argument list. -/
def commaIndexOf (value : List CompVal) : Option Nat :=
  value.findIdx? (fun c =>
    match c with
    | .comma => true
    | _ => false)

/-- Position rewriting of a renamed radial gradient: when both an `at`
keyword and a comma are present, the post-`at` tokens are moved to the
front, followed by a comma and the pre-`at` tokens (prefixer.rs lines
434-458). -/
def gradientRewriteRadial (value : List CompVal) : List CompVal :=
  match atIndexOf value, commaIndexOf value with
  | some atIdx, some commaIdx =>
    cvSlice value (atIdx + 1) commaIdx ++ [CompVal.comma] ++
      cvSlice value 0 atIdx ++ value.drop commaIdx
  | _, _ => value

mutual
/-- Embeds `LinearGradientFunctionReplacerOnLegacyVariant` (prefixer.rs
lines 295-468): functions whose lowercased name equals `f` are renamed to
`t`, the leading `to <direction>` keywords are inverted, and for the
radial gradients the `at` position is relocated; children are visited
first. -/
def replGradient (f t : String) : CompVal → CompVal
  | .func name args =>
    let args2 := replGradientList f t args
    if strLower name == f then
      let args3 := gradientRewriteDirection args2
      let args4 :=
        if f == "radial-gradient" || f == "repeating-radial-gradient" then
          gradientRewriteRadial args3
        else args3
      .func t args4
    else .func name args2
  | c => c
termination_by structural c => c
def replGradientList (f t : String) : List CompVal → List CompVal
  | [] => []
  | c :: cs => replGradient f t c :: replGradientList f t cs
termination_by structural l => l
end

mutual
/-- Modelled from the spec: `replace_ident` of `swc_css_utils` performs an
"ident swap": every identifier component value ASCII-case-insensitively
equal to `f` is renamed to `t`, visiting function arguments as well. -/
def replIdent (f t : String) : CompVal → CompVal
  | .ident s => if strLower s == strLower f then .ident t else .ident s
  | .func name args => .func name (replIdentList f t args)
  | c => c
termination_by structural c => c
def replIdentList (f t : String) : List CompVal → List CompVal
  | [] => []
  | c :: cs => replIdent f t c :: replIdentList f t cs
termination_by structural l => l
end

/-! ## Declarations, selectors and media queries -/

/-- Declaration names: plain identifiers or dashed identifiers
(`DeclarationName` of `swc_css_ast`); the prefixer ignores dashed-ident
declarations. -/
inductive DeclName where
  | ident (value : String)
  | dashed (value : String)

/-- A CSS declaration (span and `raw` erased). -/
structure Declaration where
  name : DeclName
  value : List CompVal
  important : Bool

/-- Structural equality of declaration names. -/
def dnEq : DeclName → DeclName → Bool
  | .ident a, .ident b => a == b
  | .dashed a, .dashed b => a == b
  | _, _ => false

/-- Structural equality of declarations. -/
def declEq (a b : Declaration) : Bool :=
  dnEq a.name b.name && cvEqList a.value b.value && (a.important == b.important)

/-- The identifier text of a declaration name, when it is a plain
identifier. -/
def DeclName.identText : DeclName → Option String
  | .ident s => some s
  | .dashed _ => none

/-- Selector components of a qualified-rule prelude: the fragment of the
selector grammar that the prefixer's pseudo replacers touch, plus opaque
components for everything else. -/
inductive SelComp where
  | pseudoClass (name : String)
  | pseudoElement (name : String)
  | other (text : String)

/-- A qualified-rule prelude as a list of selector components. -/
def SelectorList : Type := List SelComp

/-- Structural equality of selector components. -/
def selCompEq : SelComp → SelComp → Bool
  | .pseudoClass a, .pseudoClass b => a == b
  | .pseudoElement a, .pseudoElement b => a == b
  | .other a, .other b => a == b
  | _, _ => false

/-- Structural equality of selector lists. -/
def selListEq : SelectorList → SelectorList → Bool
  | [], [] => true
  | a :: as, b :: bs => selCompEq a b && selListEq as bs
  | _, _ => false

/-- Modelled from the spec: `replace_pseudo_class_selector_name` of
`swc_css_utils` renames every pseudo-class selector named `f` to `t`. -/
def replPseudoClass (f t : String) (sel : SelectorList) : SelectorList :=
  sel.map (fun c =>
    match c with
    | .pseudoClass name => if strLower name == f then .pseudoClass t else c
    | _ => c)

/-- Modelled from the spec: `replace_pseudo_element_selector_name` of
`swc_css_utils` renames every pseudo-element selector named `f` to `t`. -/
def replPseudoElement (f t : String) (sel : SelectorList) : SelectorList :=
  sel.map (fun c =>
    match c with
    | .pseudoElement name => if strLower name == f then .pseudoElement t else c
    | _ => c)

/-- Modelled from the spec:
`replace_pseudo_class_selector_on_pseudo_element_selector` of
`swc_css_utils` replaces every pseudo-element selector named `f` by a
pseudo-class selector named `t`. -/
def replPseudoClassOnElement (f t : String) (sel : SelectorList) :
    SelectorList :=
  sel.map (fun c =>
    match c with
    | .pseudoElement name => if strLower name == f then .pseudoClass t else c
    | _ => c)

/-- Values of a plain media feature: resolution dimensions (with their
unit), numbers (rationals standing for `f64`), or opaque values. -/
inductive MFValue where
  | resolution (value : Rat) (unit : String)
  | number (value : Rat)
  | other (text : String)

/-- A plain media feature (`MediaFeaturePlain`): a feature name and a
value. -/
structure MediaFeaturePlain where
  name : String
  value : MFValue

/-- A media query, modelled as the list of its plain media features (the
nodes the resolution replacer visits). -/
structure MediaQuery where
  features : List MediaFeaturePlain

/-- Structural equality of media feature values. -/
def mfvEq : MFValue → MFValue → Bool
  | .resolution a u, .resolution b w => a == b && u == w
  | .number a, .number b => a == b
  | .other a, .other b => a == b
  | _, _ => false

/-- Structural equality of plain media features. -/
def mfpEq (a b : MediaFeaturePlain) : Bool :=
  a.name == b.name && mfvEq a.value b.value

/-- Pointwise equality of lists under an element comparison. -/
def listEqWith (eq : α → α → Bool) : List α → List α → Bool
  | [], [] => true
  | a :: as, b :: bs => eq a b && listEqWith eq as bs
  | _, _ => false

/-- Structural equality of media queries. -/
def mqEq (a b : MediaQuery) : Bool :=
  listEqWith mfpEq a.features b.features

/-- Rounding of a rational as Rust's `f64::round`: half-way cases round
away from zero. -/
def ratRound (q : Rat) : Int :=
  if q < 0 then -((-q + 1 / 2).floor) else (q + 1 / 2).floor

/-- Embeds `MediaFeatureResolutionReplacerOnLegacyVariant` (prefixer.rs
lines 470-519): a plain media feature named `f` (lowercased) whose value
is a resolution dimension is renamed to `t` and its value becomes the
device-pixel-ratio number: `dpi` is divided by 96, `dpcm` is multiplied by
2.54 and divided by 96 (both rounded to two decimals), any other unit
passes its numeric value through. -/
def replMediaResolution (f t : String) (q : MediaQuery) : MediaQuery :=
  ⟨q.features.map (fun feature =>
    match feature.value with
    | .resolution value unit =>
      if strLower feature.name == f then
        let left :=
          if strLower unit == "dpi" then
            (ratRound (value / 96 * 100) : Rat) / 100
          else if strLower unit == "dpcm" then
            (ratRound (value * (254 / 100) / 96 * 100) : Rat) / 100
          else value
        { name := t, value := .number left }
      else feature
    | _ => feature)⟩

/-! ## The stylesheet tree

Embeds the fragment of the `swc_css_ast` tree traversed by the prefixer:
stylesheets, at-rules, qualified rules, simple blocks, keyframe blocks and
the three block-item wrappers (`DeclarationOrAtRule`, `StyleBlock`,
`Rule`) whose distinction drives the insertion scheduling of
`visit_mut_simple_block`. -/

mutual
/-- A supports condition (`SupportsCondition` of `swc_css_ast`): its list
of condition entries. -/
inductive SupportsCond where
  | mk (conditions : List SupportsEntry)
/-- One entry of a supports condition (`SupportsConditionType`): a plain
in-parens term or an `or`/`and`/`not` wrapper (whose Boolean records
whether the source carried the keyword token, compared by
`eq_ignore_span`); other entries are opaque. -/
inductive SupportsEntry where
  | inParens (p : SupportsParens)
  | orCond (kw : Bool) (p : SupportsParens)
  | andCond (kw : Bool) (p : SupportsParens)
  | notCond (kw : Bool) (p : SupportsParens)
  | raw (text : String)
/-- An in-parens supports term (`SupportsInParens`): a declaration
feature (rewritten by `visit_mut_supports_in_parens`), an opaque
non-declaration feature, a nested condition, or a general-enclosed
term. -/
inductive SupportsParens where
  | feature (d : Declaration)
  | featureRaw (text : String)
  | cond (c : SupportsCond)
  | raw (text : String)
end

/-- Condition entries of a supports condition. -/
def SupportsCond.conditions : SupportsCond → List SupportsEntry
  | .mk cs => cs

mutual
/-- Structural equality of supports conditions (`eq_ignore_span`). -/
def supCondEq : SupportsCond → SupportsCond → Bool
  | .mk a, .mk b => supEntryListEq a b
termination_by structural x _ => x
def supEntryListEq : List SupportsEntry → List SupportsEntry → Bool
  | [], [] => true
  | a :: as, b :: bs => supEntryEq a b && supEntryListEq as bs
  | _, _ => false
termination_by structural x _ => x
def supEntryEq : SupportsEntry → SupportsEntry → Bool
  | .inParens a, .inParens b => supParensEq a b
  | .orCond k a, .orCond k2 b => k == k2 && supParensEq a b
  | .andCond k a, .andCond k2 b => k == k2 && supParensEq a b
  | .notCond k a, .notCond k2 b => k == k2 && supParensEq a b
  | .raw a, .raw b => a == b
  | _, _ => false
termination_by structural x _ => x
def supParensEq : SupportsParens → SupportsParens → Bool
  | .feature a, .feature b => declEq a b
  | .featureRaw a, .featureRaw b => a == b
  | .cond a, .cond b => supCondEq a b
  | .raw a, .raw b => a == b
  | _, _ => false
termination_by structural x _ => x
end

/-- The supports clause of an `@import` prelude
(`ImportPreludeSupportsType`): a bare declaration or a supports
condition. -/
inductive ImportSupports where
  | decl (d : Declaration)
  | cond (c : SupportsCond)

/-- An `@import` prelude (`ImportPrelude`): its href text and optional
supports clause (the layer name is opaque to the prefixer and erased). -/
structure ImportPreludeM where
  href : String
  supports : Option ImportSupports

/-- Structural equality of import supports clauses. -/
def importSupEq : Option ImportSupports → Option ImportSupports → Bool
  | none, none => true
  | some (.decl a), some (.decl b) => declEq a b
  | some (.cond a), some (.cond b) => supCondEq a b
  | _, _ => false

/-- Structural equality of import preludes. -/
def importPreludeEq (a b : ImportPreludeM) : Bool :=
  a.href == b.href && importSupEq a.supports b.supports

/-- At-rule preludes: media query lists (visited by
`visit_mut_media_query_list`), `@import` preludes (visited by
`visit_mut_import_prelude`), supports conditions (visited by
`visit_mut_supports_condition`), or opaque preludes. -/
inductive AtRulePrelude where
  | media (queries : List MediaQuery)
  | importPrelude (p : ImportPreludeM)
  | supports (c : SupportsCond)
  | raw (text : String)

/-- Structural equality of at-rule preludes. -/
def atPreludeEq : AtRulePrelude → AtRulePrelude → Bool
  | .media a, .media b => listEqWith mqEq a b
  | .importPrelude a, .importPrelude b => importPreludeEq a b
  | .supports a, .supports b => supCondEq a b
  | .raw a, .raw b => a == b
  | _, _ => false

/-- Pointwise equality of options under an element comparison. -/
def optEqWith (eq : α → α → Bool) : Option α → Option α → Bool
  | none, none => true
  | some a, some b => eq a b
  | _, _ => false

mutual
inductive SimpleBlock where
  | mk (value : List ComponentValue)
inductive ComponentValue where
  | declOrAt (item : DeclOrAtRule)
  | styleBlock (item : StyleBlockItem)
  | rule (item : CssRule)
  | keyframeBlock (item : KeyframeBlock)
  | tok (text : String)
inductive DeclOrAtRule where
  | decl (d : Declaration)
  | atRule (a : AtRule)
inductive StyleBlockItem where
  | decl (d : Declaration)
  | qualifiedRule (q : QualifiedRule)
  | atRule (a : AtRule)
inductive CssRule where
  | qualifiedRule (q : QualifiedRule)
  | atRule (a : AtRule)
inductive KeyframeBlock where
  | mk (sel : List String) (block : SimpleBlock)
inductive AtRule where
  | mk (name : String) (prelude : Option AtRulePrelude)
       (block : Option SimpleBlock)
inductive QualifiedRule where
  | mk (prelude : SelectorList) (block : SimpleBlock)
end

/-- A stylesheet: its list of top-level rules. -/
structure Stylesheet where
  rules : List CssRule

/-- Items of a simple block. -/
def SimpleBlock.value : SimpleBlock → List ComponentValue
  | .mk v => v

/-- Name of an at-rule. -/
def AtRule.name : AtRule → String
  | .mk n _ _ => n

/-- Prelude of an at-rule. -/
def AtRule.prelude : AtRule → Option AtRulePrelude
  | .mk _ p _ => p

/-- Block of an at-rule. -/
def AtRule.block : AtRule → Option SimpleBlock
  | .mk _ _ b => b

/-- Prelude of a qualified rule. -/
def QualifiedRule.prelude : QualifiedRule → SelectorList
  | .mk p _ => p

/-- Block of a qualified rule. -/
def QualifiedRule.block : QualifiedRule → SimpleBlock
  | .mk _ b => b

mutual
/-- Structural equality of simple blocks (the span-less `eq_ignore_span`). -/
def sbEq : SimpleBlock → SimpleBlock → Bool
  | .mk a, .mk b => cvListEq a b
termination_by structural x _ => x
def cvListEq : List ComponentValue → List ComponentValue → Bool
  | [], [] => true
  | a :: as, b :: bs => compEq a b && cvListEq as bs
  | _, _ => false
termination_by structural x _ => x
def compEq : ComponentValue → ComponentValue → Bool
  | .declOrAt a, .declOrAt b => darEq a b
  | .styleBlock a, .styleBlock b => sbiEq a b
  | .rule a, .rule b => ruleEq a b
  | .keyframeBlock a, .keyframeBlock b => kbEq a b
  | .tok a, .tok b => a == b
  | _, _ => false
termination_by structural x _ => x
def darEq : DeclOrAtRule → DeclOrAtRule → Bool
  | .decl a, .decl b => declEq a b
  | .atRule a, .atRule b => atEq a b
  | _, _ => false
termination_by structural x _ => x
def sbiEq : StyleBlockItem → StyleBlockItem → Bool
  | .decl a, .decl b => declEq a b
  | .qualifiedRule a, .qualifiedRule b => qrEq a b
  | .atRule a, .atRule b => atEq a b
  | _, _ => false
termination_by structural x _ => x
def ruleEq : CssRule → CssRule → Bool
  | .qualifiedRule a, .qualifiedRule b => qrEq a b
  | .atRule a, .atRule b => atEq a b
  | _, _ => false
termination_by structural x _ => x
def kbEq : KeyframeBlock → KeyframeBlock → Bool
  | .mk s1 b1, .mk s2 b2 => s1 == s2 && sbEq b1 b2
termination_by structural x _ => x
def atEq : AtRule → AtRule → Bool
  | .mk n1 p1 b1, .mk n2 p2 b2 =>
    n1 == n2 && optEqWith atPreludeEq p1 p2 && optSbEq b1 b2
termination_by structural x _ => x
def optSbEq : Option SimpleBlock → Option SimpleBlock → Bool
  | none, none => true
  | some a, some b => sbEq a b
  | _, _ => false
termination_by structural x _ => x
def qrEq : QualifiedRule → QualifiedRule → Bool
  | .mk p1 b1, .mk p2 b2 => selListEq p1 p2 && sbEq b1 b2
termination_by structural x _ => x
end

/-- Structural equality of stylesheets. -/
def sheetEq (a b : Stylesheet) : Bool :=
  listEqWith ruleEq a.rules b.rules

/-! ## Containment

The span-ignoring containment order used to settle additivity: the first
tree's nodes appear in the second in order, with extra items possibly
inserted in rule lists and block item lists, and media-query preludes
possibly extended at their end. -/


/-- Prefix relation on media-query lists under structural equality. -/
def mqListPre : List MediaQuery → List MediaQuery → Bool
  | [], _ => true
  | _ :: _, [] => false
  | a :: as, b :: bs => mqEq a b && mqListPre as bs

mutual
/-- Containment of supports conditions: entrywise containment of the
condition lists. -/
def supCondC : SupportsCond → SupportsCond → Bool
  | .mk a, .mk b => supEntryListC a b
termination_by structural _ x => x
def supEntryListC : List SupportsEntry → List SupportsEntry → Bool
  | [], [] => true
  | a :: as, b :: bs => supEntryC a b && supEntryListC as bs
  | _, _ => false
termination_by structural _ x => x
def supEntryC : SupportsEntry → SupportsEntry → Bool
  | .inParens a, .inParens b => supParensC a b
  | .orCond k a, .orCond k2 b => k == k2 && supParensC a b
  | .andCond k a, .andCond k2 b => k == k2 && supParensC a b
  | .notCond k a, .notCond k2 b => k == k2 && supParensC a b
  | .raw a, .raw b => a == b
  | _, _ => false
termination_by structural _ x => x
/-- Containment of in-parens supports terms: a feature term may be
replaced by a condition whose first entry is the original term (the
rewrite of `visit_mut_supports_in_parens`); nested conditions are
contained recursively. -/
def supParensC : SupportsParens → SupportsParens → Bool
  | .feature a, .feature b => declEq a b
  | .feature a, .cond (.mk es) =>
    (match es with
     | SupportsEntry.inParens (.feature b) :: _ => declEq a b
     | _ => false)
  | .featureRaw a, .featureRaw b => a == b
  | .featureRaw a, .cond (.mk es) =>
    (match es with
     | SupportsEntry.inParens (.featureRaw b) :: _ => a == b
     | _ => false)
  | .cond a, .cond b => supCondC a b
  | .raw a, .raw b => a == b
  | _, _ => false
termination_by structural _ x => x
end

/-- Containment of import supports clauses: a declaration clause may be
rebuilt as a condition whose first entry holds the original declaration,
and a condition clause may be rewritten in containment order or dropped
entirely (the `Option::take` of `visit_mut_import_prelude`). -/
def importSupC : Option ImportSupports → Option ImportSupports → Bool
  | none, none => true
  | some (.decl a), some (.decl b) => declEq a b
  | some (.decl a), some (.cond (.mk es)) =>
    (match es with
     | SupportsEntry.inParens (.feature b) :: _ => declEq a b
     | _ => false)
  | some (.cond a), some (.cond b) => supCondC a b
  | some (.cond _), none => true
  | _, _ => false

/-- Containment of import preludes: the href is preserved and the
supports clause is contained. -/
def importC (a b : ImportPreludeM) : Bool :=
  a.href == b.href && importSupC a.supports b.supports

/-- Containment of at-rule preludes: a media query list may be extended
at its end (the in-place push of `visit_mut_media_query_list`); import
preludes and supports conditions may be rewritten in containment order;
every other prelude must be unchanged. -/
def atPreludeC : Option AtRulePrelude → Option AtRulePrelude → Bool
  | some (.media a), some (.media b) => mqListPre a b
  | some (.importPrelude a), some (.importPrelude b) => importC a b
  | some (.supports a), some (.supports b) => supCondC a b
  | a, b => optEqWith atPreludeEq a b

mutual
/-- Containment of simple blocks: the first block's items appear in the
second in order, with extra items possibly inserted anywhere. -/
def sbC : SimpleBlock → SimpleBlock → Bool
  | .mk a, .mk b => cvListC a b
termination_by structural _ x => x
def cvListC : List ComponentValue → List ComponentValue → Bool
  | [], _ => true
  | _ :: _, [] => false
  | a :: as, b :: bs => (compC a b && cvListC as bs) || cvListC (a :: as) bs
termination_by structural _ x => x
def compC : ComponentValue → ComponentValue → Bool
  | .declOrAt a, .declOrAt b => darC a b
  | .styleBlock a, .styleBlock b => sbiC a b
  | .rule a, .rule b => ruleC a b
  | .keyframeBlock a, .keyframeBlock b => kbC a b
  | .tok a, .tok b => a == b
  | _, _ => false
termination_by structural _ x => x
def darC : DeclOrAtRule → DeclOrAtRule → Bool
  | .decl a, .decl b => declEq a b
  | .atRule a, .atRule b => atC a b
  | _, _ => false
termination_by structural _ x => x
def sbiC : StyleBlockItem → StyleBlockItem → Bool
  | .decl a, .decl b => declEq a b
  | .qualifiedRule a, .qualifiedRule b => qrC a b
  | .atRule a, .atRule b => atC a b
  | _, _ => false
termination_by structural _ x => x
def ruleC : CssRule → CssRule → Bool
  | .qualifiedRule a, .qualifiedRule b => qrC a b
  | .atRule a, .atRule b => atC a b
  | _, _ => false
termination_by structural _ x => x
def kbC : KeyframeBlock → KeyframeBlock → Bool
  | .mk s1 b1, .mk s2 b2 => s1 == s2 && sbC b1 b2
termination_by structural _ x => x
def atC : AtRule → AtRule → Bool
  | .mk n1 p1 b1, .mk n2 p2 b2 =>
    n1 == n2 && atPreludeC p1 p2 && optSbC b1 b2
termination_by structural _ x => x
def optSbC : Option SimpleBlock → Option SimpleBlock → Bool
  | none, none => true
  | some a, some b => sbC a b
  | _, _ => false
termination_by structural _ x => x
def qrC : QualifiedRule → QualifiedRule → Bool
  | .mk p1 b1, .mk p2 b2 => selListEq p1 p2 && sbC b1 b2
termination_by structural _ x => x
def ruleListC : List CssRule → List CssRule → Bool
  | [], _ => true
  | _ :: _, [] => false
  | a :: as, b :: bs => (ruleC a b && ruleListC as bs) || ruleListC (a :: as) bs
termination_by structural _ x => x
end

/-- Containment of stylesheets. -/
def sheetC (a b : Stylesheet) : Bool :=
  ruleListC a.rules b.rules

/-! ## The prefixer state and visitor -/

/-- Vendor prefixes; embeds the `Prefix` enum of prefixer.rs (lines
541-547), renamed to satisfy the Lean front end. -/
inductive Vendor where
  | webkit
  | moz
  | o
  | ms
deriving DecidableEq, Repr

/-- Embeds the `Prefixer` visitor state (prefixer.rs lines 549-560); the
environment and table travel as separate parameters, and every staged
declaration carries (as ghost data) the vendor of the `add_declaration!`
guard block that staged it. -/
structure PState where
  inKeyframeBlock : Bool
  simpleBlock : Option SimpleBlock
  ruleVendor : Option Vendor
  addedTopRules : List (Vendor × CssRule)
  addedAtRules : List (Vendor × AtRule)
  addedQualifiedRules : List (Vendor × QualifiedRule)
  addedDeclarations : List (Vendor × Declaration)
  supportsCondition : Option SupportsCond

/-- The fresh state of one prefixer invocation. -/
def initState : PState :=
  ⟨false, none, none, [], [], [], [], none⟩

/-- Embeds `Prefixer::add_at_rule` (prefixer.rs lines 563-571). -/
def addAtRuleState (st : PState) (v : Vendor) (a : AtRule) : PState :=
  if st.simpleBlock.isNone then
    { st with addedTopRules := st.addedTopRules ++ [(v, .atRule a)] }
  else
    { st with addedAtRules := st.addedAtRules ++ [(v, a)] }

/-- Staging of a prefixed qualified rule, top-level or nested (the
repeated push pattern of `visit_mut_qualified_rule`). -/
def stageQualified (st : PState) (v : Vendor) (q : QualifiedRule) : PState :=
  if st.simpleBlock.isNone then
    { st with addedTopRules := st.addedTopRules ++ [(v, .qualifiedRule q)] }
  else
    { st with addedQualifiedRules := st.addedQualifiedRules ++ [(v, q)] }

/-- ASCII-case-insensitive string comparison (`eq_ignore_ascii_case`). -/
def eqIgnoreCase (a b : String) : Bool :=
  strLower a == strLower b

/-- Shorthand for `should_prefix` with the table and environment of the
current prefixer invocation. -/
def sp (tbl : CompatTable) (env : Versions) (property : String)
    (dflt : Bool) : Bool :=
  shouldPrefixFor tbl property env dflt

/-- The webkit preprocessing of a declaration value (prefixer.rs lines
1244-1300), applied only under the webkit rule-prefix guard. -/
def webkitValueOf (tbl : CompatTable) (env : Versions)
    (v : List CompVal) : List CompVal :=
  let v := if sp tbl env "-webkit-filter()" false then
    replFnNameList "filter" "-webkit-filter" v else v
  let v := if sp tbl env "-webkit-image-set()" false then
    replImageSetList "image-set" "-webkit-image-set" false v else v
  let v := if sp tbl env "-webkit-calc()" false then
    replFnNameList "calc" "-webkit-calc" v else v
  let v := if sp tbl env "-webkit-cross-fade()" false then
    replCrossFadeList "cross-fade" "-webkit-cross-fade" v else v
  let v := if sp tbl env "-webkit-linear-gradient()" false then
    replGradientList "linear-gradient" "-webkit-linear-gradient" v else v
  let v := if sp tbl env "-webkit-repeating-linear-gradient()" false then
    replGradientList "repeating-linear-gradient"
      "-webkit-repeating-linear-gradient" v else v
  let v := if sp tbl env "-webkit-radial-gradient()" false then
    replGradientList "radial-gradient" "-webkit-radial-gradient" v else v
  let v := if sp tbl env "-webkit-repeating-radial-gradient()" false then
    replGradientList "repeating-radial-gradient"
      "-webkit-repeating-radial-gradient" v else v
  v

/-- The moz preprocessing of a declaration value (prefixer.rs lines
1302-1344). -/
def mozValueOf (tbl : CompatTable) (env : Versions)
    (v : List CompVal) : List CompVal :=
  let v := if sp tbl env "-moz-element()" false then
    replFnNameList "element" "-moz-element" v else v
  let v := if sp tbl env "-moz-calc()" false then
    replFnNameList "calc" "-moz-calc" v else v
  let v := if sp tbl env "-moz-linear-gradient()" false then
    replGradientList "linear-gradient" "-moz-linear-gradient" v else v
  let v := if sp tbl env "-moz-repeating-linear-gradient()" false then
    replGradientList "repeating-linear-gradient"
      "-moz-repeating-linear-gradient" v else v
  let v := if sp tbl env "-moz-radial-gradient()" false then
    replGradientList "radial-gradient" "-moz-radial-gradient" v else v
  let v := if sp tbl env "-moz-repeating-radial-gradient()" false then
    replGradientList "repeating-radial-gradient"
      "-moz-repeating-radial-gradient" v else v
  v

/-- The o preprocessing of a declaration value (prefixer.rs lines
1346-1380); the plain linear gradient is gated by the
`-o-repeating-linear-gradient()` key, as in the source. -/
def oValueOf (tbl : CompatTable) (env : Versions)
    (v : List CompVal) : List CompVal :=
  let v := if sp tbl env "-o-repeating-linear-gradient()" false then
    replGradientList "linear-gradient" "-o-linear-gradient" v else v
  let v := if sp tbl env "-o-repeating-linear-gradient()" false then
    replGradientList "repeating-linear-gradient"
      "-o-repeating-linear-gradient" v else v
  let v := if sp tbl env "-o-radial-gradient()" false then
    replGradientList "radial-gradient" "-o-radial-gradient" v else v
  let v := if sp tbl env "-o-repeating-radial-gradient()" false then
    replGradientList "repeating-radial-gradient"
      "-o-repeating-radial-gradient" v else v
  v

/-- The `cursor` arm's webkit section (prefixer.rs lines 1622-1638):
both zoom rewrites are gated by the `-o-repeating-radial-gradient()`
key, exactly as in the source. -/
def cursorWebkitValue (tbl : CompatTable) (env : Versions)
    (v : List CompVal) : List CompVal :=
  let v := if sp tbl env "-o-repeating-radial-gradient()" false then
    replIdentList "zoom-in" "-webkit-zoom-in" v else v
  let v := if sp tbl env "-o-repeating-radial-gradient()" false then
    replIdentList "zoom-out" "-webkit-zoom-out" v else v
  let v := if sp tbl env "-webkit-grab" false then
    replIdentList "grab" "-webkit-grab" v else v
  let v := if sp tbl env "-webkit-grabbing" false then
    replIdentList "grabbing" "-webkit-grabbing" v else v
  v

/-- The `cursor` arm's moz section (prefixer.rs lines 1640-1657). -/
def cursorMozValue (tbl : CompatTable) (env : Versions)
    (v : List CompVal) : List CompVal :=
  let v := if sp tbl env "-moz-zoom-in" false then
    replIdentList "zoom-in" "-moz-zoom-in" v else v
  let v := if sp tbl env "-moz-zoom-out" false then
    replIdentList "zoom-out" "-moz-zoom-out" v else v
  let v := if sp tbl env "-moz-grab" false then
    replIdentList "grab" "-moz-grab" v else v
  let v := if sp tbl env "-moz-grabbing" false then
    replIdentList "grabbing" "-moz-grabbing" v else v
  v

/-- The old-spec webkit value of the `display` arm (prefixer.rs lines
1661-1674): `flex` and `inline-flex` become the old `-webkit-box`
keywords; the result is pushed as a same-name declaration when it
differs from the original value. -/
def displayOldSpecValue (tbl : CompatTable) (env : Versions)
    (v : List CompVal) : List CompVal :=
  let v := if sp tbl env "-webkit-box" false then
    replIdentList "flex" "-webkit-box" v else v
  let v := if sp tbl env "-webkit-inline-box" false then
    replIdentList "inline-flex" "-webkit-inline-box" v else v
  v

/-- The `display` arm's webkit value rewrites (prefixer.rs lines
1685-1691); the flex rewrite is gated by the `-webkit-flex:display`
key, as in the source. -/
def displayWebkitValue (tbl : CompatTable) (env : Versions)
    (v : List CompVal) : List CompVal :=
  let v := if sp tbl env "-webkit-flex:display" false then
    replIdentList "flex" "-webkit-flex" v else v
  let v := if sp tbl env "-webkit-inline-flex" false then
    replIdentList "inline-flex" "-webkit-inline-flex" v else v
  v

/-- The `display` arm's moz section (prefixer.rs lines 1694-1702). -/
def displayMozValue (tbl : CompatTable) (env : Versions)
    (v : List CompVal) : List CompVal :=
  let v := if sp tbl env "-moz-box" false then
    replIdentList "flex" "-moz-box" v else v
  let v := if sp tbl env "-moz-inline-box" false then
    replIdentList "inline-flex" "-moz-inline-box" v else v
  v

/-- The `display` arm's ms section (prefixer.rs lines 1704-1712). -/
def displayMsValue (tbl : CompatTable) (env : Versions)
    (v : List CompVal) : List CompVal :=
  let v := if sp tbl env "-ms-flexbox" false then
    replIdentList "flex" "-ms-flexbox" v else v
  let v := if sp tbl env "-ms-inline-flexbox" false then
    replIdentList "inline-flex" "-ms-inline-flexbox" v else v
  v

/-- The `unicode-bidi` arm's moz rewrites (prefixer.rs lines 2756-2767);
in the source these run under the *webkit* rule-prefix guard. -/
def ubMozValue (tbl : CompatTable) (env : Versions)
    (v : List CompVal) : List CompVal :=
  let v := if sp tbl env "-moz-isolate" false then
    replIdentList "isolate" "-moz-isolate" v else v
  let v := if sp tbl env "-moz-isolate-override" false then
    replIdentList "isolate-override" "-moz-isolate-override" v else v
  let v := if sp tbl env "-moz-plaintext" false then
    replIdentList "plaintext" "-moz-plaintext" v else v
  v

/-- The `unicode-bidi` arm's webkit rewrites (prefixer.rs lines
2769-2783); the `-webpack-` keys and replacement idents reproduce the
source text verbatim. -/
def ubWebkitValue (tbl : CompatTable) (env : Versions)
    (v : List CompVal) : List CompVal :=
  let v := if sp tbl env "-webkit-isolate" false then
    replIdentList "isolate" "-webkit-isolate" v else v
  let v := if sp tbl env "-webpack-isolate-override" false then
    replIdentList "isolate-override" "-webpack-isolate-override" v else v
  let v := if sp tbl env "-webpack-plaintext" false then
    replIdentList "plaintext" "-webpack-plaintext" v else v
  v

/-- The four declaration-value slots and the mid-arm pushes produced by
one modelled catalogue arm of `visit_mut_declaration`. -/
structure ArmOut where
  wv : List CompVal
  mv : List CompVal
  ov : List CompVal
  sv : List CompVal
  pushes : List (Vendor × Declaration)

/-- Declarations of a simple-block snapshot, in order: the
`DeclarationOrAtRule::Declaration` and `StyleBlock::Declaration` items
(prefixer.rs lines 1384-1406). -/
def blockDeclarations : Option SimpleBlock → List Declaration
  | none => []
  | some (.mk items) =>
    items.foldr (fun item acc =>
      match item with
      | .declOrAt (.decl d) => d :: acc
      | .styleBlock (.decl d) => d :: acc
      | _ => acc) []

/-- Property-name set of a simple-block snapshot: the plain-identifier
names of its declarations (prefixer.rs lines 1408-1418). -/
def blockProperties (sb : Option SimpleBlock) : List String :=
  (blockDeclarations sb).foldr (fun d acc =>
    match d.name with
    | .ident s => s :: acc
    | _ => acc) []

/-- Embeds the `add_declaration!` macro (prefixer.rs lines 1422-1464): the
feature key is consulted with default `true`, the staged declaration must
match the active rule prefix, and nothing is staged when the enclosing
simple block already has a declaration of that property name; the value is
the override closure when given, otherwise the vendor's preprocessed
value. -/
def addDeclaration (tbl : CompatTable) (env : Versions) (st : PState)
    (properties : List String) (important : Bool)
    (vendorValue : Option (List CompVal) → Vendor → List CompVal)
    (acc : List (Vendor × Declaration)) (vendor : Vendor)
    (property : String) (overrideValue : Option (List CompVal)) :
    List (Vendor × Declaration) :=
  if sp tbl env property true then
    if st.ruleVendor = some vendor || st.ruleVendor = none then
      if !(properties.contains property) then
        acc ++ [(vendor,
          { name := .ident property,
            value := vendorValue overrideValue vendor,
            important := important })]
      else acc
    else acc
  else acc

/-- The names of the 3D transform functions whose presence suppresses the
`-ms-` and `-o-` transform variants (prefixer.rs lines 2322-2341). -/
def is3dTransformFunction (c : CompVal) : Bool :=
  match c with
  | .func name _ =>
    ["matrix3d", "translate3d", "translatez", "scale3d", "scalez",
     "rotate3d", "rotatex", "rotatey", "rotatez",
     "perspective"].contains (strLower name)
  | _ => false

/-- Embeds the staging part of `visit_mut_declaration` (prefixer.rs lines
1218-3069) for the modelled catalogue arms `appearance` (lines
1469-1473), `cursor` (lines 1621-1658), `display` (lines 1660-1712,
including the unchecked same-name old-spec push at line 1676),
`transform` (lines 2318-2350) and `unicode-bidi` (lines 2754-2784, whose
moz rewrites run under the webkit guard); every other property name
reaches the default arm; the arm dispatch is followed by the four
value-rewrite fallback pushes (lines 3034-3068). The result is the list
of declarations staged by one declaration visit, each tagged with the
vendor of the guard block that staged it. -/
def declAdds (tbl : CompatTable) (env : Versions) (st : PState)
    (d : Declaration) : List (Vendor × Declaration) :=
  if d.value.isEmpty then []
  else
    match d.name with
    | .dashed _ => []
    | .ident name =>
      let wGuard := st.ruleVendor = some .webkit || st.ruleVendor = none
      let mGuard := st.ruleVendor = some .moz || st.ruleVendor = none
      let oGuard := st.ruleVendor = some .o || st.ruleVendor = none
      let msGuard := st.ruleVendor = some .ms || st.ruleVendor = none
      let webkitValue :=
        if wGuard then webkitValueOf tbl env d.value else d.value
      let mozValue :=
        if mGuard then mozValueOf tbl env d.value else d.value
      let oValue :=
        if oGuard then oValueOf tbl env d.value else d.value
      let msValue := d.value
      let properties := blockProperties st.simpleBlock
      let vendorValue : Option (List CompVal) → Vendor → List CompVal :=
        fun overrideValue vendor =>
          match overrideValue with
          | some value => value
          | none =>
            match vendor with
            | .webkit => webkitValue
            | .moz => mozValue
            | .o => oValue
            | .ms => msValue
      let add := addDeclaration tbl env st properties d.important vendorValue
      let propertyName := strLower name
      let armOut : ArmOut :=
        if propertyName == "appearance" then
          ⟨webkitValue, mozValue, oValue, msValue,
            (let a := add [] .webkit "-webkit-appearance" none
             let a := add a .moz "-moz-appearance" none
             add a .ms "-ms-appearance" none)⟩
        else if propertyName == "cursor" then
          ⟨(if wGuard then cursorWebkitValue tbl env webkitValue
            else webkitValue),
           (if mGuard then cursorMozValue tbl env mozValue else mozValue),
           oValue, msValue, []⟩
        else if propertyName == "display" && d.value.length == 1 then
          ⟨(if wGuard then displayWebkitValue tbl env webkitValue
            else webkitValue),
           (if mGuard then displayMozValue tbl env mozValue else mozValue),
           oValue,
           (if msGuard then displayMsValue tbl env msValue else msValue),
           (if wGuard then
              (if cvEqList d.value
                  (displayOldSpecValue tbl env webkitValue) then []
               else [(Vendor.webkit,
                 { name := d.name,
                   value := displayOldSpecValue tbl env webkitValue,
                   important := d.important })])
            else [])⟩
        else if propertyName == "transform" then
          ⟨webkitValue, mozValue, oValue, msValue,
            (let a := add [] .webkit "-webkit-transform" none
             let a := add a .moz "-moz-transform" none
             let has3d := d.value.any is3dTransformFunction
             if !has3d then
               let a :=
                 if !st.inKeyframeBlock then add a .ms "-ms-transform" none
                 else a
               add a .o "-o-transform" none
             else a)⟩
        else if propertyName == "unicode-bidi" then
          ⟨(if wGuard then ubWebkitValue tbl env webkitValue
            else webkitValue),
           (if wGuard then ubMozValue tbl env mozValue else mozValue),
           oValue, msValue, []⟩
        else ⟨webkitValue, mozValue, oValue, msValue, []⟩
      armOut.pushes ++
      (if cvEqList d.value armOut.wv then []
       else [(Vendor.webkit,
         { name := d.name, value := armOut.wv, important := d.important })]) ++
      (if cvEqList d.value armOut.mv then []
       else [(Vendor.moz,
         { name := d.name, value := armOut.mv, important := d.important })]) ++
      (if cvEqList d.value armOut.ov then []
       else [(Vendor.o,
         { name := d.name, value := armOut.ov, important := d.important })]) ++
      (if cvEqList d.value armOut.sv then []
       else [(Vendor.ms,
         { name := d.name, value := armOut.sv, important := d.important })])

/-- Embeds `visit_mut_declaration`: the declaration node itself is never
mutated, so the visit only appends the staged declarations to the state. -/
def visitDeclaration (tbl : CompatTable) (env : Versions) (st : PState)
    (d : Declaration) : PState :=
  { st with addedDeclarations :=
      st.addedDeclarations ++ declAdds tbl env st d }

/-- The rewrite step of `visit_mut_supports_in_parens` (prefixer.rs lines
755-794), applied after the children visit to a `Feature` in-parens
term: when a supports-condition snapshot is present and declarations
were staged, the term becomes a condition holding the original term
first and an `Or` entry per staged declaration, skipping entries
span-ignoring-equal to one of the snapshot's conditions; the staged
declarations are drained; the node is replaced only when more than one
condition was collected. -/
def supportsParensRewrite (st : PState) (q : SupportsParens) :
    SupportsParens × PState :=
  match st.supportsCondition with
  | some sc =>
    if st.addedDeclarations.isEmpty then (q, st)
    else
      let ors := st.addedDeclarations.foldl
        (fun (acc : List SupportsEntry) n =>
          let e := SupportsEntry.orCond false (.feature n.2)
          if sc.conditions.any (fun ex => supEntryEq e ex) then acc
          else acc ++ [e]) []
      let conditions := SupportsEntry.inParens q :: ors
      let st1 := { st with addedDeclarations := [] }
      if conditions.length > 1 then (.cond (.mk conditions), st1)
      else (q, st1)
  | none => (q, st)

mutual
/-- Embeds `visit_mut_supports_condition` (prefixer.rs lines 738-746):
the pre-visit condition is snapshot into the state around the children
visit. -/
def visitSupportsCond (tbl : CompatTable) (env : Versions)
    (st : PState) : SupportsCond → SupportsCond × PState
  | .mk conds =>
    let old := st.supportsCondition
    let st1 := { st with supportsCondition := some (.mk conds) }
    let r := visitSupportsEntries tbl env st1 conds
    (.mk r.1, { r.2 with supportsCondition := old })
termination_by structural c => c
def visitSupportsEntries (tbl : CompatTable) (env : Versions)
    (st : PState) : List SupportsEntry → List SupportsEntry × PState
  | [] => ([], st)
  | e :: es =>
    let ev := visitSupportsEntry tbl env st e
    let rest := visitSupportsEntries tbl env ev.2 es
    (ev.1 :: rest.1, rest.2)
termination_by structural es => es
def visitSupportsEntry (tbl : CompatTable) (env : Versions)
    (st : PState) : SupportsEntry → SupportsEntry × PState
  | .inParens q =>
    let qv := visitSupportsParens tbl env st q
    (.inParens qv.1, qv.2)
  | .orCond k q =>
    let qv := visitSupportsParens tbl env st q
    (.orCond k qv.1, qv.2)
  | .andCond k q =>
    let qv := visitSupportsParens tbl env st q
    (.andCond k qv.1, qv.2)
  | .notCond k q =>
    let qv := visitSupportsParens tbl env st q
    (.notCond k qv.1, qv.2)
  | .raw t => (.raw t, st)
termination_by structural e => e
/-- Embeds `visit_mut_supports_in_parens` (prefixer.rs lines 747-795):
children first (a declaration feature is visited as a declaration, a
nested condition recursively), then the feature rewrite. -/
def visitSupportsParens (tbl : CompatTable) (env : Versions)
    (st : PState) : SupportsParens → SupportsParens × PState
  | .feature d =>
    supportsParensRewrite (visitDeclaration tbl env st d) (.feature d)
  | .featureRaw t => supportsParensRewrite st (.featureRaw t)
  | .cond c =>
    let cv := visitSupportsCond tbl env st c
    (.cond cv.1, cv.2)
  | .raw t => (.raw t, st)
termination_by structural q => q
end

/-- Embeds `visit_mut_import_prelude` (prefixer.rs lines 704-736):
children first (the supports clause's declaration or condition is
visited), then, when declarations were staged, the supports clause is
taken: a `Declaration` clause is rebuilt as a supports condition holding
the original declaration first and an `Or` entry per staged declaration
(draining them); any other taken clause is dropped (`Option::take`
leaves `None` when the `if let` pattern fails). -/
def visitImportPrelude (tbl : CompatTable) (env : Versions)
    (st : PState) (ip : ImportPreludeM) : ImportPreludeM × PState :=
  let sv : Option ImportSupports × PState :=
    match ip.supports with
    | some (.decl d) => (some (.decl d), visitDeclaration tbl env st d)
    | some (.cond c) =>
      let cv := visitSupportsCond tbl env st c
      (some (.cond cv.1), cv.2)
    | none => (none, st)
  let st1 := sv.2
  if st1.addedDeclarations.isEmpty then ({ href := ip.href, supports := sv.1 }, st1)
  else
    match sv.1 with
    | some (.decl declaration) =>
      let ors := st1.addedDeclarations.map
        (fun n => SupportsEntry.orCond false (.feature n.2))
      let sup := some (ImportSupports.cond
        (.mk (SupportsEntry.inParens (.feature declaration) :: ors)))
      ({ href := ip.href, supports := sup },
       { st1 with addedDeclarations := [] })
    | _ => ({ href := ip.href, supports := none }, st1)

/-- Embeds `visit_mut_media_query_list` (prefixer.rs lines 797-853): for
every query, a webkit and a moz device-pixel-ratio variant is built by the
resolution replacer and appended unless an equal query already exists in
the original list. -/
def visitMediaQueryList (tbl : CompatTable) (env : Versions)
    (qs : List MediaQuery) : List MediaQuery :=
  let newQueries := qs.foldl (fun acc n =>
    let acc :=
      if sp tbl env "-webkit-min-device-pixel-ratio" false then
        let nm := replMediaResolution "max-resolution"
          "-webkit-max-device-pixel-ratio"
          (replMediaResolution "min-resolution"
            "-webkit-min-device-pixel-ratio" n)
        if qs.any (fun e => mqEq nm e) then acc else acc ++ [nm]
      else acc
    if sp tbl env "min--moz-device-pixel-ratio" false then
      let nm := replMediaResolution "max-resolution"
        "max--moz-device-pixel-ratio"
        (replMediaResolution "min-resolution"
          "min--moz-device-pixel-ratio" n)
      if qs.any (fun e => mqEq nm e) then acc else acc ++ [nm]
    else acc) []
  qs ++ newQueries

/-- The selector-variant staging of `visit_mut_qualified_rule`
(prefixer.rs lines 855-1107), performed after the children visit: per
vendor guard, the prelude is rewritten by the pseudo replacers and a
variant rule (over the pre-visit block) is staged whenever the rewritten
prelude differs. -/
def qualSelectorStaging (tbl : CompatTable) (env : Versions) (st : PState)
    (prelude : SelectorList) (originalBlock : SimpleBlock) : PState :=
  let st :=
    if st.ruleVendor = some .webkit || st.ruleVendor = none then
      let p := prelude
      let p := if sp tbl env ":-webkit-autofill" false then
        replPseudoClass "autofill" "-webkit-autofill" p else p
      let p := if sp tbl env ":-webkit-any-link" false then
        replPseudoClass "any-link" "-webkit-any-link" p else p
      let p := if sp tbl env ":-webkit-full-screen" false then
        replPseudoClass "fullscreen" "-webkit-full-screen" p else p
      let p := if sp tbl env "::-webkit-file-upload-button" false then
        replPseudoElement "file-selector-button"
          "-webkit-file-upload-button" p else p
      let p := if sp tbl env "::-webkit-backdrop" false then
        replPseudoElement "backdrop" "-webkit-backdrop" p else p
      let p := if sp tbl env "::-webkit-file-upload-button" false then
        replPseudoElement "placeholder" "-webkit-input-placeholder" p else p
      if !(selListEq prelude p) then
        stageQualified st .webkit (.mk p originalBlock)
      else st
    else st
  let st :=
    if st.ruleVendor = some .moz || st.ruleVendor = none then
      let p := prelude
      let p := if sp tbl env ":-moz-read-only" false then
        replPseudoClass "read-only" "-moz-read-only" p else p
      let p := if sp tbl env ":-moz-read-write" false then
        replPseudoClass "read-write" "-moz-read-write" p else p
      let p := if sp tbl env ":-moz-any-link" false then
        replPseudoClass "any-link" "-moz-any-link" p else p
      let p := if sp tbl env ":-moz-full-screen" false then
        replPseudoClass "fullscreen" "-moz-full-screen" p else p
      let p := if sp tbl env "::-moz-selection" false then
        replPseudoElement "selection" "-moz-selection" p else p
      let st :=
        if sp tbl env ":-moz-placeholder" false then
          let pWithPrevious :=
            replPseudoClassOnElement "placeholder" "-moz-placeholder" p
          if !(selListEq pWithPrevious p) then
            stageQualified st .moz (.mk pWithPrevious originalBlock)
          else st
        else st
      let p := if sp tbl env "::-moz-placeholder" false then
        replPseudoElement "placeholder" "-moz-placeholder" p else p
      if !(selListEq prelude p) then
        stageQualified st .moz (.mk p originalBlock)
      else st
    else st
  if st.ruleVendor = some .ms || st.ruleVendor = none then
    let p := prelude
    let p := if sp tbl env ":-ms-fullscreen" false then
      replPseudoClass "fullscreen" "-ms-fullscreen" p else p
    let p := if sp tbl env ":-ms-input-placeholder" false then
      replPseudoClass "placeholder-shown" "-ms-input-placeholder" p else p
    let p := if sp tbl env "::-ms-browse" false then
      replPseudoElement "file-selector-button" "-ms-browse" p else p
    let p := if sp tbl env "::-ms-backdrop" false then
      replPseudoElement "backdrop" "-ms-backdrop" p else p
    let st :=
      if sp tbl env ":-ms-input-placeholder" false then
        let pWithPrevious :=
          replPseudoClassOnElement "placeholder" "-ms-input-placeholder" p
        if !(selListEq pWithPrevious p) then
          stageQualified st .ms (.mk pWithPrevious originalBlock)
        else st
      else st
    let p := if sp tbl env "::-ms-input-placeholder" false then
      replPseudoElement "placeholder" "-ms-input-placeholder" p else p
    if !(selListEq prelude p) then
      stageQualified st .ms (.mk p originalBlock)
    else st
  else st

/-- The at-rule variant staging of `visit_mut_at_rule` (prefixer.rs lines
613-701), performed after the children visit: `@viewport` stages the
`-ms-` variant (gated by the `@-o-viewport` key) and then the `-o-`
variant (gated by the `@-ms-viewport` key); `@keyframes` stages the
webkit, moz and o variants; the prelude is the post-visit prelude, the
block the pre-visit block. -/
def atRuleStaging (tbl : CompatTable) (env : Versions) (st : PState)
    (a : AtRule) (originalBlock : Option SimpleBlock) : PState :=
  if eqIgnoreCase a.name "viewport" then
    let st :=
      if sp tbl env "@-o-viewport" false then
        addAtRuleState st .ms (.mk "-ms-viewport" a.prelude originalBlock)
      else st
    if sp tbl env "@-ms-viewport" false then
      addAtRuleState st .o (.mk "-o-viewport" a.prelude originalBlock)
    else st
  else if eqIgnoreCase a.name "keyframes" then
    let st :=
      if sp tbl env "@-webkit-keyframes" false then
        addAtRuleState st .webkit
          (.mk "-webkit-keyframes" a.prelude originalBlock)
      else st
    let st :=
      if sp tbl env "@-moz-keyframes" false then
        addAtRuleState st .moz (.mk "-moz-keyframes" a.prelude originalBlock)
      else st
    if sp tbl env "@-o-keyframes" false then
      addAtRuleState st .o (.mk "-o-keyframes" a.prelude originalBlock)
    else st
  else st

/-- Drains the staged declarations of a simple block as
`StyleBlock::Declaration` items. -/
def drainDecls (st : PState) : List ComponentValue × PState :=
  (st.addedDeclarations.map (fun p => ComponentValue.styleBlock (.decl p.2)),
   { st with addedDeclarations := [] })

/-- Drains the staged at-rules of a simple block: each is visited
(children only, given by `visit`) under its vendor's `rulePrefix` and
wrapped as a `StyleBlock::AtRule` item. -/
def foldDrainAt (visit : PState → AtRule → AtRule × PState) (st : PState) :
    List ComponentValue × PState :=
  let items := st.addedAtRules
  (items.foldl (fun (p : List ComponentValue × PState) va =>
    let old := p.2.ruleVendor
    let st1 := { p.2 with ruleVendor := some va.1 }
    let av := visit st1 va.2
    (p.1 ++ [ComponentValue.styleBlock (.atRule av.1)],
     { av.2 with ruleVendor := old }))
    ([], { st with addedAtRules := [] }))

/-- Drains the staged qualified rules of a simple block: each is visited
(children only) under its vendor's `rulePrefix` and wrapped as a
`StyleBlock::QualifiedRule` item. -/
def foldDrainQual (visit : PState → QualifiedRule → QualifiedRule × PState)
    (st : PState) : List ComponentValue × PState :=
  let items := st.addedQualifiedRules
  (items.foldl (fun (p : List ComponentValue × PState) vq =>
    let old := p.2.ruleVendor
    let st1 := { p.2 with ruleVendor := some vq.1 }
    let qv := visit st1 vq.2
    (p.1 ++ [ComponentValue.styleBlock (.qualifiedRule qv.1)],
     { qv.2 with ruleVendor := old }))
    ([], { st with addedQualifiedRules := [] }))

/-- The drain loop over staged top-level rules of `visit_mut_stylesheet`:
a staged rule equal (under `eq_ignore_span`) to an already-emitted rule is
skipped; otherwise it is visited in full (given by `visit`) with
`rule_prefix` set to its vendor and emitted. -/
def foldDrainTop (visit : PState → CssRule → CssRule × PState) :
    List (Vendor × CssRule) → List CssRule × PState → List CssRule × PState
  | [], q => q
  | vr :: rest, q =>
    foldDrainTop visit rest
      (if q.1.any (fun e => ruleEq vr.2 e) then q
       else
         let old := q.2.ruleVendor
         let st1 := { q.2 with ruleVendor := some vr.1 }
         let rv := visit st1 vr.2
         (q.1 ++ [rv.1], { rv.2 with ruleVendor := old }))

/-- One step of the stylesheet loop: the rule is visited in full, the
staged top-level rules are drained in front of it, then the rule itself
is emitted. -/
def sheetStep (visit : PState → CssRule → CssRule × PState)
    (p : List CssRule × PState) (r : CssRule) : List CssRule × PState :=
  let rv := visit p.2 r
  let drained := rv.2.addedTopRules
  let dv := foldDrainTop visit drained
    (p.1, { rv.2 with addedTopRules := [] })
  (dv.1 ++ [rv.1], dv.2)

/-- One step of the simple-block loop: the item's children are visited,
then staged declarations, qualified rules and at-rules are drained and
inserted before the item according to its wrapper. -/
def blockStep (visitComp : PState → ComponentValue → ComponentValue × PState)
    (visitQualCh : PState → QualifiedRule → QualifiedRule × PState)
    (visitAtCh : PState → AtRule → AtRule × PState)
    (p : List ComponentValue × PState) (n : ComponentValue) :
    List ComponentValue × PState :=
  let nv := visitComp p.2 n
  let dv : List ComponentValue × PState :=
    match nv.1 with
    | .declOrAt _ =>
      let d1 := drainDecls nv.2
      let d2 := foldDrainAt visitAtCh d1.2
      (d1.1 ++ d2.1, d2.2)
    | .rule _ =>
      let d1 := foldDrainQual visitQualCh nv.2
      let d2 := foldDrainAt visitAtCh d1.2
      (d1.1 ++ d2.1, d2.2)
    | .styleBlock _ =>
      let d0 := drainDecls nv.2
      let d1 := foldDrainQual visitQualCh d0.2
      let d2 := foldDrainAt visitAtCh d1.2
      (d0.1 ++ d1.1 ++ d2.1, d2.2)
    | _ => ([], nv.2)
  (p.1 ++ dv.1 ++ [nv.1], dv.2)

mutual
/-- Embeds `visit_mut_stylesheet` (prefixer.rs lines 575-605): every rule
is visited, the staged top-level rules are drained in front of it, then
the rule itself is emitted. -/
def visitStylesheet (tbl : CompatTable) (env : Versions) :
    Nat → PState → Stylesheet → Stylesheet × PState
  | 0, st, s => (s, st)
  | fuel + 1, st, s =>
    let r := s.rules.foldl (sheetStep (visitRuleFull tbl env fuel)) ([], st)
    (⟨r.1⟩, r.2)
termination_by structural fuel st s => fuel

/-- Dispatch of `visit_mut_children_with` on the `Rule` enum: the full
at-rule or qualified-rule visit of the boxed node. -/
def visitRuleFull (tbl : CompatTable) (env : Versions) :
    Nat → PState → CssRule → CssRule × PState
  | 0, st, r => (r, st)
  | fuel + 1, st, .qualifiedRule q =>
    let qv := visitQualifiedRule tbl env fuel st q
    (.qualifiedRule qv.1, qv.2)
  | fuel + 1, st, .atRule a =>
    let av := visitAtRule tbl env fuel st a
    (.atRule av.1, av.2)
termination_by structural fuel st r => fuel

/-- Embeds `visit_mut_at_rule` (prefixer.rs lines 608-702): the pre-visit
block is saved, children are visited, then variants are staged. -/
def visitAtRule (tbl : CompatTable) (env : Versions) :
    Nat → PState → AtRule → AtRule × PState
  | 0, st, a => (a, st)
  | fuel + 1, st, a =>
    let originalBlock := a.block
    let av := visitAtRuleChildren tbl env fuel st a
    (av.1, atRuleStaging tbl env av.2 av.1 originalBlock)
termination_by structural fuel st a => fuel

/-- The children visit of an at-rule node (`visit_mut_children_with` on
the `AtRule` struct): the prelude (media query lists are expanded, and
the import preludes and supports conditions are visited by their
visitors) and then the block. -/
def visitAtRuleChildren (tbl : CompatTable) (env : Versions) :
    Nat → PState → AtRule → AtRule × PState
  | 0, st, a => (a, st)
  | fuel + 1, st, .mk name p b =>
    let pr : Option AtRulePrelude × PState :=
      match p with
      | some (.media qs) => (some (.media (visitMediaQueryList tbl env qs)), st)
      | some (.importPrelude ip) =>
        let iv := visitImportPrelude tbl env st ip
        (some (.importPrelude iv.1), iv.2)
      | some (.supports c) =>
        let cv := visitSupportsCond tbl env st c
        (some (.supports cv.1), cv.2)
      | other => (other, st)
    match b with
    | some blk =>
      let bv := visitSimpleBlock tbl env fuel pr.2 blk
      (.mk name pr.1 (some bv.1), bv.2)
    | none => (.mk name pr.1 none, pr.2)
termination_by structural fuel st a => fuel

/-- Embeds `visit_mut_qualified_rule` (prefixer.rs lines 855-1107): the
pre-visit block is saved, children are visited, then selector variants
are staged. -/
def visitQualifiedRule (tbl : CompatTable) (env : Versions) :
    Nat → PState → QualifiedRule → QualifiedRule × PState
  | 0, st, q => (q, st)
  | fuel + 1, st, q =>
    let originalBlock := q.block
    let qv := visitQualifiedRuleChildren tbl env fuel st q
    (qv.1, qualSelectorStaging tbl env qv.2 qv.1.prelude originalBlock)
termination_by structural fuel st q => fuel

/-- The children visit of a qualified-rule node: the prelude has no
visited children in the model, the block is visited. -/
def visitQualifiedRuleChildren (tbl : CompatTable) (env : Versions) :
    Nat → PState → QualifiedRule → QualifiedRule × PState
  | 0, st, q => (q, st)
  | fuel + 1, st, .mk p b =>
    let bv := visitSimpleBlock tbl env fuel st b
    (.mk p bv.1, bv.2)
termination_by structural fuel st q => fuel

/-- Embeds `visit_mut_simple_block` (prefixer.rs lines 1119-1216): the
pre-visit block is snapshot into the state; each item's children are
visited, then staged declarations, qualified rules and at-rules are
inserted before the item according to its wrapper; the snapshot is
restored. -/
def visitSimpleBlock (tbl : CompatTable) (env : Versions) :
    Nat → PState → SimpleBlock → SimpleBlock × PState
  | 0, st, b => (b, st)
  | fuel + 1, st, b =>
    let old := st.simpleBlock
    let st1 := { st with simpleBlock := some b }
    let r := b.value.foldl
      (blockStep (visitCompChildren tbl env fuel)
        (visitQualifiedRuleChildren tbl env fuel)
        (visitAtRuleChildren tbl env fuel)) ([], st1)
    (.mk r.1, { r.2 with simpleBlock := old })
termination_by structural fuel st b => fuel

/-- The children visit of one simple-block item: full dispatch on the
wrapped node. -/
def visitCompChildren (tbl : CompatTable) (env : Versions) :
    Nat → PState → ComponentValue → ComponentValue × PState
  | 0, st, n => (n, st)
  | fuel + 1, st, n =>
    match n with
    | .declOrAt (.decl d) =>
      (n, visitDeclaration tbl env st d)
    | .declOrAt (.atRule a) =>
      let av := visitAtRule tbl env fuel st a
      (.declOrAt (.atRule av.1), av.2)
    | .styleBlock (.decl d) =>
      (n, visitDeclaration tbl env st d)
    | .styleBlock (.qualifiedRule q) =>
      let qv := visitQualifiedRule tbl env fuel st q
      (.styleBlock (.qualifiedRule qv.1), qv.2)
    | .styleBlock (.atRule a) =>
      let av := visitAtRule tbl env fuel st a
      (.styleBlock (.atRule av.1), av.2)
    | .rule (.qualifiedRule q) =>
      let qv := visitQualifiedRule tbl env fuel st q
      (.rule (.qualifiedRule qv.1), qv.2)
    | .rule (.atRule a) =>
      let av := visitAtRule tbl env fuel st a
      (.rule (.atRule av.1), av.2)
    | .keyframeBlock kb =>
      let kv := visitKeyframeBlock tbl env fuel st kb
      (.keyframeBlock kv.1, kv.2)
    | .tok t => (.tok t, st)
termination_by structural fuel st n => fuel

/-- Embeds `visit_mut_keyframe_block` (prefixer.rs lines 1109-1117): the
in-keyframe-block flag is set around the children visit. -/
def visitKeyframeBlock (tbl : CompatTable) (env : Versions) :
    Nat → PState → KeyframeBlock → KeyframeBlock × PState
  | 0, st, kb => (kb, st)
  | fuel + 1, st, .mk sel b =>
    let old := st.inKeyframeBlock
    let st1 := { st with inKeyframeBlock := true }
    let bv := visitSimpleBlock tbl env fuel st1 b
    (.mk sel bv.1, { bv.2 with inKeyframeBlock := old })
termination_by structural fuel st kb => fuel
end

mutual
/-- Node count of a simple block (fuel accounting). -/
def sbSize : SimpleBlock → Nat
  | .mk v => 1 + cvListSize v
termination_by structural x => x
def cvListSize : List ComponentValue → Nat
  | [] => 0
  | c :: cs => compSize c + cvListSize cs
termination_by structural x => x
def compSize : ComponentValue → Nat
  | .declOrAt (.decl _) => 1
  | .declOrAt (.atRule a) => 1 + atSize a
  | .styleBlock (.decl _) => 1
  | .styleBlock (.qualifiedRule q) => 1 + qrSize q
  | .styleBlock (.atRule a) => 1 + atSize a
  | .rule (.qualifiedRule q) => 1 + qrSize q
  | .rule (.atRule a) => 1 + atSize a
  | .keyframeBlock (.mk _ b) => 1 + sbSize b
  | .tok _ => 1
termination_by structural x => x
def atSize : AtRule → Nat
  | .mk _ _ none => 1
  | .mk _ _ (some b) => 1 + sbSize b
termination_by structural x => x
def qrSize : QualifiedRule → Nat
  | .mk _ b => 1 + sbSize b
termination_by structural x => x
end

/-- Node count of a stylesheet. -/
def sheetSize (s : Stylesheet) : Nat :=
  s.rules.foldl (fun acc r =>
    acc + (match r with
           | .qualifiedRule q => 1 + qrSize q
           | .atRule a => 1 + atSize a)) 0

/-- Upper fuel bound for one prefixer run over a stylesheet. -/
def sheetFuel (s : Stylesheet) : Nat :=
  8 * sheetSize s + 16

/-- The prefixer entry point: one `prefixer` invocation over a stylesheet
with a fresh state. -/
def prefixSheet (tbl : CompatTable) (env : Versions) (s : Stylesheet) :
    Stylesheet :=
  (visitStylesheet tbl env (sheetFuel s) initState s).1

/-! ## The flat fragment

A restricted class of stylesheets on which one prefixer run is
characterised exactly, used to settle idempotence. -/

/-- True of a component value that is not a function call. -/
def nonFunc : CompVal → Bool
  | .func _ _ => false
  | _ => true

/-- A value none of whose top-level components is a function call;
every value rewriter of the prefixer fixes such values. -/
def funcFreeVal (v : List CompVal) : Bool := v.all nonFunc

/-- The visitor state at a simple-block visit reached from a fresh
invocation through qualified rules only. -/
def stOf (b : SimpleBlock) : PState :=
  ⟨false, some b, none, [], [], [], [], none⟩

/-- The property names of the catalogue arms of `visit_mut_declaration`
(prefixer.rs lines 1466-3021): the names matched by the dispatch on the
lowercased property name, in source order. -/
def catalogueNames : List String :=
  ["appearance", "animation", "animation-name", "animation-duration",
   "animation-delay", "animation-direction", "animation-fill-mode",
   "animation-iteration-count", "animation-play-state",
   "animation-timing-function", "background-clip", "box-decoration-break",
   "box-sizing", "color-adjust", "print-color-adjust", "columns",
   "column-width", "column-gap", "column-rule", "column-rule-color",
   "column-rule-width", "column-count", "column-rule-style", "column-span",
   "column-fill", "cursor", "display", "flex", "flex-grow", "flex-shrink",
   "flex-basis", "flex-direction", "flex-wrap", "flex-flow",
   "justify-content", "order", "align-items", "align-self", "align-content",
   "image-rendering", "filter", "backdrop-filter", "mask-clip",
   "mask-composite", "mask-image", "mask-origin", "mask-repeat",
   "mask-border-repeat", "mask-border-source", "mask", "mask-position",
   "mask-size", "mask-border", "mask-border-outset", "mask-border-width",
   "mask-border-slice", "border-inline-start", "border-inline-end",
   "margin-inline-start", "margin-inline-end", "padding-inline-start",
   "padding-inline-end", "border-block-start", "border-block-end",
   "margin-block-start", "margin-block-end", "padding-block-start",
   "padding-block-end", "backface-visibility", "clip-path", "position",
   "user-select", "transform", "transform-origin", "transform-style",
   "perspective", "perspective-origin", "text-decoration",
   "text-decoration-style", "text-decoration-color", "text-decoration-line",
   "text-decoration-skip", "text-decoration-skip-ink", "text-size-adjust",
   "transition", "transition-property", "transition-duration",
   "transition-delay", "transition-timing-function", "writing-mode",
   "width", "min-width", "max-width", "height", "min-height", "max-height",
   "inline-size", "min-inline-size", "max-inline-size", "block-size",
   "min-block-size", "max-block-size", "grid", "grid-template",
   "grid-template-rows", "grid-template-columns", "grid-auto-columns",
   "grid-auto-rows", "touch-action", "text-orientation", "unicode-bidi",
   "text-spacing", "text-emphasis", "text-emphasis-position",
   "text-emphasis-style", "text-emphasis-color", "flow-into", "flow-from",
   "region-fragment", "scroll-snap-type", "scroll-snap-coordinate",
   "scroll-snap-destination", "scroll-snap-points-x",
   "scroll-snap-points-y", "text-align-last", "text-overflow",
   "shape-margin", "shape-outside", "shape-image-threshold", "object-fit",
   "object-position", "tab-size", "hyphens", "border-image", "font-kerning",
   "font-feature-settings", "font-variant-ligatures",
   "font-language-override", "background-origin", "background-size",
   "overscroll-behavior", "box-shadow", "forced-color-adjust",
   "break-inside", "break-before", "break-after", "border-radius",
   "border-top-left-radius", "border-top-right-radius",
   "border-bottom-right-radius", "border-bottom-left-radius"]

/-- A flat property-name string: one of the two fully modelled catalogue
arms (`appearance`, `transform`) or a name outside the catalogue, so
that the declaration visit of the flat fragment is characterised exactly
by the modelled arms. -/
def flatNameS (s : String) : Bool :=
  (strLower s == "appearance") || (strLower s == "transform") ||
    !(catalogueNames.contains (strLower s))

/-- A flat declaration name. -/
def flatName : DeclName → Bool
  | .ident s => flatNameS s
  | .dashed _ => true

/-- A flat block item: a style-block declaration with a function-free
value and a flat name. -/
def flatItem : ComponentValue → Bool
  | .styleBlock (.decl d) => funcFreeVal d.value && flatName d.name
  | _ => false

/-- A block of flat items. -/
def flatBlock : SimpleBlock → Bool
  | .mk items => items.all flatItem

/-- A selector list without pseudo-class or pseudo-element components;
every pseudo replacer fixes such selectors. -/
def selFlat (sel : SelectorList) : Bool :=
  sel.all (fun c => match c with | .other _ => true | _ => false)

/-- A flat rule: a qualified rule with a flat selector and a flat block. -/
def flatRule : CssRule → Bool
  | .qualifiedRule (.mk p b) => selFlat p && flatBlock b
  | _ => false

/-- A flat stylesheet: top-level qualified rules that are flat. -/
def flatSheet (s : Stylesheet) : Bool := s.rules.all flatRule

/-- The style-block items staged by one declaration visit. -/
def stagedItems (tbl : CompatTable) (env : Versions) (b : SimpleBlock)
    (d : Declaration) : List ComponentValue :=
  (declAdds tbl env (stOf b) d).map
    (fun p => ComponentValue.styleBlock (.decl p.2))

/-- The items staged before one block item. -/
def stagedFor (tbl : CompatTable) (env : Versions) (b : SimpleBlock) :
    ComponentValue → List ComponentValue
  | .styleBlock (.decl d) => stagedItems tbl env b d
  | _ => []

/-- The items of the block produced by one prefixer run over a flat
block: each declaration is preceded by its staged variants. -/
def outItems (tbl : CompatTable) (env : Versions) (b : SimpleBlock) :
    List ComponentValue → List ComponentValue
  | [] => []
  | cv :: rest => stagedFor tbl env b cv ++ cv :: outItems tbl env b rest

/-- The block produced by one prefixer run over a flat block. -/
def outBlock (tbl : CompatTable) (env : Versions) (b : SimpleBlock) :
    SimpleBlock :=
  .mk (outItems tbl env b b.value)

/-- The rule produced by one prefixer run over a flat rule. -/
def outRule (tbl : CompatTable) (env : Versions) : CssRule → CssRule
  | .qualifiedRule (.mk p b) => .qualifiedRule (.mk p (outBlock tbl env b))
  | r => r

/-- The stylesheet produced by one prefixer run over a flat stylesheet. -/
def outSheet (tbl : CompatTable) (env : Versions) (s : Stylesheet) :
    Stylesheet :=
  ⟨s.rules.map (outRule tbl env)⟩

/-- The plain-identifier names of a declaration list (the inner fold of
`blockProperties`). -/
def propNames (ds : List Declaration) : List String :=
  ds.foldr (fun d acc =>
    match d.name with
    | .ident s => s :: acc
    | _ => acc) []

/-! ## Concrete prefixer fixtures -/

/-- The all-unset target: every browser slot is `none`. -/
def anyEnv : Versions := {}

/-- The empty compatibility table. -/
def emptyTable : CompatTable := fun _ => none

/-- A table with one feature key `"k"` whose low and high boundary columns
are both empty for every browser. -/
def c4Table : CompatTable := fun property =>
  if property = "k" then some ({}, {}) else none

/-- The declaration `background: calc(1)` (an unrecognised property whose
value triggers the `calc` function rewrites). -/
def calcDecl : Declaration :=
  { name := .ident "background", value := [.func "calc" [.int 1]],
    important := false }

/-- The stylesheet `a { background: calc(1) }`. -/
def calcSheet : Stylesheet :=
  ⟨[.qualifiedRule (.mk [SelComp.other "a"]
      (.mk [ComponentValue.styleBlock (.decl calcDecl)]))]⟩

/-- The stylesheet `@viewport {}`. -/
def vpSheet : Stylesheet :=
  ⟨[.atRule (.mk "viewport" none (some (.mk [])))]⟩

/-- The media query `(min-resolution: 2dppx)`. -/
def mqQuery : MediaQuery :=
  ⟨[{ name := "min-resolution", value := .resolution 2 "dppx" }]⟩

/-- The rule `@media (min-resolution: 2dppx) {}`. -/
def mqRule : CssRule :=
  .atRule (.mk "media" (some (.media [mqQuery])) (some (.mk [])))

/-- The stylesheet `@media (min-resolution: 2dppx) {}`. -/
def mqSheet : Stylesheet := ⟨[mqRule]⟩

/-- Names of the staged declarations of a prefixer state, as strings. -/
def addedNames (st : PState) : List String :=
  st.addedDeclarations.map (fun p =>
    match p.2.name with
    | .ident s => s
    | .dashed s => s)

/-- Name of a top-level rule, for observations on outputs. -/
def topRuleName : CssRule → String
  | .qualifiedRule _ => ""
  | .atRule a => a.name

/-- Item count of the block of the single qualified rule of a stylesheet
(observation used to separate non-idempotent outputs). -/
def singleBlockLen (s : Stylesheet) : Nat :=
  match s.rules with
  | [.qualifiedRule (.mk _ (.mk items))] => items.length
  | _ => 0

/-- Query count of the prelude of the single at-rule of a stylesheet. -/
def singleQueryLen (s : Stylesheet) : Nat :=
  match s.rules with
  | [.atRule (.mk _ (some (.media qs)) _)] => qs.length
  | _ => 0

/-- A simple block holding an author-written `-webkit-transform`
declaration next to a `transform` declaration. -/
def authorBlock : SimpleBlock :=
  .mk [ComponentValue.styleBlock (.decl
        ⟨.ident "-webkit-transform", [.ident "rotate"], false⟩),
       ComponentValue.styleBlock (.decl
        ⟨.ident "transform", [.ident "none"], false⟩)]

/-- Query count of a top-level at-rule with a media prelude
(observation used to separate outputs). -/
def ruleQueryLen : CssRule → Nat
  | .atRule (.mk _ (some (.media qs)) _) => qs.length
  | _ => 0

/-- A flat one-rule stylesheet with an `appearance` declaration. -/
def flatFixture : Stylesheet :=
  ⟨[.qualifiedRule (.mk [.other "a"]
    (.mk [.styleBlock (.decl
      ⟨.ident "appearance", [.ident "none"], false⟩)]))]⟩

/-! ## The HTML lexer fragment

Embeds the content states and the character-reference sub-machine of
`swc_html_parser` (lexer/mod.rs): the five content states, the numeric
character-reference states, and their helpers. -/

/-- Modelled from the spec: the HTML error taxonomy, restricted to the
kinds raised by the embedded states (the `ErrorKind` enum lives outside
the staged files). -/
inductive ErrKind where
  | unexpectedNullCharacter
  | surrogateInInputStream
  | controlCharacterInInputStream
  | noncharacterInInputStream
  | missingSemicolonAfterCharacterReference
  | absenceOfDigitsInNumericCharacterReference
  | nullCharacterReference
  | characterReferenceOutsideUnicodeRange
  | surrogateCharacterReference
  | noncharacterCharacterReference
  | controlCharacterReference
deriving DecidableEq, Repr

/-- Modelled from the spec: raw text of a character token: `Raw::Same`
(the raw text equals the value) or an explicit string. -/
inductive HRaw where
  | same
  | atom (s : String)
deriving DecidableEq, Repr

/-- Modelled from the spec: the token fragment produced by the embedded
states: character tokens (value and raw) and the end-of-file token. -/
inductive HToken where
  | character (value : Char) (raw : Option HRaw)
  | eof
deriving DecidableEq, Repr

/-- Modelled from the spec: an attribute of the tag token under
construction (the two fields the character-reference flush appends to). -/
structure HAttribute where
  value : Option String
  rawValue : Option String
deriving DecidableEq, Repr

/-- States of the lexer: the embedded states and their direct transition
targets (the `State` enum of lexer/mod.rs lines 14-95, restricted). -/
inductive HState where
  | data
  | rcdata
  | rawtext
  | scriptData
  | plainText
  | tagOpen
  | rcdataLessThanSign
  | rawtextLessThanSign
  | scriptDataLessThanSign
  | characterReference
  | namedCharacterReference
  | ambiguousAmpersand
  | numericCharacterReference
  | hexademicalCharacterReferenceStart
  | decimalCharacterReferenceStart
  | hexademicalCharacterReference
  | decimalCharacterReference
  | numericCharacterReferenceEnd
  | attributeValueDoubleQuoted
  | attributeValueSingleQuoted
  | attributeValueUnquoted
deriving DecidableEq, Repr

/-- The lexer state (the `Lexer` struct of lexer/mod.rs, spans erased;
the input is a character list with a cursor position). -/
structure HLexer where
  input : List Char
  pos : Nat
  cur : Option Char
  curPos : Nat
  state : HState
  returnState : HState
  finished : Bool
  pendingTokens : List HToken
  errors : List ErrKind
  temporaryBuffer : String
  characterReferenceCode : Option (List (Nat × Nat × Option Char))
  currentTagAttributes : Option (List HAttribute)
deriving Repr

/-- The next input character (`Lexer::next`). -/
def lnext (l : HLexer) : Option Char := l.input.get? l.pos

/-- Embeds `Lexer::consume`: the current character and its position are
recorded, then the cursor advances when a character is present. -/
def lconsume (l : HLexer) : HLexer :=
  let c := lnext l
  let l := { l with cur := c, curPos := l.pos }
  if c.isSome then { l with pos := l.pos + 1 } else l

/-- Embeds `Lexer::consume_next_char`. -/
def consumeNextChar (l : HLexer) : Option Char × HLexer :=
  (lnext l, lconsume l)

/-- Embeds `Lexer::reconsume`: the cursor returns to the current
character's position. -/
def lreconsume (l : HLexer) : HLexer := { l with pos := l.curPos }

/-- Embeds `Lexer::reconsume_in_state`. -/
def reconsumeInState (l : HLexer) (s : HState) : HLexer :=
  lreconsume { l with state := s }

/-- Embeds `Lexer::emit_error` (spans erased). -/
def emitErr (l : HLexer) (k : ErrKind) : HLexer :=
  { l with errors := l.errors ++ [k] }

/-- Embeds `Lexer::emit_token` (spans erased). -/
def emitTok (l : HLexer) (t : HToken) : HLexer :=
  { l with pendingTokens := l.pendingTokens ++ [t] }

/-- Embeds `Lexer::emit_character_token`: the raw text is `Raw::Same`. -/
def emitCharacterToken (l : HLexer) (c : Char) : HLexer :=
  emitTok l (.character c (some .same))

/-- Embeds `Lexer::emit_character_token_with_raw`: the raw text is the
given raw character. -/
def emitCharacterTokenWithRaw (l : HLexer) (v c : Char) : HLexer :=
  emitTok l (.character v (some (.atom (String.singleton c))))

/-- Embeds `Lexer::handle_raw_and_emit_character_token`: a carriage
return (folding a following line feed) becomes a line feed with the
original bytes as raw; anything else is emitted with `Raw::Same`. -/
def handleRawAndEmitCharacterToken (l : HLexer) (c : Char) : HLexer :=
  if c = '\r' then
    if lnext l = some '\n' then
      emitTok { l with pos := l.pos + 1 }
        (.character '\n' (some (.atom "\r\n")))
    else
      emitTok l (.character '\n' (some (.atom "\r")))
  else
    emitTok l (.character c (some .same))

/-- Embeds `is_control` (lexer/mod.rs lines 4542-4544). -/
def isControlCode (c : Nat) : Bool :=
  (c ≤ 0x1f || (0x7f ≤ c && c ≤ 0x9f)) &&
    !(c = 0x09 || c = 0x0a || c = 0x0c || c = 0x0d || c = 0x20)

/-- Embeds `is_surrogate` (lexer/mod.rs lines 4547-4549). -/
def isSurrogateCode (c : Nat) : Bool :=
  0xd800 ≤ c && c ≤ 0xdfff

/-- Embeds `is_noncharacter` (lexer/mod.rs lines 4558-4598). -/
def isNoncharacterCode (c : Nat) : Bool :=
  (0xfdd0 ≤ c && c ≤ 0xfdef) ||
    ([0xfffe, 0xffff, 0x1fffe, 0x1ffff, 0x2fffe, 0x2ffff, 0x3fffe,
      0x3ffff, 0x4fffe, 0x4ffff, 0x5fffe, 0x5ffff, 0x6fffe, 0x6ffff,
      0x7fffe, 0x7ffff, 0x8fffe, 0x8ffff, 0x9fffe, 0x9ffff, 0xafffe,
      0xaffff, 0xbfffe, 0xbffff, 0xcfffe, 0xcffff, 0xdfffe, 0xdffff,
      0xefffe, 0xeffff, 0xffffe, 0xfffff, 0x10fffe,
      0x10ffff] : List Nat).contains c

/-- Embeds `Lexer::validate_input_stream_character`. -/
def validateInputStreamCharacter (l : HLexer) (c : Char) : HLexer :=
  let code := c.toNat
  if isSurrogateCode code then emitErr l .surrogateInInputStream
  else if code ≠ 0x00 && isControlCode code then
    emitErr l .controlCharacterInInputStream
  else if isNoncharacterCode code then
    emitErr l .noncharacterInInputStream
  else l

/-- Embeds `Lexer::is_consumed_as_part_of_an_attribute`. -/
def isConsumedAsPartOfAnAttribute (l : HLexer) : Bool :=
  match l.returnState with
  | .attributeValueSingleQuoted => true
  | .attributeValueDoubleQuoted => true
  | .attributeValueUnquoted => true
  | _ => false

/-- The attribute side of
`flush_code_points_consumed_as_character_reference`: each temporary
buffer character is appended to the last attribute's value; the first
character carries the whole raw when one is given, later characters
their own text. -/
def flushIntoAttribute (chars : List Char) (raw : Option String)
    (attr : HAttribute) : HAttribute :=
  (chars.foldl (fun (st : HAttribute × Option String × Bool) c =>
    let a := st.1
    let onceRaw := st.2.1
    let onceEmitted := st.2.2
    let a := { a with value := some ((a.value.getD "").push c) }
    match onceRaw with
    | some r =>
      ({ a with rawValue := some ((a.rawValue.getD "") ++ r) }, none, true)
    | none =>
      if onceEmitted then (a, none, true)
      else
        let rv := some ((a.rawValue.getD "") ++ String.singleton c)
        ({ a with rawValue := rv }, none, false)) (attr, raw, false)).1

/-- Embeds `flush_code_points_consumed_as_character_reference`
(lexer/mod.rs lines 375-442). -/
def flushCodePoints (l : HLexer) (raw : Option String) : HLexer :=
  if isConsumedAsPartOfAnAttribute l then
    match l.currentTagAttributes with
    | some attrs =>
      match attrs.getLast? with
      | some attr =>
        let newAttrs := attrs.dropLast ++
          [flushIntoAttribute l.temporaryBuffer.data raw attr]
        let l := { l with currentTagAttributes := some newAttrs }
        { l with temporaryBuffer := "" }
      | none => l
    | none => l
  else
    let isValueEqRaw :=
      match raw with
      | some r => r == l.temporaryBuffer
      | none => true
    let toks :=
      if isValueEqRaw then
        l.temporaryBuffer.data.map
          (fun c => HToken.character c (some .same))
      else
        match l.temporaryBuffer.data with
        | [] => []
        | c :: rest =>
          HToken.character c (raw.map (fun r => HRaw.atom r)) ::
            rest.map (fun c2 => HToken.character c2 none)
    let l := { l with pendingTokens := l.pendingTokens ++ toks }
    { l with temporaryBuffer := "" }

/-- Embeds the checked accumulation loop of the numeric character
reference end state (lexer/mod.rs lines 4352-4383): value and collected
raw text of the `(base, digit, raw)` triples, with `u32` checked
multiply and add saturating to 0x110000. -/
def crcStep (st : Nat × Bool × String) (bvc : Nat × Nat × Option Char) :
    Nat × Bool × String :=
  let i := st.1
  let ov := st.2.1
  let raw :=
    match bvc.2.2 with
    | some c => st.2.2.push c
    | none => st.2.2
  if ov then (i, true, raw)
  else if i * bvc.1 > 4294967295 then (0x110000, true, raw)
  else if i * bvc.1 + bvc.2.1 > 4294967295 then (0x110000, true, raw)
  else (i * bvc.1 + bvc.2.1, false, raw)

def crcAccum (chars : List (Nat × Nat × Option Char)) : Nat × String :=
  let r := chars.foldl crcStep (0, false, "")
  (r.1, r.2.2)

/-- Embeds the Windows-1252 remap table of the numeric character
reference end state (lexer/mod.rs lines 4428-4489). -/
def win1252Remap (cr : Nat) : Nat :=
  if cr = 0x80 then 0x20ac
  else if cr = 0x82 then 0x201a
  else if cr = 0x83 then 0x0192
  else if cr = 0x84 then 0x201e
  else if cr = 0x85 then 0x2026
  else if cr = 0x86 then 0x2020
  else if cr = 0x87 then 0x2021
  else if cr = 0x88 then 0x02c6
  else if cr = 0x89 then 0x2030
  else if cr = 0x8a then 0x0160
  else if cr = 0x8b then 0x2039
  else if cr = 0x8c then 0x0152
  else if cr = 0x8e then 0x017d
  else if cr = 0x91 then 0x2018
  else if cr = 0x92 then 0x2019
  else if cr = 0x93 then 0x201c
  else if cr = 0x94 then 0x201d
  else if cr = 0x95 then 0x2022
  else if cr = 0x96 then 0x2013
  else if cr = 0x97 then 0x2014
  else if cr = 0x98 then 0x02dc
  else if cr = 0x99 then 0x2122
  else if cr = 0x9a then 0x0161
  else if cr = 0x9b then 0x203a
  else if cr = 0x9c then 0x0153
  else if cr = 0x9e then 0x017e
  else if cr = 0x9f then 0x0178
  else cr

/-- Embeds the correction of the character reference code (lexer/mod.rs
lines 4404-4491): the corrected code and the parse error it records. -/
def correctCrc (value : Nat) : Nat × Option ErrKind :=
  if value = 0 then (0xfffd, some .nullCharacterReference)
  else if value > 0x10ffff then
    (0xfffd, some .characterReferenceOutsideUnicodeRange)
  else if isSurrogateCode value then
    (0xfffd, some .surrogateCharacterReference)
  else if isNoncharacterCode value then
    (value, some .noncharacterCharacterReference)
  else if value = 0x0d || isControlCode value then
    (win1252Remap value, some .controlCharacterReference)
  else (value, none)

/-- Embeds `Lexer::run` (lexer/mod.rs line 914) on the embedded states;
a state outside the embedded fragment yields `none`. -/
def runStep (l : HLexer) : Option HLexer :=
  match l.state with
  | .data =>
    let r := consumeNextChar l
    let l := r.2
    match r.1 with
    | some '&' =>
      some { l with returnState := .data, state := .characterReference }
    | some '<' => some { l with state := .tagOpen }
    | some '\x00' =>
      some (emitCharacterToken (emitErr l .unexpectedNullCharacter) '\x00')
    | none => some (emitTok l .eof)
    | some c =>
      some (handleRawAndEmitCharacterToken
        (validateInputStreamCharacter l c) c)
  | .rcdata =>
    let r := consumeNextChar l
    let l := r.2
    match r.1 with
    | some '&' =>
      some { l with returnState := .rcdata, state := .characterReference }
    | some '<' => some { l with state := .rcdataLessThanSign }
    | some '\x00' =>
      some (emitCharacterTokenWithRaw (emitErr l .unexpectedNullCharacter)
        '�' '\x00')
    | none => some (emitTok l .eof)
    | some c =>
      some (handleRawAndEmitCharacterToken
        (validateInputStreamCharacter l c) c)
  | .rawtext =>
    let r := consumeNextChar l
    let l := r.2
    match r.1 with
    | some '<' => some { l with state := .rawtextLessThanSign }
    | some '\x00' =>
      some (emitCharacterTokenWithRaw (emitErr l .unexpectedNullCharacter)
        '�' '\x00')
    | none => some (emitTok l .eof)
    | some c =>
      some (handleRawAndEmitCharacterToken
        (validateInputStreamCharacter l c) c)
  | .scriptData =>
    let r := consumeNextChar l
    let l := r.2
    match r.1 with
    | some '<' => some { l with state := .scriptDataLessThanSign }
    | some '\x00' =>
      some (emitCharacterTokenWithRaw (emitErr l .unexpectedNullCharacter)
        '�' '\x00')
    | none => some (emitTok l .eof)
    | some c =>
      some (handleRawAndEmitCharacterToken
        (validateInputStreamCharacter l c) c)
  | .plainText =>
    let r := consumeNextChar l
    let l := r.2
    match r.1 with
    | some '\x00' =>
      some (emitCharacterTokenWithRaw (emitErr l .unexpectedNullCharacter)
        '�' '\x00')
    | none => some (emitTok l .eof)
    | some c =>
      some (handleRawAndEmitCharacterToken
        (validateInputStreamCharacter l c) c)
  | .characterReference =>
    let l := { l with temporaryBuffer := "&" }
    let r := consumeNextChar l
    let l := r.2
    match r.1 with
    | some c =>
      if c.isAlphanum then
        some (reconsumeInState l .namedCharacterReference)
      else if c = '#' then
        let l := { l with temporaryBuffer := l.temporaryBuffer.push c }
        some { l with state := .numericCharacterReference }
      else
        some (reconsumeInState (flushCodePoints l none) l.returnState)
    | none =>
      some (reconsumeInState (flushCodePoints l none) l.returnState)
  | .numericCharacterReference =>
    let l := { l with characterReferenceCode := some [(0, 0, none)] }
    let r := consumeNextChar l
    let l := r.2
    match r.1 with
    | some 'x' =>
      let l := { l with temporaryBuffer := l.temporaryBuffer.push 'x' }
      some { l with state := .hexademicalCharacterReferenceStart }
    | some 'X' =>
      let l := { l with temporaryBuffer := l.temporaryBuffer.push 'X' }
      some { l with state := .hexademicalCharacterReferenceStart }
    | _ => some (reconsumeInState l .decimalCharacterReferenceStart)
  | .hexademicalCharacterReferenceStart =>
    let r := consumeNextChar l
    let l := r.2
    match r.1 with
    | some c =>
      if c.isDigit || ('A' ≤ c && c ≤ 'F') || ('a' ≤ c && c ≤ 'f') then
        some (reconsumeInState l .hexademicalCharacterReference)
      else
        some (reconsumeInState
          (flushCodePoints
            (emitErr l .absenceOfDigitsInNumericCharacterReference) none)
          l.returnState)
    | none =>
      some (reconsumeInState
        (flushCodePoints
          (emitErr l .absenceOfDigitsInNumericCharacterReference) none)
        l.returnState)
  | .decimalCharacterReferenceStart =>
    let r := consumeNextChar l
    let l := r.2
    match r.1 with
    | some c =>
      if c.isDigit then
        some (reconsumeInState l .decimalCharacterReference)
      else
        some (reconsumeInState
          (flushCodePoints
            (emitErr l .absenceOfDigitsInNumericCharacterReference) none)
          l.returnState)
    | none =>
      some (reconsumeInState
        (flushCodePoints
          (emitErr l .absenceOfDigitsInNumericCharacterReference) none)
        l.returnState)
  | .hexademicalCharacterReference =>
    let r := consumeNextChar l
    let l := r.2
    match r.1 with
    | some c =>
      if c.isDigit then
        match l.characterReferenceCode with
        | some lst =>
          some { l with characterReferenceCode :=
                          some (lst ++ [(16, c.toNat - 0x30, some c)]) }
        | none => none
      else if 'A' ≤ c && c ≤ 'F' then
        match l.characterReferenceCode with
        | some lst =>
          some { l with characterReferenceCode :=
                          some (lst ++ [(16, c.toNat - 0x37, some c)]) }
        | none => none
      else if 'a' ≤ c && c ≤ 'f' then
        match l.characterReferenceCode with
        | some lst =>
          some { l with characterReferenceCode :=
                          some (lst ++ [(16, c.toNat - 0x57, some c)]) }
        | none => none
      else if c = ';' then
        some { l with state := .numericCharacterReferenceEnd }
      else
        some (reconsumeInState
          (emitErr l .missingSemicolonAfterCharacterReference)
          .numericCharacterReferenceEnd)
    | none =>
      some (reconsumeInState
        (emitErr l .missingSemicolonAfterCharacterReference)
        .numericCharacterReferenceEnd)
  | .decimalCharacterReference =>
    let r := consumeNextChar l
    let l := r.2
    match r.1 with
    | some c =>
      if c.isDigit then
        match l.characterReferenceCode with
        | some lst =>
          some { l with characterReferenceCode :=
                          some (lst ++ [(10, c.toNat - 0x30, some c)]) }
        | none => none
      else if c = ';' then
        some { l with state := .numericCharacterReferenceEnd }
      else
        some (reconsumeInState
          (emitErr l .missingSemicolonAfterCharacterReference)
          .numericCharacterReferenceEnd)
    | none =>
      some (reconsumeInState
        (emitErr l .missingSemicolonAfterCharacterReference)
        .numericCharacterReferenceEnd)
  | .numericCharacterReferenceEnd =>
    match l.characterReferenceCode with
    | none => none
    | some chars =>
      let l := { l with characterReferenceCode := none }
      let acc := crcAccum chars
      let corr := correctCrc acc.1
      let l := match corr.2 with
        | some e => emitErr l e
        | none => l
      let raw := l.temporaryBuffer ++ acc.2 ++
        (if l.cur = some ';' then ";" else "")
      let newBuf := String.singleton (Char.ofNat corr.1)
      let l := { l with temporaryBuffer := newBuf }
      let l := flushCodePoints l (some raw)
      some { l with state := l.returnState }
  | _ => none

/-- Modelled from the spec: the ideal value of the accumulated
(base, digit) pairs: exact arithmetic while every intermediate result
fits a `u32`, overflow (`none`) otherwise. -/
def specCrc : List (Nat × Nat × Option Char) → Nat → Option Nat
  | [], i => some i
  | bvc :: rest, i =>
    if i * bvc.1 + bvc.2.1 ≤ 4294967295 then
      specCrc rest (i * bvc.1 + bvc.2.1)
    else none

/-- The raw attached to the character token emitted by the numeric
character-reference end state: the consumed raw text (temporary buffer,
digit raws, optional terminating semicolon), as `Raw::Same` when it equals
the emitted character and as the verbatim text otherwise. -/
def crRaw (buf : String) (chars : List (Nat × Nat × Option Char))
    (cur : Option Char) (c : Char) : Option HRaw :=
  some (if buf ++ (crcAccum chars).2 ++ (if cur = some ';' then ";" else "")
      = String.singleton c then .same
    else .atom (buf ++ (crcAccum chars).2 ++
      (if cur = some ';' then ";" else "")))

def crefChars : List (Nat × Nat × Option Char) :=
  [(0, 0, none), (10, 1, some '1'), (10, 2, some '2'), (10, 8, some '8')]

def crefLexer : HLexer :=
  ⟨[], 0, some ';', 0, .numericCharacterReferenceEnd, .data, false, [],
   [], "&#", some crefChars, none⟩

def nulLexer : HLexer :=
  ⟨['\x00'], 0, none, 0, .data, .data, false, [], [], "", none, none⟩

/-- A lexer in the Rcdata state whose input is one NUL character. -/
def rcdataNulLexer : HLexer :=
  ⟨['\x00'], 0, none, 0, .rcdata, .data, false, [], [], "", none, none⟩

/-! ## Basic lemmas -/

/-- The target predicate is constantly `true` on the all-unset target. -/
theorem sp_any (tbl : CompatTable) (k : String) (d : Bool) :
    sp tbl anyEnv k d = true := by
  simp [sp, shouldPrefixFor, anyEnv, Versions.isAnyTarget, Versions.slots]

mutual
/-- Reflexivity of component-value equality. -/
theorem cvEq_refl : ∀ c, cvEq c c = true
  | .ident _ => by simp [cvEq]
  | .func n args => by simp [cvEq, cvEqList_refl args]
  | .comma => by simp [cvEq]
  | .str _ => by simp [cvEq]
  | .url _ => by simp [cvEq]
  | .num _ => by simp [cvEq]
  | .pct _ => by simp [cvEq]
  | .int _ => by simp [cvEq]
termination_by structural c => c
/-- Reflexivity of component-value list equality. -/
theorem cvEqList_refl : ∀ l, cvEqList l l = true
  | [] => by simp [cvEqList]
  | c :: cs => by simp [cvEqList, cvEq_refl c, cvEqList_refl cs]
termination_by structural l => l
end

/-- Reflexivity of declaration-name equality. -/
theorem dnEq_refl (n : DeclName) : dnEq n n = true := by
  cases n <;> simp [dnEq]

/-- Reflexivity of declaration equality. -/
theorem declEq_refl (d : Declaration) : declEq d d = true := by
  simp [declEq, dnEq_refl, cvEqList_refl]

/-- Reflexivity of selector-component equality. -/
theorem selCompEq_refl (c : SelComp) : selCompEq c c = true := by
  cases c <;> simp [selCompEq]

/-- Reflexivity of selector-list equality. -/
theorem selListEq_refl : ∀ l : SelectorList, selListEq l l = true
  | [] => by simp [selListEq]
  | c :: cs => by simp [selListEq, selCompEq_refl c, selListEq_refl cs]

/-- Reflexivity of media-feature-value equality. -/
theorem mfvEq_refl (v : MFValue) : mfvEq v v = true := by
  cases v <;> simp [mfvEq]

/-- Reflexivity of plain-media-feature equality. -/
theorem mfpEq_refl (f : MediaFeaturePlain) : mfpEq f f = true := by
  simp [mfpEq, mfvEq_refl]

/-- Reflexivity of `listEqWith` under a reflexive comparison. -/
theorem listEqWith_refl (eq : α → α → Bool) (h : ∀ a, eq a a = true) :
    ∀ l, listEqWith eq l l = true
  | [] => by simp [listEqWith]
  | c :: cs => by simp [listEqWith, h c, listEqWith_refl eq h cs]

/-- Reflexivity of media-query equality. -/
theorem mqEq_refl (q : MediaQuery) : mqEq q q = true := by
  simp [mqEq, listEqWith_refl mfpEq mfpEq_refl]

mutual
theorem supCondEq_refl : ∀ c, supCondEq c c = true
  | .mk cs => by rw [supCondEq]; exact supEntryListEq_refl cs
termination_by structural c => c
theorem supEntryListEq_refl : ∀ l, supEntryListEq l l = true
  | [] => rfl
  | e :: es => by
    rw [supEntryListEq, supEntryEq_refl e, supEntryListEq_refl es]; rfl
termination_by structural l => l
theorem supEntryEq_refl : ∀ e, supEntryEq e e = true
  | .inParens q => by rw [supEntryEq]; exact supParensEq_refl q
  | .orCond k q => by
    rw [supEntryEq, supParensEq_refl q]; simp
  | .andCond k q => by
    rw [supEntryEq, supParensEq_refl q]; simp
  | .notCond k q => by
    rw [supEntryEq, supParensEq_refl q]; simp
  | .raw t => by simp [supEntryEq]
termination_by structural e => e
theorem supParensEq_refl : ∀ q, supParensEq q q = true
  | .feature d => by rw [supParensEq]; exact declEq_refl d
  | .featureRaw t => by simp [supParensEq]
  | .cond c => by rw [supParensEq]; exact supCondEq_refl c
  | .raw t => by simp [supParensEq]
termination_by structural q => q
end

theorem importSupEq_refl : ∀ s, importSupEq s s = true
  | none => rfl
  | some (.decl d) => declEq_refl d
  | some (.cond c) => supCondEq_refl c

theorem importPreludeEq_refl (p : ImportPreludeM) :
    importPreludeEq p p = true := by
  simp [importPreludeEq, importSupEq_refl]

/-- Reflexivity of at-rule-prelude equality. -/
theorem atPreludeEq_refl (p : AtRulePrelude) : atPreludeEq p p = true := by
  cases p <;> simp [atPreludeEq, listEqWith_refl mqEq mqEq_refl,
    importPreludeEq_refl, supCondEq_refl]

mutual
/-- Reflexivity of simple-block equality. -/
theorem sbEq_refl : ∀ b, sbEq b b = true
  | .mk v => by simp [sbEq, cvListEq_refl v]
termination_by structural b => b
/-- Reflexivity of component-value-list equality. -/
theorem cvListEq_refl : ∀ l, cvListEq l l = true
  | [] => by simp [cvListEq]
  | c :: cs => by simp [cvListEq, compEq_refl c, cvListEq_refl cs]
termination_by structural l => l
/-- Reflexivity of block-item equality. -/
theorem compEq_refl : ∀ c, compEq c c = true
  | .declOrAt a => by simp [compEq, darEq_refl a]
  | .styleBlock a => by simp [compEq, sbiEq_refl a]
  | .rule a => by simp [compEq, ruleEq_refl a]
  | .keyframeBlock a => by simp [compEq, kbEq_refl a]
  | .tok _ => by simp [compEq]
termination_by structural c => c
/-- Reflexivity of declaration-or-at-rule equality. -/
theorem darEq_refl : ∀ a, darEq a a = true
  | .decl d => by simp [darEq, declEq_refl d]
  | .atRule a => by simp [darEq, atEq_refl a]
termination_by structural a => a
/-- Reflexivity of style-block-item equality. -/
theorem sbiEq_refl : ∀ a, sbiEq a a = true
  | .decl d => by simp [sbiEq, declEq_refl d]
  | .qualifiedRule q => by simp [sbiEq, qrEq_refl q]
  | .atRule a => by simp [sbiEq, atEq_refl a]
termination_by structural a => a
/-- Reflexivity of rule equality. -/
theorem ruleEq_refl : ∀ r, ruleEq r r = true
  | .qualifiedRule q => by simp [ruleEq, qrEq_refl q]
  | .atRule a => by simp [ruleEq, atEq_refl a]
termination_by structural r => r
/-- Reflexivity of keyframe-block equality. -/
theorem kbEq_refl : ∀ k, kbEq k k = true
  | .mk s b => by simp [kbEq, sbEq_refl b]
termination_by structural k => k
/-- Reflexivity of at-rule equality. -/
theorem atEq_refl : ∀ a, atEq a a = true
  | .mk n p b => by
    cases p <;> simp [atEq, optEqWith, atPreludeEq_refl, optSbEq_refl b]
termination_by structural a => a
/-- Reflexivity of optional-block equality. -/
theorem optSbEq_refl : ∀ b, optSbEq b b = true
  | none => by simp [optSbEq]
  | some b => by simp [optSbEq, sbEq_refl b]
termination_by structural b => b
/-- Reflexivity of qualified-rule equality. -/
theorem qrEq_refl : ∀ q, qrEq q q = true
  | .mk p b => by simp [qrEq, selListEq_refl p, sbEq_refl b]
termination_by structural q => q
end

/-- Reflexivity of stylesheet equality. -/
theorem sheetEq_refl (s : Stylesheet) : sheetEq s s = true := by
  simp [sheetEq, listEqWith_refl ruleEq ruleEq_refl]

/-! ## C4: the target predicate on an empty target -/

/-- Claim C4 (counterexample): for the feature key `"k"`, present in the
table with empty boundary columns, and the all-unset target,
`should_prefix` with caller default `false` does not return the default:
the all-unset target is "any target" and short-circuits to `true`. -/
theorem c4_counterexample :
    ¬ (shouldPrefixFor c4Table "k" anyEnv false = false) := by
  decide

/-- Claim C4 (amended): for every table, feature key and caller default,
`should_prefix` on the all-unset target returns `true` (the any-target
rule short-circuits before the table is consulted); the all-empty branch
of `should_enable` does return the default passed to it, but
`should_prefix` passes the constant `false` there, not the caller
default. -/
theorem c4_amended (table : CompatTable) (k : String) (d : Bool) :
    shouldPrefixFor table k anyEnv d = true ∧
    shouldEnable anyEnv anyEnv anyEnv d = d := by
  constructor
  · simp [shouldPrefixFor, Versions.isAnyTarget, anyEnv, Versions.slots]
  · simp [shouldEnable, slotsZip, anyEnv, Versions.slots]

/-! ## C8: the transform arm -/

/-- The declaration `transform: translate3d(1)`: its value contains a 3D
transform function. -/
def transform3dDecl : Declaration :=
  { name := .ident "transform", value := [.func "translate3d" [.int 1]],
    important := false }

/-- Claim C8 (counterexample): on `transform: translate3d(1)` (any-target
environment, not inside a keyframe block) the prefixer stages only the
`-webkit-` and `-moz-` variants; the `-o-transform` variant, which the
claim says is still added for 3D values, is not staged. -/
theorem c8_counterexample :
    addedNames (visitDeclaration emptyTable anyEnv initState
        transform3dDecl) = ["-webkit-transform", "-moz-transform"] ∧
    "-o-transform" ∉ addedNames
      (visitDeclaration emptyTable anyEnv initState transform3dDecl) := by
  decide

/-- Claim C8 (amended): expanding `transform` under the any-target
environment stages `-webkit-transform` and `-moz-transform` always,
`-ms-transform` exactly when the value has no 3D transform function and
the declaration is not inside a keyframe block, and `-o-transform` exactly
when the value has no 3D transform function — a 3D value therefore loses
both the `-ms-` and the `-o-` variant (value-rewrite fallback
declarations, which carry the original property name, are filtered out of
the observation). -/
theorem c8_amended (value : List CompVal) (imp kf : Bool)
    (h : value ≠ []) :
    (addedNames (visitDeclaration emptyTable anyEnv
        { initState with inKeyframeBlock := kf }
        ⟨.ident "transform", value, imp⟩)).filter
          (fun s => s != "transform") =
      ["-webkit-transform", "-moz-transform"] ++
      (if value.any is3dTransformFunction then []
       else (if kf then [] else ["-ms-transform"]) ++ ["-o-transform"]) := by
  have hne : value.isEmpty = false := by
    cases value with
    | nil => exact absurd rfl h
    | cons a l => rfl
  simp only [visitDeclaration, declAdds, hne, Bool.false_eq_true, if_false,
    show strLower "transform" = "transform" from by decide,
    show ("transform" == "appearance") = false from by decide,
    show ("transform" == "cursor") = false from by decide,
    show ("transform" == "display") = false from by decide,
    show ("transform" == "transform") = true from by decide,
    Bool.false_and, addDeclaration, sp_any, initState, addedNames,
    blockProperties, blockDeclarations]
  by_cases h3 : value.any is3dTransformFunction <;>
    by_cases hkf : kf <;>
      simp [h3, hkf, cvEqList_refl] <;> split_ifs <;>
        simp [List.filter,
          show (("-webkit-transform" != "transform")) = true from by decide,
          show (("-moz-transform" != "transform")) = true from by decide,
          show (("-ms-transform" != "transform")) = true from by decide,
          show (("-o-transform" != "transform")) = true from by decide,
          show (("transform" != "transform")) = false from by decide]

/-- Claim C8 (witness): the amended theorem applied to
`transform: translate3d(1)` outside keyframe blocks. -/
theorem c8_witness :
    ([CompVal.func "translate3d" [CompVal.int 1]] ≠
      ([] : List CompVal)) ∧
    (addedNames (visitDeclaration emptyTable anyEnv
        { initState with inKeyframeBlock := false }
        ⟨.ident "transform", [CompVal.func "translate3d" [CompVal.int 1]],
          false⟩)).filter (fun s => s != "transform") =
      ["-webkit-transform", "-moz-transform"] ++
      (if [CompVal.func "translate3d" [CompVal.int 1]].any
          is3dTransformFunction then []
       else (if false then [] else ["-ms-transform"]) ++
         ["-o-transform"]) :=
  And.intro (fun hx => List.noConfusion hx)
    (c8_amended [CompVal.func "translate3d" [CompVal.int 1]] false false
      (fun hx => List.noConfusion hx))


/-! ## Membership characterisation of staged declarations -/

/-- Every pair a call of `addDeclaration` appends beyond its accumulator
carries the given vendor and property name, passes the rule-vendor guard,
and names a property absent from the surrounding block. -/
theorem addDeclaration_mem {tbl : CompatTable} {env : Versions}
    {st : PState} {props : List String} {imp : Bool}
    {vv : Option (List CompVal) → Vendor → List CompVal}
    {acc : List (Vendor × Declaration)} {w : Vendor} {prop : String}
    {ov : Option (List CompVal)} {p : Vendor × Declaration}
    (hp : p ∈ addDeclaration tbl env st props imp vv acc w prop ov) :
    p ∈ acc ∨
      (p.1 = w ∧ p.2.name = .ident prop ∧
       (st.ruleVendor = some w ∨ st.ruleVendor = none) ∧
       props.contains prop = false) := by
  unfold addDeclaration at hp
  split_ifs at hp with h1 h2 h3
  · rw [List.mem_append] at hp
    rcases hp with hp | hp
    · exact Or.inl hp
    · right
      simp only [List.mem_singleton] at hp
      subst hp
      refine ⟨rfl, rfl, ?_, ?_⟩
      · simpa [decide_eq_true_eq] using h2
      · simpa using h3
  · exact Or.inl hp
  · exact Or.inl hp
  · exact Or.inl hp

theorem contains_iff_mem {l : List String} {a : String} :
    l.contains a = true ↔ a ∈ l := List.elem_iff

/-- The rule-vendor guard of the staging helpers, as a proposition. -/
theorem guard_or {st : PState} {v : Vendor}
    (h : (st.ruleVendor = some v || st.ruleVendor = none) = true) :
    st.ruleVendor = some v ∨ st.ruleVendor = none := by
  simp only [Bool.or_eq_true, decide_eq_true_eq] at h
  exact h

/-- A member of one tail value-rewrite push carries the push's vendor and
the original declaration's name, and any Boolean `G` under which the
pushed value collapses to the original value must be true. -/
theorem tail_mem_guard (G : Bool) {nm : DeclName} {dv : List CompVal}
    {imp : Bool} {w : Vendor} {val : List CompVal}
    {p : Vendor × Declaration}
    (hval : G = false → val = dv)
    (hp : p ∈ (if cvEqList dv val then []
      else [(w, (⟨nm, val, imp⟩ : Declaration))])) :
    p.1 = w ∧ p.2.name = nm ∧ G = true := by
  cases hg : G with
  | false =>
    rw [hval hg, cvEqList_refl] at hp
    simp at hp
  | true =>
    split_ifs at hp
    · cases hp
    · rcases List.mem_singleton.mp hp with rfl
      exact ⟨rfl, rfl, rfl⟩

/-- One step of the `add_declaration!` chains: a member is either already
in the accumulator or names a property absent from the surrounding block,
under the rule-vendor guard of its own vendor. -/
theorem addDeclaration_chain {tbl : CompatTable} {env : Versions}
    {st : PState} {props : List String} {imp : Bool}
    {vv : Option (List CompVal) → Vendor → List CompVal}
    {acc : List (Vendor × Declaration)} {w : Vendor} {prop : String}
    {ov : Option (List CompVal)} {p : Vendor × Declaration}
    (hp : p ∈ addDeclaration tbl env st props imp vv acc w prop ov) :
    p ∈ acc ∨
      (∃ pr, p.2.name = .ident pr ∧ props.contains pr = false ∧
        (st.ruleVendor = some p.1 ∨ st.ruleVendor = none)) := by
  rcases addDeclaration_mem hp with h | ⟨hqv, hqn, hg, hc⟩
  · exact Or.inl h
  · exact Or.inr ⟨prop, hqn, hc, by rw [hqv]; exact hg⟩

theorem addDeclaration_mem_full {tbl : CompatTable} {env : Versions}
    {st : PState} {props : List String} {imp : Bool}
    {vv : Option (List CompVal) → Vendor → List CompVal}
    {acc : List (Vendor × Declaration)} {w : Vendor} {prop : String}
    {ov : Option (List CompVal)} {p : Vendor × Declaration}
    (hp : p ∈ addDeclaration tbl env st props imp vv acc w prop ov) :
    p ∈ acc ∨ p = (w, ⟨.ident prop, vv ov w, imp⟩) := by
  unfold addDeclaration at hp
  split_ifs at hp with h1 h2 h3
  · rw [List.mem_append] at hp
    rcases hp with hp | hp
    · exact Or.inl hp
    · simp only [List.mem_singleton] at hp
      exact Or.inr hp
  · exact Or.inl hp
  · exact Or.inl hp
  · exact Or.inl hp

theorem addDeclaration_noop {tbl : CompatTable} {env : Versions}
    {st : PState} {props : List String} {imp : Bool}
    {vv : Option (List CompVal) → Vendor → List CompVal}
    {acc : List (Vendor × Declaration)} {w : Vendor} {prop : String}
    {ov : Option (List CompVal)}
    (h : sp tbl env prop true = true → props.contains prop = true) :
    addDeclaration tbl env st props imp vv acc w prop ov = acc := by
  unfold addDeclaration
  split_ifs with h1 h2 h3
  · exact absurd (h h1) (by simpa using h3)
  · rfl
  · rfl
  · rfl

theorem addDeclaration_mono {tbl : CompatTable} {env : Versions}
    {st : PState} {props : List String} {imp : Bool}
    {vv : Option (List CompVal) → Vendor → List CompVal}
    {acc : List (Vendor × Declaration)} {w : Vendor} {prop : String}
    {ov : Option (List CompVal)} {p : Vendor × Declaration} (hp : p ∈ acc) :
    p ∈ addDeclaration tbl env st props imp vv acc w prop ov := by
  unfold addDeclaration
  split_ifs
  · exact List.mem_append_left _ hp
  · exact hp
  · exact hp
  · exact hp

theorem addDeclaration_fires {tbl : CompatTable} {env : Versions}
    {st : PState} {props : List String} {imp : Bool}
    {vv : Option (List CompVal) → Vendor → List CompVal}
    {acc : List (Vendor × Declaration)} {w : Vendor} {prop : String}
    {ov : Option (List CompVal)}
    (h1 : sp tbl env prop true = true) (h2 : st.ruleVendor = none)
    (h3 : props.contains prop = false) :
    (w, ⟨.ident prop, vv ov w, imp⟩) ∈
      addDeclaration tbl env st props imp vv acc w prop ov := by
  unfold addDeclaration
  rw [if_pos h1, if_pos (by simp [h2]), if_pos (by rw [h3]; rfl)]
  exact List.mem_append_right _ (List.mem_singleton.mpr rfl)

/-- Membership characterisation of `declAdds`: every staged declaration
either names a prefixed property absent from the surrounding block under
its own vendor's rule guard (the catalogue stagings), or keeps the
visited declaration's name; a same-name push carries its own vendor's
guard except in the `unicode-bidi` arm, whose moz value rewrite runs
under the webkit guard. -/
theorem declAdds_split {tbl : CompatTable} {env : Versions} {st : PState}
    {d : Declaration} {p : Vendor × Declaration}
    (hp : p ∈ declAdds tbl env st d) :
    (∃ prop, p.2.name = .ident prop ∧
      (blockProperties st.simpleBlock).contains prop = false ∧
      (st.ruleVendor = some p.1 ∨ st.ruleVendor = none)) ∨
    (p.2.name = d.name ∧
      ((st.ruleVendor = some p.1 ∨ st.ruleVendor = none) ∨
       (p.1 = Vendor.moz ∧
        (st.ruleVendor = some Vendor.webkit ∨ st.ruleVendor = none) ∧
        ∃ s, d.name = .ident s ∧ strLower s = "unicode-bidi"))) := by
  unfold declAdds at hp
  by_cases he : d.value.isEmpty
  · simp [he] at hp
  · simp only [he, Bool.false_eq_true, if_false] at hp
    cases hd : d.name with
    | dashed s => rw [hd] at hp; simp at hp
    | ident name =>
      simp only [hd] at hp
      by_cases c1 : (strLower name == "appearance")
      · simp only [c1, if_true] at hp
        rw [List.mem_append, List.mem_append, List.mem_append,
          List.mem_append] at hp
        rcases hp with ((((hp | hp) | hp) | hp) | hp)
        · rcases addDeclaration_chain hp with hp | hL
          · rcases addDeclaration_chain hp with hp | hL
            · rcases addDeclaration_chain hp with hp | hL
              · cases hp
              · exact Or.inl hL
            · exact Or.inl hL
          · exact Or.inl hL
        · obtain ⟨hv, hnm, hgT⟩ := tail_mem_guard
            (st.ruleVendor = some Vendor.webkit || st.ruleVendor = none)
            (fun hg => by simp [hg]) hp
          exact Or.inr ⟨hnm, Or.inl (by rw [hv]; exact guard_or hgT)⟩
        · obtain ⟨hv, hnm, hgT⟩ := tail_mem_guard
            (st.ruleVendor = some Vendor.moz || st.ruleVendor = none)
            (fun hg => by simp [hg]) hp
          exact Or.inr ⟨hnm, Or.inl (by rw [hv]; exact guard_or hgT)⟩
        · obtain ⟨hv, hnm, hgT⟩ := tail_mem_guard
            (st.ruleVendor = some Vendor.o || st.ruleVendor = none)
            (fun hg => by simp [hg]) hp
          exact Or.inr ⟨hnm, Or.inl (by rw [hv]; exact guard_or hgT)⟩
        · exact Bool.noConfusion
            (tail_mem_guard false (fun _ => rfl) hp).2.2
      · by_cases c2 : (strLower name == "cursor")
        · simp only [c1, c2, Bool.false_eq_true, if_false, if_true] at hp
          rw [List.mem_append, List.mem_append, List.mem_append,
            List.mem_append] at hp
          rcases hp with ((((hp | hp) | hp) | hp) | hp)
          · cases hp
          · obtain ⟨hv, hnm, hgT⟩ := tail_mem_guard
              (st.ruleVendor = some Vendor.webkit || st.ruleVendor = none)
              (fun hg => by simp [hg]) hp
            exact Or.inr ⟨hnm, Or.inl (by rw [hv]; exact guard_or hgT)⟩
          · obtain ⟨hv, hnm, hgT⟩ := tail_mem_guard
              (st.ruleVendor = some Vendor.moz || st.ruleVendor = none)
              (fun hg => by simp [hg]) hp
            exact Or.inr ⟨hnm, Or.inl (by rw [hv]; exact guard_or hgT)⟩
          · obtain ⟨hv, hnm, hgT⟩ := tail_mem_guard
              (st.ruleVendor = some Vendor.o || st.ruleVendor = none)
              (fun hg => by simp [hg]) hp
            exact Or.inr ⟨hnm, Or.inl (by rw [hv]; exact guard_or hgT)⟩
          · exact Bool.noConfusion
              (tail_mem_guard false (fun _ => rfl) hp).2.2
        · by_cases c3 : ((strLower name == "display") &&
            (d.value.length == 1))
          · simp only [c1, c2, c3, Bool.false_eq_true, if_false,
              if_true] at hp
            rw [List.mem_append, List.mem_append, List.mem_append,
              List.mem_append] at hp
            rcases hp with ((((hp | hp) | hp) | hp) | hp)
            · by_cases hw : (st.ruleVendor = some Vendor.webkit ||
                  st.ruleVendor = none) = true
              · simp only [hw, if_true] at hp
                split_ifs at hp
                · cases hp
                · rcases List.mem_singleton.mp hp with rfl
                  exact Or.inr ⟨rfl, Or.inl (guard_or hw)⟩
              · simp only [Bool.not_eq_true] at hw
                simp only [hw, Bool.false_eq_true, if_false] at hp
                cases hp
            · obtain ⟨hv, hnm, hgT⟩ := tail_mem_guard
                (st.ruleVendor = some Vendor.webkit || st.ruleVendor = none)
                (fun hg => by simp [hg]) hp
              exact Or.inr ⟨hnm, Or.inl (by rw [hv]; exact guard_or hgT)⟩
            · obtain ⟨hv, hnm, hgT⟩ := tail_mem_guard
                (st.ruleVendor = some Vendor.moz || st.ruleVendor = none)
                (fun hg => by simp [hg]) hp
              exact Or.inr ⟨hnm, Or.inl (by rw [hv]; exact guard_or hgT)⟩
            · obtain ⟨hv, hnm, hgT⟩ := tail_mem_guard
                (st.ruleVendor = some Vendor.o || st.ruleVendor = none)
                (fun hg => by simp [hg]) hp
              exact Or.inr ⟨hnm, Or.inl (by rw [hv]; exact guard_or hgT)⟩
            · obtain ⟨hv, hnm, hgT⟩ := tail_mem_guard
                (st.ruleVendor = some Vendor.ms || st.ruleVendor = none)
                (fun hg => by simp [hg]) hp
              exact Or.inr ⟨hnm, Or.inl (by rw [hv]; exact guard_or hgT)⟩
          · by_cases c4 : (strLower name == "transform")
            · by_cases h3 : d.value.any is3dTransformFunction <;>
                by_cases h4 : st.inKeyframeBlock <;>
                · simp only [c1, c2, c3, c4, h3, h4, Bool.not_true,
                    Bool.not_false, Bool.false_eq_true, if_true, if_false,
                    ite_true, ite_false] at hp
                  rw [List.mem_append, List.mem_append, List.mem_append,
                    List.mem_append] at hp
                  rcases hp with ((((hp | hp) | hp) | hp) | hp)
                  · first
                    | (rcases addDeclaration_chain hp with hp | hL
                       · rcases addDeclaration_chain hp with hp | hL
                         · first
                           | cases hp
                           | (rcases addDeclaration_chain hp with hp | hL
                              · first
                                | cases hp
                                | (rcases addDeclaration_chain hp
                                      with hp | hL
                                   · cases hp
                                   · exact Or.inl hL)
                              · exact Or.inl hL)
                         · exact Or.inl hL
                       · exact Or.inl hL)
                  · obtain ⟨hv, hnm, hgT⟩ := tail_mem_guard
                      (st.ruleVendor = some Vendor.webkit ||
                        st.ruleVendor = none)
                      (fun hg => by simp [hg]) hp
                    exact Or.inr ⟨hnm, Or.inl (by rw [hv]; exact guard_or hgT)⟩
                  · obtain ⟨hv, hnm, hgT⟩ := tail_mem_guard
                      (st.ruleVendor = some Vendor.moz ||
                        st.ruleVendor = none)
                      (fun hg => by simp [hg]) hp
                    exact Or.inr ⟨hnm, Or.inl (by rw [hv]; exact guard_or hgT)⟩
                  · obtain ⟨hv, hnm, hgT⟩ := tail_mem_guard
                      (st.ruleVendor = some Vendor.o ||
                        st.ruleVendor = none)
                      (fun hg => by simp [hg]) hp
                    exact Or.inr ⟨hnm, Or.inl (by rw [hv]; exact guard_or hgT)⟩
                  · exact Bool.noConfusion
                      (tail_mem_guard false (fun _ => rfl) hp).2.2
            · by_cases c5 : (strLower name == "unicode-bidi")
              · simp only [c1, c2, c3, c4, c5, Bool.false_eq_true,
                  if_false, if_true] at hp
                rw [List.mem_append, List.mem_append, List.mem_append,
                  List.mem_append] at hp
                rcases hp with ((((hp | hp) | hp) | hp) | hp)
                · cases hp
                · obtain ⟨hv, hnm, hgT⟩ := tail_mem_guard
                    (st.ruleVendor = some Vendor.webkit ||
                      st.ruleVendor = none)
                    (fun hg => by simp [hg]) hp
                  exact Or.inr ⟨hnm, Or.inl (by rw [hv]; exact guard_or hgT)⟩
                · obtain ⟨hv, hnm, hgT⟩ := tail_mem_guard
                    ((st.ruleVendor = some Vendor.moz ||
                       st.ruleVendor = none) ||
                     (st.ruleVendor = some Vendor.webkit ||
                       st.ruleVendor = none))
                    (fun hg => by
                      simp only [Bool.or_eq_false_iff] at hg
                      simp [hg.1, hg.2]) hp
                  simp only [Bool.or_eq_true] at hgT
                  rcases hgT with hm | hw
                  · refine Or.inr ⟨hnm, Or.inl ?_⟩
                    rw [hv]
                    simpa using hm
                  · refine Or.inr ⟨hnm, Or.inr ⟨hv, ?_, name, rfl,
                      eq_of_beq c5⟩⟩
                    simpa using hw
                · obtain ⟨hv, hnm, hgT⟩ := tail_mem_guard
                    (st.ruleVendor = some Vendor.o ||
                      st.ruleVendor = none)
                    (fun hg => by simp [hg]) hp
                  exact Or.inr ⟨hnm, Or.inl (by rw [hv]; exact guard_or hgT)⟩
                · exact Bool.noConfusion
                    (tail_mem_guard false (fun _ => rfl) hp).2.2
              · simp only [c1, c2, c3, c4, c5, Bool.false_eq_true,
                  if_false] at hp
                rw [List.mem_append, List.mem_append, List.mem_append,
                  List.mem_append] at hp
                rcases hp with ((((hp | hp) | hp) | hp) | hp)
                · cases hp
                · obtain ⟨hv, hnm, hgT⟩ := tail_mem_guard
                    (st.ruleVendor = some Vendor.webkit ||
                      st.ruleVendor = none)
                    (fun hg => by simp [hg]) hp
                  exact Or.inr ⟨hnm, Or.inl (by rw [hv]; exact guard_or hgT)⟩
                · obtain ⟨hv, hnm, hgT⟩ := tail_mem_guard
                    (st.ruleVendor = some Vendor.moz ||
                      st.ruleVendor = none)
                    (fun hg => by simp [hg]) hp
                  exact Or.inr ⟨hnm, Or.inl (by rw [hv]; exact guard_or hgT)⟩
                · obtain ⟨hv, hnm, hgT⟩ := tail_mem_guard
                    (st.ruleVendor = some Vendor.o ||
                      st.ruleVendor = none)
                    (fun hg => by simp [hg]) hp
                  exact Or.inr ⟨hnm, Or.inl (by rw [hv]; exact guard_or hgT)⟩
                · exact Bool.noConfusion
                    (tail_mem_guard false (fun _ => rfl) hp).2.2

/-! ## Claim C9: rule-vendor locality -/

/-- C10: `add_declaration!` — the only mechanism by which any catalogue
arm stages a prefixed-name declaration — stages nothing when the
enclosing simple block's property set already contains the prefixed name,
regardless of the existing declaration's value; and over the modelled
arms, any staged declaration bearing a name present in the block keeps
the visited declaration's own name (it is a same-name value-rewrite
push, not a catalogue staging). -/
theorem c10_suppression :
    (∀ (tbl : CompatTable) (env : Versions) (st : PState) (imp : Bool)
       (vv : Option (List CompVal) → Vendor → List CompVal)
       (acc : List (Vendor × Declaration)) (w : Vendor) (P : String)
       (ov : Option (List CompVal)),
       (blockProperties st.simpleBlock).contains P = true →
       addDeclaration tbl env st (blockProperties st.simpleBlock) imp vv
         acc w P ov = acc) ∧
    (∀ (tbl : CompatTable) (env : Versions) (st : PState)
       (d : Declaration) (P : String),
       P ∈ blockProperties st.simpleBlock →
       ∀ p ∈ declAdds tbl env st d, p.2.name = DeclName.ident P →
         dnEq p.2.name d.name = true) := by
  constructor
  · intro tbl env st imp vv acc w P ov hP
    exact addDeclaration_noop (fun _ => hP)
  · intro tbl env st d P hP p hp hname
    rcases declAdds_split hp with ⟨prop, hpr, hc, _⟩ | ⟨hn, _⟩
    · exfalso
      rw [hname] at hpr
      have hPpr : P = prop := by injection hpr
      subst hPpr
      exact Bool.noConfusion ((contains_iff_mem.mpr hP).symm.trans hc)
    · rw [hn]
      exact dnEq_refl _

/-- Witness for C10: with `-webkit-transform` author-written in the
block, the macro stages nothing under that name, and no staged
declaration introduces that name. -/
theorem c10_witness :
    ("-webkit-transform" ∈ blockProperties (some authorBlock) ∧
     addDeclaration emptyTable anyEnv
        { initState with simpleBlock := some authorBlock }
        (blockProperties (some authorBlock)) false (fun _ _ => []) []
        Vendor.webkit "-webkit-transform" none = []) ∧
    (∀ p ∈ declAdds emptyTable anyEnv
        { initState with simpleBlock := some authorBlock }
        ⟨.ident "transform", [.ident "none"], false⟩,
      p.2.name = DeclName.ident "-webkit-transform" →
        dnEq p.2.name (DeclName.ident "transform") = true) :=
  ⟨⟨by decide, c10_suppression.1 emptyTable anyEnv
      { initState with simpleBlock := some authorBlock } false
      (fun _ _ => []) [] Vendor.webkit "-webkit-transform" (none)
      (by decide)⟩,
   c10_suppression.2 emptyTable anyEnv
      { initState with simpleBlock := some authorBlock }
      ⟨.ident "transform", [.ident "none"], false⟩ "-webkit-transform"
      (by decide)⟩

/-! ## Claim C2: additivity fails for media preludes -/

/-- C2 counterexample: the rule `@media (min-resolution: 2dppx) {}` does
not appear unchanged in the prefixed output, because
`visit_mut_media_query_list` extends the original prelude in place (the
single output rule has three queries, the original has one). -/
theorem c2_counterexample :
    (prefixSheet emptyTable anyEnv mqSheet).rules.map ruleQueryLen = [3] ∧
    ruleQueryLen mqRule = 1 ∧
    mqRule ∉ (prefixSheet emptyTable anyEnv mqSheet).rules := by
  refine ⟨by decide, by decide, fun h => ?_⟩
  have hm : ruleQueryLen mqRule ∈
      (prefixSheet emptyTable anyEnv mqSheet).rules.map ruleQueryLen :=
    List.mem_map_of_mem ruleQueryLen h
  rw [show (prefixSheet emptyTable anyEnv mqSheet).rules.map ruleQueryLen
      = [3] from by decide,
    show ruleQueryLen mqRule = 1 from by decide] at hm
  simp at hm

/-! ## Claim C1: idempotence fails for tail value-rewrite pushes -/

set_option maxHeartbeats 2000000 in
/-- C1 counterexample: running the prefixer twice on
`.a { background: calc(1) }` is not equal-ignoring-span to running it
once: the tail value-rewrite pushes of `visit_mut_declaration` have no
duplicate check, so the second run duplicates the staged declarations
(block grows from 3 items to 5). -/
theorem c1_counterexample :
    sheetEq
      (prefixSheet emptyTable anyEnv (prefixSheet emptyTable anyEnv calcSheet))
      (prefixSheet emptyTable anyEnv calcSheet) = false ∧
    ¬ (prefixSheet emptyTable anyEnv (prefixSheet emptyTable anyEnv calcSheet) =
        prefixSheet emptyTable anyEnv calcSheet) := by
  refine ⟨by decide, fun h => ?_⟩
  have h2 := congrArg singleBlockLen h
  rw [show singleBlockLen (prefixSheet emptyTable anyEnv
      (prefixSheet emptyTable anyEnv calcSheet)) = 5 from by decide,
    show singleBlockLen (prefixSheet emptyTable anyEnv calcSheet) = 3
      from by decide] at h2
  exact absurd h2 (by decide)

/-! ## Claim C5: viewport staging order -/

/-- C5 amended: when both viewport keys are enabled, `visit_mut_at_rule`
stages `-ms-viewport` first and `-o-viewport` second (the `-ms-` variant
gated by the `@-o-viewport` key and vice versa). -/
theorem c5_amended (tbl : CompatTable) (env : Versions) (st : PState)
    (a : AtRule) (ob : Option SimpleBlock)
    (h1 : sp tbl env "@-o-viewport" false = true)
    (h2 : sp tbl env "@-ms-viewport" false = true)
    (h3 : eqIgnoreCase a.name "viewport" = true)
    (h4 : st.simpleBlock = none) :
    (atRuleStaging tbl env st a ob).addedTopRules =
      st.addedTopRules ++
        [(Vendor.ms, .atRule (.mk "-ms-viewport" a.prelude ob)),
         (Vendor.o, .atRule (.mk "-o-viewport" a.prelude ob))] := by
  simp [atRuleStaging, h1, h2, h3, addAtRuleState, h4]

/-- C5 counterexample: in the output for `@viewport {}` the `-ms-viewport`
rule precedes the `-o-viewport` rule, contradicting the claimed
`-o-` before `-ms-` order. -/
theorem c5_counterexample :
    (prefixSheet emptyTable anyEnv vpSheet).rules.map topRuleName =
      ["-ms-viewport", "-o-viewport", "viewport"] ∧
    ¬ (((prefixSheet emptyTable anyEnv vpSheet).rules.map
          topRuleName).indexOf "-o-viewport" <
        ((prefixSheet emptyTable anyEnv vpSheet).rules.map
          topRuleName).indexOf "-ms-viewport") := by
  decide

/-- Witness for the C5 amended theorem at the concrete sheet
`@viewport {}` under the all-unset target. -/
theorem c5_witness :
    sp emptyTable anyEnv "@-o-viewport" false = true ∧
    sp emptyTable anyEnv "@-ms-viewport" false = true ∧
    eqIgnoreCase (AtRule.mk "viewport" none (some (.mk []))).name
      "viewport" = true ∧
    initState.simpleBlock = none ∧
    (atRuleStaging emptyTable anyEnv initState
        (.mk "viewport" none (some (.mk []))) (some (.mk []))).addedTopRules =
      initState.addedTopRules ++
        [(Vendor.ms, .atRule (.mk "-ms-viewport"
            (AtRule.mk "viewport" none (some (.mk []))).prelude
            (some (.mk [])))),
         (Vendor.o, .atRule (.mk "-o-viewport"
            (AtRule.mk "viewport" none (some (.mk []))).prelude
            (some (.mk []))))] :=
  ⟨by decide, by decide, by decide, rfl,
   c5_amended emptyTable anyEnv initState _ _ (by decide) (by decide)
     (by decide) rfl⟩

/-! ## Containment lemmas and the additivity theorem -/

theorem mqListPre_refl : ∀ l, mqListPre l l = true
  | [] => rfl
  | q :: qs => by simp [mqListPre, mqEq_refl, mqListPre_refl qs]

theorem mqListPre_append (qs t : List MediaQuery) :
    mqListPre qs (qs ++ t) = true := by
  induction qs with
  | nil => rfl
  | cons q rest ih => simp [mqListPre, mqEq_refl, ih]

mutual
theorem supCondC_refl : ∀ c, supCondC c c = true
  | .mk cs => by rw [supCondC]; exact supEntryListC_refl cs
termination_by structural c => c
theorem supEntryListC_refl : ∀ l, supEntryListC l l = true
  | [] => rfl
  | e :: es => by
    rw [supEntryListC, supEntryC_refl e, supEntryListC_refl es]; rfl
termination_by structural l => l
theorem supEntryC_refl : ∀ e, supEntryC e e = true
  | .inParens q => by rw [supEntryC]; exact supParensC_refl q
  | .orCond k q => by rw [supEntryC, supParensC_refl q]; simp
  | .andCond k q => by rw [supEntryC, supParensC_refl q]; simp
  | .notCond k q => by rw [supEntryC, supParensC_refl q]; simp
  | .raw t => by simp [supEntryC]
termination_by structural e => e
theorem supParensC_refl : ∀ q, supParensC q q = true
  | .feature d => by rw [supParensC]; exact declEq_refl d
  | .featureRaw t => by simp [supParensC]
  | .cond c => by rw [supParensC]; exact supCondC_refl c
  | .raw t => by simp [supParensC]
termination_by structural q => q
end

theorem importSupC_refl : ∀ s, importSupC s s = true
  | none => rfl
  | some (.decl d) => declEq_refl d
  | some (.cond c) => supCondC_refl c

theorem importC_refl (p : ImportPreludeM) : importC p p = true := by
  simp [importC, importSupC_refl]

theorem atPreludeC_refl : ∀ p, atPreludeC p p = true
  | none => rfl
  | some (.media qs) => by simp [atPreludeC, mqListPre_refl]
  | some (.importPrelude ip) => by simp [atPreludeC, importC_refl]
  | some (.supports c) => by simp [atPreludeC, supCondC_refl]
  | some (.raw s) => by simp [atPreludeC, optEqWith, atPreludeEq]

mutual
theorem sbC_refl : ∀ b, sbC b b = true
  | .mk v => by rw [sbC]; exact cvListC_refl v
theorem cvListC_refl : ∀ l, cvListC l l = true
  | [] => rfl
  | c :: cs => by rw [cvListC, compC_refl c, cvListC_refl cs]; rfl
theorem compC_refl : ∀ c, compC c c = true
  | .declOrAt a => by rw [compC]; exact darC_refl a
  | .styleBlock a => by rw [compC]; exact sbiC_refl a
  | .rule a => by rw [compC]; exact ruleC_refl a
  | .keyframeBlock a => by rw [compC]; exact kbC_refl a
  | .tok t => by simp [compC]
theorem darC_refl : ∀ d, darC d d = true
  | .decl d => by rw [darC]; exact declEq_refl d
  | .atRule a => by rw [darC]; exact atC_refl a
theorem sbiC_refl : ∀ i, sbiC i i = true
  | .decl d => by rw [sbiC]; exact declEq_refl d
  | .qualifiedRule q => by rw [sbiC]; exact qrC_refl q
  | .atRule a => by rw [sbiC]; exact atC_refl a
theorem ruleC_refl : ∀ r, ruleC r r = true
  | .qualifiedRule q => by rw [ruleC]; exact qrC_refl q
  | .atRule a => by rw [ruleC]; exact atC_refl a
theorem kbC_refl : ∀ k, kbC k k = true
  | .mk s b => by simp [kbC, sbC_refl b]
theorem atC_refl : ∀ a, atC a a = true
  | .mk n p b => by simp [atC, atPreludeC_refl, optSbC_refl b]
theorem optSbC_refl : ∀ o, optSbC o o = true
  | none => rfl
  | some b => by rw [optSbC]; exact sbC_refl b
theorem qrC_refl : ∀ q, qrC q q = true
  | .mk p b => by simp [qrC, selListEq_refl, sbC_refl b]
theorem ruleListC_refl : ∀ l, ruleListC l l = true
  | [] => rfl
  | r :: rs => by rw [ruleListC, ruleC_refl r, ruleListC_refl rs]; rfl
end

theorem cvListC_prepend :
    ∀ (e : List ComponentValue) {a b : List ComponentValue},
      cvListC a b = true → cvListC a (e ++ b) = true := by
  intro e
  induction e with
  | nil => intro a b h; simpa using h
  | cons y ys ih =>
    intro a b h
    cases a with
    | nil => rfl
    | cons x xs =>
      show ((compC x y && cvListC xs (ys ++ b)) ||
        cvListC (x :: xs) (ys ++ b)) = true
      rw [ih h]
      simp


theorem cvListC_append :
    ∀ (b : List ComponentValue) {a a' b' : List ComponentValue},
      cvListC a b = true → cvListC a' b' = true →
      cvListC (a ++ a') (b ++ b') = true := by
  intro b
  induction b with
  | nil =>
    intro a a' b' h h'
    cases a with
    | nil => simpa using h'
    | cons x xs => exact absurd h (by simp [cvListC])
  | cons y ys ih =>
    intro a a' b' h h'
    cases a with
    | nil => exact cvListC_prepend (y :: ys) h'
    | cons x xs =>
      rw [cvListC] at h
      simp only [Bool.or_eq_true, Bool.and_eq_true] at h
      rcases h with ⟨hc, ht⟩ | h2
      · show ((compC x y && cvListC (xs ++ a') (ys ++ b')) ||
          cvListC (x :: (xs ++ a')) (ys ++ b')) = true
        rw [hc, ih ht h']
        simp
      · show ((compC x y && cvListC (xs ++ a') (ys ++ b')) ||
          cvListC (x :: (xs ++ a')) (ys ++ b')) = true
        have := ih h2 h'
        rw [show x :: (xs ++ a') = (x :: xs) ++ a' from rfl, this]
        simp

theorem ruleListC_prepend :
    ∀ (e : List CssRule) {a b : List CssRule},
      ruleListC a b = true → ruleListC a (e ++ b) = true := by
  intro e
  induction e with
  | nil => intro a b h; simpa using h
  | cons y ys ih =>
    intro a b h
    cases a with
    | nil => rfl
    | cons x xs =>
      show ((ruleC x y && ruleListC xs (ys ++ b)) ||
        ruleListC (x :: xs) (ys ++ b)) = true
      rw [ih h]
      simp

theorem ruleListC_append :
    ∀ (b : List CssRule) {a a' b' : List CssRule},
      ruleListC a b = true → ruleListC a' b' = true →
      ruleListC (a ++ a') (b ++ b') = true := by
  intro b
  induction b with
  | nil =>
    intro a a' b' h h'
    cases a with
    | nil => simpa using h'
    | cons x xs => exact absurd h (by simp [ruleListC])
  | cons y ys ih =>
    intro a a' b' h h'
    cases a with
    | nil => exact ruleListC_prepend (y :: ys) h'
    | cons x xs =>
      rw [ruleListC] at h
      simp only [Bool.or_eq_true, Bool.and_eq_true] at h
      rcases h with ⟨hc, ht⟩ | h2
      · show ((ruleC x y && ruleListC (xs ++ a') (ys ++ b')) ||
          ruleListC (x :: (xs ++ a')) (ys ++ b')) = true
        rw [hc, ih ht h']
        simp
      · show ((ruleC x y && ruleListC (xs ++ a') (ys ++ b')) ||
          ruleListC (x :: (xs ++ a')) (ys ++ b')) = true
        have := ih h2 h'
        rw [show x :: (xs ++ a') = (x :: xs) ++ a' from rfl, this]
        simp

theorem ruleListC_single {r v : CssRule} (t : List CssRule)
    (h : ruleC r v = true) : ruleListC [r] (t ++ [v]) = true := by
  refine ruleListC_prepend t ?_
  simp [ruleListC, h]

theorem foldDrainTop_prefix (visit : PState → CssRule → CssRule × PState) :
    ∀ (dr : List (Vendor × CssRule)) (start : List CssRule × PState),
      ∃ t, (foldDrainTop visit dr start).1 = start.1 ++ t := by
  intro dr
  induction dr with
  | nil => intro start; exact ⟨[], (List.append_nil _).symm⟩
  | cons vr rest ih =>
    intro start
    by_cases hc : start.1.any (fun e => ruleEq vr.2 e)
    · rw [foldDrainTop, if_pos hc]
      exact ih start
    · rw [foldDrainTop, if_neg hc]
      obtain ⟨t, ht⟩ := ih
        (start.1 ++ [(visit { start.2 with ruleVendor := some vr.1 } vr.2).1],
         { (visit { start.2 with ruleVendor := some vr.1 } vr.2).2 with
             ruleVendor := start.2.ruleVendor })
      exact ⟨(visit { start.2 with ruleVendor := some vr.1 } vr.2).1 :: t,
        ht.trans (by simp)⟩


theorem cvListC_single {n v : ComponentValue} (t : List ComponentValue)
    (h : compC n v = true) : cvListC [n] (t ++ [v]) = true := by
  refine cvListC_prepend t ?_
  simp [cvListC, h]

theorem sheetStep_fold (visit : PState → CssRule → CssRule × PState)
    (hv : ∀ st r, ruleC r (visit st r).1 = true) :
    ∀ (rules orig : List CssRule) (acc : List CssRule × PState),
      ruleListC orig acc.1 = true →
      ruleListC (orig ++ rules)
        (List.foldl (sheetStep visit) acc rules).1 = true := by
  intro rules
  induction rules with
  | nil => intro orig acc h; simpa using h
  | cons r rs ih =>
    intro orig acc h
    rw [List.foldl_cons]
    have hstep : ruleListC (orig ++ [r]) (sheetStep visit acc r).1 = true := by
      obtain ⟨t, ht⟩ := foldDrainTop_prefix visit
        (visit acc.2 r).2.addedTopRules
        (acc.1, { (visit acc.2 r).2 with addedTopRules := [] })
      show ruleListC (orig ++ [r])
        ((foldDrainTop visit (visit acc.2 r).2.addedTopRules
          (acc.1, { (visit acc.2 r).2 with addedTopRules := [] })).1 ++
         [(visit acc.2 r).1]) = true
      rw [ht]
      show ruleListC (orig ++ [r]) ((acc.1 ++ t) ++ [(visit acc.2 r).1]) = true
      rw [List.append_assoc]
      exact ruleListC_append acc.1 h (ruleListC_single t (hv acc.2 r))
    have hmain := ih (orig ++ [r]) (sheetStep visit acc r) hstep
    rw [List.append_assoc] at hmain
    exact hmain

theorem blockStep_extras
    (vc : PState → ComponentValue → ComponentValue × PState)
    (vq : PState → QualifiedRule → QualifiedRule × PState)
    (va : PState → AtRule → AtRule × PState)
    (p : List ComponentValue × PState) (n : ComponentValue) :
    ∃ e, (blockStep vc vq va p n).1 = p.1 ++ e ++ [(vc p.2 n).1] := by
  cases h : (vc p.2 n).1 <;> simp only [blockStep, h] <;> exact ⟨_, rfl⟩

theorem blockStep_fold
    (vc : PState → ComponentValue → ComponentValue × PState)
    (vq : PState → QualifiedRule → QualifiedRule × PState)
    (va : PState → AtRule → AtRule × PState)
    (hv : ∀ st n, compC n (vc st n).1 = true) :
    ∀ (items orig : List ComponentValue) (acc : List ComponentValue × PState),
      cvListC orig acc.1 = true →
      cvListC (orig ++ items)
        (List.foldl (blockStep vc vq va) acc items).1 = true := by
  intro items
  induction items with
  | nil => intro orig acc h; simpa using h
  | cons n ns ih =>
    intro orig acc h
    rw [List.foldl_cons]
    have hstep : cvListC (orig ++ [n]) (blockStep vc vq va acc n).1 = true := by
      obtain ⟨e, he⟩ := blockStep_extras vc vq va acc n
      rw [he, List.append_assoc]
      exact cvListC_append acc.1 h (cvListC_single e (hv acc.2 n))
    have hmain := ih (orig ++ [n]) (blockStep vc vq va acc n) hstep
    rw [List.append_assoc] at hmain
    exact hmain


/-- The feature rewrite of `visit_mut_supports_in_parens` keeps the
original declaration-feature term as its first condition (or leaves the
node unchanged). -/
theorem supportsParensRewrite_feature (st : PState) (d : Declaration) :
    supParensC (.feature d) (supportsParensRewrite st (.feature d)).1
      = true := by
  unfold supportsParensRewrite
  cases hc : st.supportsCondition with
  | none => exact supParensC_refl _
  | some sc =>
    by_cases hemp : st.addedDeclarations.isEmpty
    · simp only [hemp, if_true]
      exact supParensC_refl _
    · simp only [hemp, Bool.false_eq_true, if_false]
      split_ifs
      · exact declEq_refl d
      · exact supParensC_refl _

/-- The feature rewrite on a non-declaration feature term. -/
theorem supportsParensRewrite_featureRaw (st : PState) (t : String) :
    supParensC (.featureRaw t) (supportsParensRewrite st (.featureRaw t)).1
      = true := by
  unfold supportsParensRewrite
  cases hc : st.supportsCondition with
  | none => exact supParensC_refl _
  | some sc =>
    by_cases hemp : st.addedDeclarations.isEmpty
    · simp only [hemp, if_true]
      exact supParensC_refl _
    · simp only [hemp, Bool.false_eq_true, if_false]
      split_ifs
      · show (t == t) = true
        simp
      · exact supParensC_refl _

mutual
/-- The supports-condition visit yields a condition containing the
original. -/
theorem containSupportsCond (tbl : CompatTable) (env : Versions) :
    ∀ (st : PState) (c : SupportsCond),
      supCondC c (visitSupportsCond tbl env st c).1 = true
  | st, .mk cs => by
    show supEntryListC cs
      (visitSupportsEntries tbl env
        { st with supportsCondition := some (.mk cs) } cs).1 = true
    exact containSupportsEntries tbl env _ cs
termination_by structural _ c => c
theorem containSupportsEntries (tbl : CompatTable) (env : Versions) :
    ∀ (st : PState) (es : List SupportsEntry),
      supEntryListC es (visitSupportsEntries tbl env st es).1 = true
  | _, [] => rfl
  | st, e :: es => by
    show (supEntryC e (visitSupportsEntry tbl env st e).1 &&
      supEntryListC es (visitSupportsEntries tbl env
        (visitSupportsEntry tbl env st e).2 es).1) = true
    rw [containSupportsEntry tbl env st e,
      containSupportsEntries tbl env _ es]
    rfl
termination_by structural _ es => es
theorem containSupportsEntry (tbl : CompatTable) (env : Versions) :
    ∀ (st : PState) (e : SupportsEntry),
      supEntryC e (visitSupportsEntry tbl env st e).1 = true
  | st, .inParens q => containSupportsParens tbl env st q
  | st, .orCond k q => by
    show (k == k && supParensC q (visitSupportsParens tbl env st q).1) = true
    rw [containSupportsParens tbl env st q]
    simp
  | st, .andCond k q => by
    show (k == k && supParensC q (visitSupportsParens tbl env st q).1) = true
    rw [containSupportsParens tbl env st q]
    simp
  | st, .notCond k q => by
    show (k == k && supParensC q (visitSupportsParens tbl env st q).1) = true
    rw [containSupportsParens tbl env st q]
    simp
  | _, .raw t => by
    show (t == t) = true
    simp
termination_by structural _ e => e
theorem containSupportsParens (tbl : CompatTable) (env : Versions) :
    ∀ (st : PState) (q : SupportsParens),
      supParensC q (visitSupportsParens tbl env st q).1 = true
  | st, .feature d =>
    supportsParensRewrite_feature (visitDeclaration tbl env st d) d
  | st, .featureRaw t => supportsParensRewrite_featureRaw st t
  | st, .cond c => containSupportsCond tbl env st c
  | _, .raw t => by
    show (t == t) = true
    simp
termination_by structural _ q => q
end

/-- The import-prelude visit yields a prelude containing the original:
the href is untouched and the supports clause is rewritten in
containment order (or dropped, for a taken non-declaration clause). -/
theorem containImportPrelude (tbl : CompatTable) (env : Versions)
    (st : PState) (ip : ImportPreludeM) :
    importC ip (visitImportPrelude tbl env st ip).1 = true := by
  unfold visitImportPrelude
  cases ip with
  | mk href sup =>
    cases sup with
    | none =>
      by_cases hemp : st.addedDeclarations.isEmpty <;>
        simp [hemp, importC, importSupC]
    | some is =>
      cases is with
      | decl d =>
        by_cases hemp :
            (visitDeclaration tbl env st d).addedDeclarations.isEmpty <;>
          simp [hemp, importC, importSupC, declEq_refl]
      | cond c =>
        by_cases hemp :
            ((visitSupportsCond tbl env st c).2).addedDeclarations.isEmpty <;>
          simp [hemp, importC, importSupC,
            containSupportsCond tbl env st c]

theorem mediaExtend (tbl : CompatTable) (env : Versions)
    (qs : List MediaQuery) :
    ∃ t, visitMediaQueryList tbl env qs = qs ++ t := ⟨_, rfl⟩

mutual
theorem containStylesheet (tbl : CompatTable) (env : Versions) :
    ∀ (fuel : Nat) (st : PState) (s : Stylesheet),
      sheetC s (visitStylesheet tbl env fuel st s).1 = true
  | 0, st, s => ruleListC_refl s.rules
  | fuel + 1, st, s => by
    show ruleListC s.rules
      (List.foldl (sheetStep (visitRuleFull tbl env fuel)) ([], st)
        s.rules).1 = true
    have hmain := sheetStep_fold (visitRuleFull tbl env fuel)
      (fun st r => containRuleFull tbl env fuel st r) s.rules [] ([], st) rfl
    simpa using hmain
termination_by structural fuel st s => fuel

theorem containRuleFull (tbl : CompatTable) (env : Versions) :
    ∀ (fuel : Nat) (st : PState) (r : CssRule),
      ruleC r (visitRuleFull tbl env fuel st r).1 = true
  | 0, _, r => ruleC_refl r
  | fuel + 1, st, .qualifiedRule q => containQualifiedRule tbl env fuel st q
  | fuel + 1, st, .atRule a => containAtRule tbl env fuel st a
termination_by structural fuel st r => fuel

theorem containAtRule (tbl : CompatTable) (env : Versions) :
    ∀ (fuel : Nat) (st : PState) (a : AtRule),
      atC a (visitAtRule tbl env fuel st a).1 = true
  | 0, _, a => atC_refl a
  | fuel + 1, st, a => containAtRuleChildren tbl env fuel st a
termination_by structural fuel st a => fuel

theorem containAtRuleChildren (tbl : CompatTable) (env : Versions) :
    ∀ (fuel : Nat) (st : PState) (a : AtRule),
      atC a (visitAtRuleChildren tbl env fuel st a).1 = true
  | 0, _, a => atC_refl a
  | fuel + 1, st, .mk name p b => by
    cases b with
    | some blk =>
      cases p with
      | none =>
        show atC (.mk name none (some blk))
          (.mk name none (some (visitSimpleBlock tbl env fuel st blk).1)) =
            true
        simp [atC, atPreludeC, optEqWith, optSbC,
          containSimpleBlock tbl env fuel st blk]
      | some pre =>
        cases pre with
        | media qs =>
          show atC (.mk name (some (.media qs)) (some blk))
            (.mk name (some (.media (visitMediaQueryList tbl env qs)))
              (some (visitSimpleBlock tbl env fuel st blk).1)) = true
          obtain ⟨t, ht⟩ := mediaExtend tbl env qs
          simp [atC, atPreludeC, ht, mqListPre_append, optSbC,
            containSimpleBlock tbl env fuel st blk]
        | importPrelude ip =>
          show atC (.mk name (some (.importPrelude ip)) (some blk))
            (.mk name
              (some (.importPrelude (visitImportPrelude tbl env st ip).1))
              (some (visitSimpleBlock tbl env fuel
                (visitImportPrelude tbl env st ip).2 blk).1)) = true
          simp [atC, atPreludeC, containImportPrelude tbl env st ip,
            optSbC, containSimpleBlock tbl env fuel
              (visitImportPrelude tbl env st ip).2 blk]
        | supports c =>
          show atC (.mk name (some (.supports c)) (some blk))
            (.mk name
              (some (.supports (visitSupportsCond tbl env st c).1))
              (some (visitSimpleBlock tbl env fuel
                (visitSupportsCond tbl env st c).2 blk).1)) = true
          simp [atC, atPreludeC, containSupportsCond tbl env st c,
            optSbC, containSimpleBlock tbl env fuel
              (visitSupportsCond tbl env st c).2 blk]
        | raw txt =>
          show atC (.mk name (some (.raw txt)) (some blk))
            (.mk name (some (.raw txt))
              (some (visitSimpleBlock tbl env fuel st blk).1)) = true
          simp [atC, atPreludeC, optEqWith, atPreludeEq, optSbC,
            containSimpleBlock tbl env fuel st blk]
    | none =>
      cases p with
      | none =>
        show atC (.mk name none none) (.mk name none none) = true
        simp [atC, atPreludeC, optEqWith, optSbC]
      | some pre =>
        cases pre with
        | media qs =>
          show atC (.mk name (some (.media qs)) none)
            (.mk name (some (.media (visitMediaQueryList tbl env qs)))
              none) = true
          obtain ⟨t, ht⟩ := mediaExtend tbl env qs
          simp [atC, atPreludeC, ht, mqListPre_append, optSbC]
        | importPrelude ip =>
          show atC (.mk name (some (.importPrelude ip)) none)
            (.mk name
              (some (.importPrelude (visitImportPrelude tbl env st ip).1))
              none) = true
          simp [atC, atPreludeC, containImportPrelude tbl env st ip,
            optSbC]
        | supports c =>
          show atC (.mk name (some (.supports c)) none)
            (.mk name
              (some (.supports (visitSupportsCond tbl env st c).1))
              none) = true
          simp [atC, atPreludeC, containSupportsCond tbl env st c, optSbC]
        | raw txt =>
          show atC (.mk name (some (.raw txt)) none)
            (.mk name (some (.raw txt)) none) = true
          simp [atC, atPreludeC, optEqWith, atPreludeEq, optSbC]
termination_by structural fuel st a => fuel

theorem containQualifiedRule (tbl : CompatTable) (env : Versions) :
    ∀ (fuel : Nat) (st : PState) (q : QualifiedRule),
      qrC q (visitQualifiedRule tbl env fuel st q).1 = true
  | 0, _, q => qrC_refl q
  | fuel + 1, st, q => containQualifiedRuleChildren tbl env fuel st q
termination_by structural fuel st q => fuel

theorem containQualifiedRuleChildren (tbl : CompatTable) (env : Versions) :
    ∀ (fuel : Nat) (st : PState) (q : QualifiedRule),
      qrC q (visitQualifiedRuleChildren tbl env fuel st q).1 = true
  | 0, _, q => qrC_refl q
  | fuel + 1, st, .mk p b => by
    show qrC (.mk p b) (.mk p (visitSimpleBlock tbl env fuel st b).1) = true
    simp [qrC, selListEq_refl, containSimpleBlock tbl env fuel st b]
termination_by structural fuel st q => fuel

theorem containSimpleBlock (tbl : CompatTable) (env : Versions) :
    ∀ (fuel : Nat) (st : PState) (b : SimpleBlock),
      sbC b (visitSimpleBlock tbl env fuel st b).1 = true
  | 0, _, b => sbC_refl b
  | fuel + 1, st, .mk items => by
    show cvListC items
      (List.foldl (blockStep (visitCompChildren tbl env fuel)
        (visitQualifiedRuleChildren tbl env fuel)
        (visitAtRuleChildren tbl env fuel))
        ([], { st with simpleBlock := some (.mk items) }) items).1 = true
    have hmain := blockStep_fold (visitCompChildren tbl env fuel)
      (visitQualifiedRuleChildren tbl env fuel)
      (visitAtRuleChildren tbl env fuel)
      (fun st n => containCompChildren tbl env fuel st n) items []
      ([], { st with simpleBlock := some (.mk items) }) rfl
    simpa using hmain
termination_by structural fuel st b => fuel

theorem containCompChildren (tbl : CompatTable) (env : Versions) :
    ∀ (fuel : Nat) (st : PState) (n : ComponentValue),
      compC n (visitCompChildren tbl env fuel st n).1 = true
  | 0, _, n => compC_refl n
  | fuel + 1, st, .declOrAt (.decl d) => compC_refl (.declOrAt (.decl d))
  | fuel + 1, st, .declOrAt (.atRule a) => containAtRule tbl env fuel st a
  | fuel + 1, st, .styleBlock (.decl d) => compC_refl (.styleBlock (.decl d))
  | fuel + 1, st, .styleBlock (.qualifiedRule q) =>
    containQualifiedRule tbl env fuel st q
  | fuel + 1, st, .styleBlock (.atRule a) => containAtRule tbl env fuel st a
  | fuel + 1, st, .rule (.qualifiedRule q) =>
    containQualifiedRule tbl env fuel st q
  | fuel + 1, st, .rule (.atRule a) => containAtRule tbl env fuel st a
  | fuel + 1, st, .keyframeBlock kb => containKeyframeBlock tbl env fuel st kb
  | fuel + 1, st, .tok t => by
    show (t == t) = true
    simp
termination_by structural fuel st n => fuel

theorem containKeyframeBlock (tbl : CompatTable) (env : Versions) :
    ∀ (fuel : Nat) (st : PState) (kb : KeyframeBlock),
      kbC kb (visitKeyframeBlock tbl env fuel st kb).1 = true
  | 0, _, kb => kbC_refl kb
  | fuel + 1, st, .mk sel b => by
    show kbC (.mk sel b)
      (.mk sel (visitSimpleBlock tbl env fuel
        { st with inKeyframeBlock := true } b).1) = true
    simp [kbC,
      containSimpleBlock tbl env fuel { st with inKeyframeBlock := true } b]
termination_by structural fuel st kb => fuel
end

/-- C2 (amended): the prefixer's output contains the original stylesheet
under containment: every original rule, block item and declaration
appears in the output in order, with prefixed variants inserted
alongside; at-rule preludes are preserved except media query lists,
which are extended in place at their end, `@import` preludes, whose
supports clause may be rewritten around the original declaration or
dropped (`visit_mut_import_prelude`), and `@supports` conditions, whose
feature terms may be rewritten in place with the original term kept as
the first condition (`visit_mut_supports_in_parens`). -/
theorem c2_amended (tbl : CompatTable) (env : Versions)
    (s : Stylesheet) : sheetC s (prefixSheet tbl env s) = true :=
  containStylesheet tbl env (sheetFuel s) initState s

/-! ## Flat-fragment lemmas and the idempotence theorem -/

theorem replFnName_nf (f t : String) (c : CompVal) (h : nonFunc c = true) :
    replFnName f t c = c := by
  cases c <;> first | rfl | exact Bool.noConfusion h

theorem replImageSet_nf (f t : String) (c : CompVal) (h : nonFunc c = true) :
    replImageSet f t false c = c := by
  cases c <;> first | rfl | exact Bool.noConfusion h

theorem replCrossFade_nf (f t : String) (c : CompVal) (h : nonFunc c = true) :
    replCrossFade f t c = c := by
  cases c <;> first | rfl | exact Bool.noConfusion h

theorem replGradient_nf (f t : String) (c : CompVal) (h : nonFunc c = true) :
    replGradient f t c = c := by
  cases c <;> first | rfl | exact Bool.noConfusion h

theorem replFnNameList_ff (f t : String) :
    ∀ v, funcFreeVal v = true → replFnNameList f t v = v
  | [], _ => rfl
  | c :: cs, h => by
    rw [funcFreeVal, List.all_cons, Bool.and_eq_true] at h
    rw [replFnNameList, replFnName_nf f t c h.1,
      replFnNameList_ff f t cs h.2]

theorem replImageSetList_ff (f t : String) :
    ∀ v, funcFreeVal v = true → replImageSetList f t false v = v
  | [], _ => rfl
  | c :: cs, h => by
    rw [funcFreeVal, List.all_cons, Bool.and_eq_true] at h
    rw [replImageSetList, replImageSet_nf f t c h.1,
      replImageSetList_ff f t cs h.2]

theorem replCrossFadeList_ff (f t : String) :
    ∀ v, funcFreeVal v = true → replCrossFadeList f t v = v
  | [], _ => rfl
  | c :: cs, h => by
    rw [funcFreeVal, List.all_cons, Bool.and_eq_true] at h
    rw [replCrossFadeList, replCrossFade_nf f t c h.1,
      replCrossFadeList_ff f t cs h.2]

theorem replGradientList_ff (f t : String) :
    ∀ v, funcFreeVal v = true → replGradientList f t v = v
  | [], _ => rfl
  | c :: cs, h => by
    rw [funcFreeVal, List.all_cons, Bool.and_eq_true] at h
    rw [replGradientList, replGradient_nf f t c h.1,
      replGradientList_ff f t cs h.2]

theorem webkitValueOf_ff (tbl : CompatTable) (env : Versions)
    (v : List CompVal) (h : funcFreeVal v = true) :
    webkitValueOf tbl env v = v := by
  simp [webkitValueOf, replFnNameList_ff, replImageSetList_ff,
    replCrossFadeList_ff, replGradientList_ff, h, ite_self]

theorem mozValueOf_ff (tbl : CompatTable) (env : Versions)
    (v : List CompVal) (h : funcFreeVal v = true) :
    mozValueOf tbl env v = v := by
  simp [mozValueOf, replFnNameList_ff, replGradientList_ff, h, ite_self]

theorem oValueOf_ff (tbl : CompatTable) (env : Versions)
    (v : List CompVal) (h : funcFreeVal v = true) :
    oValueOf tbl env v = v := by
  simp [oValueOf, replGradientList_ff, h, ite_self]

theorem any3d_ff : ∀ v, funcFreeVal v = true →
    v.any is3dTransformFunction = false
  | [], _ => rfl
  | c :: cs, h => by
    rw [funcFreeVal, List.all_cons, Bool.and_eq_true] at h
    rw [List.any_cons, any3d_ff cs h.2]
    cases c <;> first | rfl | exact Bool.noConfusion h.1

theorem declAdds_dashed {tbl : CompatTable} {env : Versions} {st : PState}
    {d : Declaration} {t : String} (hn : d.name = .dashed t) :
    declAdds tbl env st d = [] := by
  unfold declAdds
  by_cases he : d.value.isEmpty
  · simp [he]
  · simp [he, hn]

/-- Names outside the catalogue are none of the modelled arm names. -/
theorem notInCatalogue_arms {n : String}
    (h : catalogueNames.contains (strLower n) = false) :
    ((strLower n == "cursor") = false) ∧
    ((strLower n == "display") = false) ∧
    ((strLower n == "unicode-bidi") = false) := by
  refine ⟨?_, ?_, ?_⟩
  · cases hx : (strLower n == "cursor") with
    | true => rw [eq_of_beq hx] at h; exact absurd h (by decide)
    | false => rfl
  · cases hx : (strLower n == "display") with
    | true => rw [eq_of_beq hx] at h; exact absurd h (by decide)
    | false => rfl
  · cases hx : (strLower n == "unicode-bidi") with
    | true => rw [eq_of_beq hx] at h; exact absurd h (by decide)
    | false => rfl

theorem declAdds_inert {tbl : CompatTable} {env : Versions} {st : PState}
    {d : Declaration} {name : String} (hn : d.name = .ident name)
    (hff : funcFreeVal d.value = true)
    (h1 : (strLower name == "appearance") = false)
    (h2 : (strLower name == "transform") = false)
    (h3 : (strLower name == "cursor") = false)
    (h4 : (strLower name == "display") = false)
    (h5 : (strLower name == "unicode-bidi") = false) :
    declAdds tbl env st d = [] := by
  unfold declAdds
  by_cases he : d.value.isEmpty
  · simp [he]
  · simp [he, hn, h1, h2, h3, h4, h5, webkitValueOf_ff, mozValueOf_ff,
      oValueOf_ff, hff, cvEqList_refl, ite_self]

theorem declAdds_appearance_noop {tbl : CompatTable} {env : Versions}
    {st : PState} {d : Declaration} {name : String}
    (hn : d.name = .ident name) (hff : funcFreeVal d.value = true)
    (ha : (strLower name == "appearance") = true)
    (hw : sp tbl env "-webkit-appearance" true = true →
      (blockProperties st.simpleBlock).contains "-webkit-appearance" = true)
    (hm : sp tbl env "-moz-appearance" true = true →
      (blockProperties st.simpleBlock).contains "-moz-appearance" = true)
    (hms : sp tbl env "-ms-appearance" true = true →
      (blockProperties st.simpleBlock).contains "-ms-appearance" = true) :
    declAdds tbl env st d = [] := by
  unfold declAdds
  by_cases he : d.value.isEmpty
  · simp [he]
  · simp [he, hn, ha, webkitValueOf_ff, mozValueOf_ff, oValueOf_ff, hff,
      cvEqList_refl, ite_self, addDeclaration_noop hw,
      addDeclaration_noop hm, addDeclaration_noop hms]

theorem declAdds_transform_noop {tbl : CompatTable} {env : Versions}
    {st : PState} {d : Declaration} {name : String}
    (hn : d.name = .ident name) (hff : funcFreeVal d.value = true)
    (ht : (strLower name == "transform") = true)
    (hkf : st.inKeyframeBlock = false)
    (hw : sp tbl env "-webkit-transform" true = true →
      (blockProperties st.simpleBlock).contains "-webkit-transform" = true)
    (hm : sp tbl env "-moz-transform" true = true →
      (blockProperties st.simpleBlock).contains "-moz-transform" = true)
    (hms : sp tbl env "-ms-transform" true = true →
      (blockProperties st.simpleBlock).contains "-ms-transform" = true)
    (ho : sp tbl env "-o-transform" true = true →
      (blockProperties st.simpleBlock).contains "-o-transform" = true) :
    declAdds tbl env st d = [] := by
  unfold declAdds
  by_cases he : d.value.isEmpty
  · simp [he]
  · have hs : strLower name = "transform" := eq_of_beq ht
    have c1 : (strLower name == "appearance") = false := by rw [hs]; decide
    have c2 : (strLower name == "cursor") = false := by rw [hs]; decide
    have c3 : (strLower name == "display") = false := by rw [hs]; decide
    simp [he, hn, c1, c2, c3, ht, hkf, any3d_ff _ hff, webkitValueOf_ff,
      mozValueOf_ff, oValueOf_ff, hff, cvEqList_refl, ite_self,
      addDeclaration_noop hw, addDeclaration_noop hm,
      addDeclaration_noop hms, addDeclaration_noop ho]

theorem declAdds_flat_mem {tbl : CompatTable} {env : Versions} {st : PState}
    {d : Declaration} {name : String} {p : Vendor × Declaration}
    (hn : d.name = .ident name) (hff : funcFreeVal d.value = true)
    (hfn : flatNameS name = true)
    (hp : p ∈ declAdds tbl env st d) :
    ∃ P, P ∈ (["-webkit-appearance", "-moz-appearance", "-ms-appearance",
      "-webkit-transform", "-moz-transform", "-ms-transform",
      "-o-transform"] : List String) ∧
      p.2 = ⟨.ident P, d.value, d.important⟩ := by
  unfold declAdds at hp
  by_cases he : d.value.isEmpty
  · simp [he] at hp
  · by_cases c1 : (strLower name == "appearance")
    · simp only [he, hn, c1, webkitValueOf_ff tbl env d.value hff,
        mozValueOf_ff tbl env d.value hff, oValueOf_ff tbl env d.value hff,
        cvEqList_refl, ite_self, if_true, if_false, Bool.false_eq_true,
        ite_true, ite_false, List.append_nil, List.nil_append] at hp
      rcases addDeclaration_mem_full hp with hp2 | hp2
      · rcases addDeclaration_mem_full hp2 with hp3 | hp3
        · rcases addDeclaration_mem_full hp3 with hp4 | hp4
          · cases hp4
          · exact ⟨"-webkit-appearance", by decide, by rw [hp4]⟩
        · exact ⟨"-moz-appearance", by decide, by rw [hp3]⟩
      · exact ⟨"-ms-appearance", by decide, by rw [hp2]⟩
    · by_cases c2 : (strLower name == "transform")
      · have hs : strLower name = "transform" := eq_of_beq c2
        have d2 : (strLower name == "cursor") = false := by rw [hs]; decide
        have d3 : (strLower name == "display") = false := by rw [hs]; decide
        by_cases hkf : st.inKeyframeBlock
        · simp only [he, hn, c1, c2, d2, d3, hkf, any3d_ff d.value hff,
            Bool.false_and,
            webkitValueOf_ff tbl env d.value hff,
            mozValueOf_ff tbl env d.value hff,
            oValueOf_ff tbl env d.value hff,
            cvEqList_refl, ite_self, if_true, if_false, Bool.false_eq_true,
            Bool.not_true, Bool.not_false, ite_true, ite_false,
            List.append_nil, List.nil_append] at hp
          rcases addDeclaration_mem_full hp with hp2 | hp2
          · rcases addDeclaration_mem_full hp2 with hp3 | hp3
            · rcases addDeclaration_mem_full hp3 with hp4 | hp4
              · cases hp4
              · exact ⟨"-webkit-transform", by decide, by rw [hp4]⟩
            · exact ⟨"-moz-transform", by decide, by rw [hp3]⟩
          · exact ⟨"-o-transform", by decide, by rw [hp2]⟩
        · simp only [he, hn, c1, c2, d2, d3, hkf, any3d_ff d.value hff,
            Bool.false_and,
            webkitValueOf_ff tbl env d.value hff,
            mozValueOf_ff tbl env d.value hff,
            oValueOf_ff tbl env d.value hff,
            cvEqList_refl, ite_self, if_true, if_false, Bool.false_eq_true,
            Bool.not_true, Bool.not_false, ite_true, ite_false,
            List.append_nil, List.nil_append] at hp
          rcases addDeclaration_mem_full hp with hp2 | hp2
          · rcases addDeclaration_mem_full hp2 with hp3 | hp3
            · rcases addDeclaration_mem_full hp3 with hp4 | hp4
              · rcases addDeclaration_mem_full hp4 with hp5 | hp5
                · cases hp5
                · exact ⟨"-webkit-transform", by decide, by rw [hp5]⟩
              · exact ⟨"-moz-transform", by decide, by rw [hp4]⟩
            · exact ⟨"-ms-transform", by decide, by rw [hp3]⟩
          · exact ⟨"-o-transform", by decide, by rw [hp2]⟩
      · have hcont : catalogueNames.contains (strLower name) = false := by
          simp only [flatNameS, c1, c2, Bool.false_or] at hfn
          simpa using hfn
        obtain ⟨d3, d4, d5⟩ := notInCatalogue_arms hcont
        simp [he, hn, c1, c2, d3, d4, d5, webkitValueOf_ff, mozValueOf_ff,
          oValueOf_ff, hff, cvEqList_refl, ite_self] at hp

theorem declAdds_appearance_fires {tbl : CompatTable} {env : Versions}
    {st : PState} {d : Declaration} {name : String} {P : String}
    (hn : d.name = .ident name) (hff : funcFreeVal d.value = true)
    (he : d.value.isEmpty = false)
    (ha : (strLower name == "appearance") = true)
    (hrv : st.ruleVendor = none)
    (hP : P ∈ (["-webkit-appearance", "-moz-appearance",
      "-ms-appearance"] : List String))
    (hsp : sp tbl env P true = true)
    (hct : (blockProperties st.simpleBlock).contains P = false) :
    ∃ w, (w, ⟨.ident P, d.value, d.important⟩) ∈ declAdds tbl env st d := by
  unfold declAdds
  simp only [he, hn, ha, webkitValueOf_ff tbl env d.value hff,
    mozValueOf_ff tbl env d.value hff, oValueOf_ff tbl env d.value hff,
    cvEqList_refl, ite_self, if_true, if_false, Bool.false_eq_true,
    ite_true, ite_false, List.append_nil, List.nil_append]
  simp only [List.mem_cons, List.not_mem_nil, or_false] at hP
  rcases hP with rfl | rfl | rfl
  · exact ⟨.webkit, addDeclaration_mono (addDeclaration_mono
      (addDeclaration_fires hsp hrv hct))⟩
  · exact ⟨.moz, addDeclaration_mono (addDeclaration_fires hsp hrv hct)⟩
  · exact ⟨.ms, addDeclaration_fires hsp hrv hct⟩

theorem declAdds_transform_fires {tbl : CompatTable} {env : Versions}
    {st : PState} {d : Declaration} {name : String} {P : String}
    (hn : d.name = .ident name) (hff : funcFreeVal d.value = true)
    (he : d.value.isEmpty = false)
    (ht : (strLower name == "transform") = true)
    (hrv : st.ruleVendor = none) (hkf : st.inKeyframeBlock = false)
    (hP : P ∈ (["-webkit-transform", "-moz-transform", "-ms-transform",
      "-o-transform"] : List String))
    (hsp : sp tbl env P true = true)
    (hct : (blockProperties st.simpleBlock).contains P = false) :
    ∃ w, (w, ⟨.ident P, d.value, d.important⟩) ∈ declAdds tbl env st d := by
  unfold declAdds
  have hs : strLower name = "transform" := eq_of_beq ht
  have c1 : (strLower name == "appearance") = false := by rw [hs]; decide
  have d2 : (strLower name == "cursor") = false := by rw [hs]; decide
  have d3 : (strLower name == "display") = false := by rw [hs]; decide
  simp only [he, hn, c1, d2, d3, ht, hkf, any3d_ff d.value hff,
      Bool.false_and, webkitValueOf_ff tbl env d.value hff,
      mozValueOf_ff tbl env d.value hff, oValueOf_ff tbl env d.value hff,
      cvEqList_refl, ite_self, if_true, if_false, Bool.false_eq_true,
      Bool.not_true, Bool.not_false, ite_true, ite_false,
      List.append_nil, List.nil_append]
  simp only [List.mem_cons, List.not_mem_nil, or_false] at hP
  rcases hP with rfl | rfl | rfl | rfl
  · exact ⟨.webkit, addDeclaration_mono (addDeclaration_mono
      (addDeclaration_mono (addDeclaration_fires hsp hrv hct)))⟩
  · exact ⟨.moz, addDeclaration_mono (addDeclaration_mono
      (addDeclaration_fires hsp hrv hct))⟩
  · exact ⟨.ms, addDeclaration_mono (addDeclaration_fires hsp hrv hct)⟩
  · exact ⟨.o, addDeclaration_fires hsp hrv hct⟩

theorem blockProperties_eq_propNames (sb : Option SimpleBlock) :
    blockProperties sb = propNames (blockDeclarations sb) := rfl

theorem propNames_cons (d : Declaration) (ds : List Declaration) :
    propNames (d :: ds) =
      (match d.name with
       | .ident s => [s]
       | .dashed _ => []) ++ propNames ds := by
  cases h : d.name <;> simp [propNames, h]

theorem blockDeclarations_cons (cv : ComponentValue)
    (rest : List ComponentValue) :
    blockDeclarations (some (.mk (cv :: rest))) =
      (match cv with
       | .declOrAt (.decl d) => [d]
       | .styleBlock (.decl d) => [d]
       | _ => []) ++ blockDeclarations (some (.mk rest)) := by
  cases cv with
  | declOrAt i => cases i <;> rfl
  | styleBlock i => cases i <;> rfl
  | rule i => rfl
  | keyframeBlock i => rfl
  | tok t => rfl

theorem mem_propNames : ∀ {ds : List Declaration} {P : String},
    P ∈ propNames ds ↔ ∃ d, d ∈ ds ∧ d.name = .ident P := by
  intro ds
  induction ds with
  | nil => intro P; simp [propNames]
  | cons d rest ih =>
    intro P
    rw [propNames_cons]
    cases h : d.name with
    | ident s =>
      simp only [List.singleton_append, List.mem_cons]
      constructor
      · rintro (rfl | hmem)
        · exact ⟨d, Or.inl rfl, h⟩
        · obtain ⟨d', hd', hn⟩ := ih.mp hmem
          exact ⟨d', Or.inr hd', hn⟩
      · rintro ⟨d', rfl | hd', hn⟩
        · left
          rw [h] at hn
          injection hn with hh
          exact hh.symm
        · right
          exact ih.mpr ⟨d', hd', hn⟩
    | dashed s =>
      simp only [List.nil_append]
      constructor
      · intro hmem
        obtain ⟨d', hd', hn⟩ := ih.mp hmem
        exact ⟨d', List.mem_cons_of_mem d hd', hn⟩
      · rintro ⟨d', hd', hn⟩
        rcases List.mem_cons.mp hd' with rfl | hd'
        · rw [h] at hn
          cases hn
        · exact ih.mpr ⟨d', hd', hn⟩

theorem mem_blockDeclarations : ∀ {items : List ComponentValue}
    {d : Declaration},
    d ∈ blockDeclarations (some (.mk items)) ↔
      (ComponentValue.declOrAt (.decl d) ∈ items ∨
       ComponentValue.styleBlock (.decl d) ∈ items) := by
  intro items
  induction items with
  | nil =>
    intro d
    constructor
    · intro h; cases h
    · rintro (h | h) <;> cases h
  | cons cv rest ih =>
    intro d
    rw [blockDeclarations_cons]
    constructor
    · intro hmem
      rcases List.mem_append.mp hmem with hl | hr
      · cases cv with
        | declOrAt i =>
          cases i with
          | decl d0 =>
            rcases List.mem_singleton.mp hl with rfl
            exact Or.inl (List.mem_cons_self _ _)
          | atRule a => cases hl
        | styleBlock i =>
          cases i with
          | decl d0 =>
            rcases List.mem_singleton.mp hl with rfl
            exact Or.inr (List.mem_cons_self _ _)
          | qualifiedRule q => cases hl
          | atRule a => cases hl
        | rule i => cases hl
        | keyframeBlock i => cases hl
        | tok t => cases hl
      · rcases ih.mp hr with h | h
        · exact Or.inl (List.mem_cons_of_mem cv h)
        · exact Or.inr (List.mem_cons_of_mem cv h)
    · rintro (h | h) <;> rcases List.mem_cons.mp h with rfl | h
      · exact List.mem_append_left _ (List.mem_singleton.mpr rfl)
      · exact List.mem_append_right _ (ih.mpr (Or.inl h))
      · exact List.mem_append_left _ (List.mem_singleton.mpr rfl)
      · exact List.mem_append_right _ (ih.mpr (Or.inr h))

theorem mem_blockProperties {items : List ComponentValue} {P : String} :
    P ∈ blockProperties (some (.mk items)) ↔
      ∃ d, (ComponentValue.declOrAt (.decl d) ∈ items ∨
        ComponentValue.styleBlock (.decl d) ∈ items) ∧
        d.name = .ident P := by
  rw [blockProperties_eq_propNames]
  constructor
  · intro h
    obtain ⟨d, hd, hn⟩ := mem_propNames.mp h
    exact ⟨d, mem_blockDeclarations.mp hd, hn⟩
  · rintro ⟨d, hd, hn⟩
    exact mem_propNames.mpr ⟨d, mem_blockDeclarations.mpr hd, hn⟩

theorem declAdds_empty_val {tbl : CompatTable} {env : Versions}
    {st : PState} {d : Declaration} (he : d.value.isEmpty = true) :
    declAdds tbl env st d = [] := by
  unfold declAdds
  simp [he]

theorem mem_outItems_orig {tbl : CompatTable} {env : Versions}
    {b : SimpleBlock} :
    ∀ {items : List ComponentValue} {cv : ComponentValue}, cv ∈ items →
      cv ∈ outItems tbl env b items := by
  intro items
  induction items with
  | nil => intro cv h; cases h
  | cons cv0 rest ih =>
    intro cv h
    rw [outItems]
    rcases List.mem_cons.mp h with rfl | h
    · exact List.mem_append_right _ (List.mem_cons_self _ _)
    · exact List.mem_append_right _ (List.mem_cons_of_mem _ (ih h))

theorem mem_outItems_staged {tbl : CompatTable} {env : Versions}
    {b : SimpleBlock} :
    ∀ {items : List ComponentValue} {d : Declaration}
      {p : Vendor × Declaration},
      ComponentValue.styleBlock (.decl d) ∈ items →
      p ∈ declAdds tbl env (stOf b) d →
      ComponentValue.styleBlock (.decl p.2) ∈ outItems tbl env b items := by
  intro items
  induction items with
  | nil => intro d p h _; cases h
  | cons cv0 rest ih =>
    intro d p h hp
    rw [outItems]
    rcases List.mem_cons.mp h with heq | h
    · rw [← heq]
      exact List.mem_append_left _
        (List.mem_map_of_mem
          (fun q => ComponentValue.styleBlock (.decl q.2)) hp)
    · exact List.mem_append_right _ (List.mem_cons_of_mem _ (ih h hp))

theorem mem_outItems_cases {tbl : CompatTable} {env : Versions}
    {b : SimpleBlock} :
    ∀ {items : List ComponentValue} {cv : ComponentValue},
      cv ∈ outItems tbl env b items →
      cv ∈ items ∨
        ∃ d p, ComponentValue.styleBlock (.decl d) ∈ items ∧
          p ∈ declAdds tbl env (stOf b) d ∧
          cv = .styleBlock (.decl p.2) := by
  intro items
  induction items with
  | nil => intro cv h; cases h
  | cons cv0 rest ih =>
    intro cv h
    rw [outItems] at h
    rcases List.mem_append.mp h with hl | hr
    · cases cv0 with
      | styleBlock i =>
        cases i with
        | decl d =>
          obtain ⟨p, hp, hcv⟩ := List.mem_map.mp hl
          exact Or.inr ⟨d, p, List.mem_cons_self _ _, hp, hcv.symm⟩
        | qualifiedRule q => cases hl
        | atRule a => cases hl
      | declOrAt i => cases hl
      | rule i => cases hl
      | keyframeBlock i => cases hl
      | tok t => cases hl
    · rcases List.mem_cons.mp hr with rfl | hr
      · exact Or.inl (List.mem_cons_self _ _)
      · rcases ih hr with h1 | ⟨d, p, hd, hp, hcv⟩
        · exact Or.inl (List.mem_cons_of_mem _ h1)
        · exact Or.inr ⟨d, p, List.mem_cons_of_mem _ hd, hp, hcv⟩

theorem flatBlock_all {b : SimpleBlock} (hb : flatBlock b = true) :
    ∀ cv ∈ b.value, flatItem cv = true := by
  cases b with
  | mk items =>
    intro cv h
    exact List.all_eq_true.mp hb cv h

theorem sevenNames_inert {P : String}
    (hP : P ∈ (["-webkit-appearance", "-moz-appearance", "-ms-appearance",
      "-webkit-transform", "-moz-transform", "-ms-transform",
      "-o-transform"] : List String)) :
    ((strLower P == "appearance") = false) ∧
    ((strLower P == "transform") = false) ∧
    ((strLower P == "cursor") = false) ∧
    ((strLower P == "display") = false) ∧
    ((strLower P == "unicode-bidi") = false) ∧
    flatNameS P = true := by
  simp only [List.mem_cons, List.not_mem_nil, or_false] at hP
  rcases hP with rfl | rfl | rfl | rfl | rfl | rfl | rfl <;>
    exact ⟨by decide, by decide, by decide, by decide, by decide,
      by decide⟩

theorem props_transport {tbl : CompatTable} {env : Versions}
    {b : SimpleBlock} (hb : flatBlock b = true) {P : String}
    (hP : P ∈ blockProperties (some b)) :
    P ∈ blockProperties (some (outBlock tbl env b)) := by
  cases b with
  | mk items =>
    obtain ⟨d, hd, hn⟩ := mem_blockProperties.mp hP
    rcases hd with hd | hd
    · have := flatBlock_all hb _ hd
      exact absurd this (by simp [flatItem])
    · exact mem_blockProperties.mpr
        ⟨d, Or.inr (mem_outItems_orig hd), hn⟩

theorem staged_transport {tbl : CompatTable} {env : Versions}
    {b : SimpleBlock} {d : Declaration} {p : Vendor × Declaration}
    {P : String} (hd : ComponentValue.styleBlock (.decl d) ∈ b.value)
    (hp : p ∈ declAdds tbl env (stOf b) d) (hn : p.2.name = .ident P) :
    P ∈ blockProperties (some (outBlock tbl env b)) := by
  cases b with
  | mk items =>
    exact mem_blockProperties.mpr
      ⟨p.2, Or.inr (mem_outItems_staged hd hp), hn⟩

theorem hit_prop {tbl : CompatTable} {env : Versions} {b : SimpleBlock}
    (hb : flatBlock b = true) {d' : Declaration} {P : String}
    (hfire : sp tbl env P true = true →
      (blockProperties (some b)).contains P = false →
      ∃ w, (w, ⟨.ident P, d'.value, d'.important⟩) ∈
        declAdds tbl env (stOf b) d')
    (horig : ComponentValue.styleBlock (.decl d') ∈ b.value)
    (hsp : sp tbl env P true = true) :
    (blockProperties (some (outBlock tbl env b))).contains P = true := by
  rw [contains_iff_mem]
  by_cases hct : (blockProperties (some b)).contains P = true
  · exact props_transport hb (contains_iff_mem.mp hct)
  · obtain ⟨w, hmem⟩ := hfire hsp (by simpa using hct)
    exact staged_transport horig hmem rfl

theorem outBlock_saturated {tbl : CompatTable} {env : Versions}
    {b : SimpleBlock} (hb : flatBlock b = true) :
    ∀ cv ∈ outItems tbl env b b.value,
      ∃ d', cv = ComponentValue.styleBlock (.decl d') ∧
        flatItem cv = true ∧
        declAdds tbl env (stOf (outBlock tbl env b)) d' = [] := by
  intro cv hcv
  rcases mem_outItems_cases hcv with horig | ⟨d, p, hd, hp, rfl⟩
  · have hflat := flatBlock_all hb _ horig
    cases cv with
    | styleBlock i =>
      cases i with
      | decl d' =>
        have hand : funcFreeVal d'.value = true ∧ flatName d'.name = true := by
          have h0 := hflat
          simp only [flatItem, Bool.and_eq_true] at h0
          exact h0
        have hff := hand.1
        refine ⟨d', rfl, hflat, ?_⟩
        by_cases he : d'.value.isEmpty
        · exact declAdds_empty_val he
        · cases hname : d'.name with
          | dashed t => exact declAdds_dashed hname
          | ident n =>
            have hfn : flatNameS n = true := by
              have h0 := hand.2
              rw [hname] at h0
              simpa [flatName] using h0
            by_cases c1 : (strLower n == "appearance")
            · refine declAdds_appearance_noop hname hff c1 ?_ ?_ ?_ <;>
                exact hit_prop hb
                  (fun h1 h2 => declAdds_appearance_fires hname hff
                    (by simpa using he) c1 rfl (by decide) h1 h2)
                  horig
            · by_cases c2 : (strLower n == "transform")
              · refine declAdds_transform_noop hname hff c2 rfl
                  ?_ ?_ ?_ ?_ <;>
                  exact hit_prop hb
                    (fun h1 h2 => declAdds_transform_fires hname hff
                      (by simpa using he) c2 rfl rfl (by decide) h1 h2)
                    horig
              · have hcont : catalogueNames.contains (strLower n) = false := by
                  simp only [flatNameS, c1, c2, Bool.false_or] at hfn
                  simpa using hfn
                obtain ⟨d3, d4, d5⟩ := notInCatalogue_arms hcont
                exact declAdds_inert hname hff
                  (by simpa using c1) (by simpa using c2) d3 d4 d5
      | qualifiedRule q => exact absurd hflat (by simp [flatItem])
      | atRule a => exact absurd hflat (by simp [flatItem])
    | declOrAt i => exact absurd hflat (by simp [flatItem])
    | rule i => exact absurd hflat (by simp [flatItem])
    | keyframeBlock i => exact absurd hflat (by simp [flatItem])
    | tok t => exact absurd hflat (by simp [flatItem])
  · have hdflat := flatBlock_all hb _ hd
    have handd : funcFreeVal d.value = true ∧ flatName d.name = true := by
      have h0 := hdflat
      simp only [flatItem, Bool.and_eq_true] at h0
      exact h0
    have hff := handd.1
    cases hdn : d.name with
    | dashed t =>
      rw [declAdds_dashed hdn] at hp
      cases hp
    | ident nm =>
      have hfnm : flatNameS nm = true := by
        have h0 := handd.2
        rw [hdn] at h0
        simpa [flatName] using h0
      obtain ⟨P, hPmem, hP2⟩ := declAdds_flat_mem hdn hff hfnm hp
      have hinert := sevenNames_inert hPmem
      refine ⟨p.2, rfl, ?_, ?_⟩
      · rw [hP2]
        simp only [flatItem, flatName, Bool.and_eq_true]
        exact ⟨hff, hinert.2.2.2.2.2⟩
      · refine declAdds_inert (by rw [hP2]) (by rw [hP2]; exact hff)
          hinert.1 hinert.2.1 hinert.2.2.1 hinert.2.2.2.1
          hinert.2.2.2.2.1

theorem replPseudoClass_flat (f t : String) :
    ∀ sel, selFlat sel = true → replPseudoClass f t sel = sel
  | [], _ => rfl
  | c :: cs, h => by
    rw [selFlat, List.all_cons, Bool.and_eq_true] at h
    have ht : replPseudoClass f t cs = cs := replPseudoClass_flat f t cs h.2
    cases c with
    | other s =>
      show SelComp.other s :: replPseudoClass f t cs = _
      rw [ht]
    | pseudoClass n => exact Bool.noConfusion h.1
    | pseudoElement n => exact Bool.noConfusion h.1

theorem replPseudoElement_flat (f t : String) :
    ∀ sel, selFlat sel = true → replPseudoElement f t sel = sel
  | [], _ => rfl
  | c :: cs, h => by
    rw [selFlat, List.all_cons, Bool.and_eq_true] at h
    have ht : replPseudoElement f t cs = cs := replPseudoElement_flat f t cs h.2
    cases c with
    | other s =>
      show SelComp.other s :: replPseudoElement f t cs = _
      rw [ht]
    | pseudoClass n => exact Bool.noConfusion h.1
    | pseudoElement n => exact Bool.noConfusion h.1

theorem replPseudoClassOnElement_flat (f t : String) :
    ∀ sel, selFlat sel = true → replPseudoClassOnElement f t sel = sel
  | [], _ => rfl
  | c :: cs, h => by
    rw [selFlat, List.all_cons, Bool.and_eq_true] at h
    have ht : replPseudoClassOnElement f t cs = cs :=
      replPseudoClassOnElement_flat f t cs h.2
    cases c with
    | other s =>
      show SelComp.other s :: replPseudoClassOnElement f t cs = _
      rw [ht]
    | pseudoClass n => exact Bool.noConfusion h.1
    | pseudoElement n => exact Bool.noConfusion h.1

theorem qualSelectorStaging_flat (tbl : CompatTable) (env : Versions)
    (st : PState) (p : SelectorList) (ob : SimpleBlock)
    (hp : selFlat p = true) :
    qualSelectorStaging tbl env st p ob = st := by
  simp [qualSelectorStaging, replPseudoClass_flat, replPseudoElement_flat,
    replPseudoClassOnElement_flat, hp, ite_self, selListEq_refl]

theorem flatBlockFold (tbl : CompatTable) (env : Versions) (fuel : Nat)
    (b : SimpleBlock) :
    ∀ (items acc : List ComponentValue),
      (∀ cv ∈ items, flatItem cv = true) →
      List.foldl (blockStep (visitCompChildren tbl env (fuel + 1))
        (visitQualifiedRuleChildren tbl env (fuel + 1))
        (visitAtRuleChildren tbl env (fuel + 1))) (acc, stOf b) items =
      (acc ++ outItems tbl env b items, stOf b) := by
  intro items
  induction items with
  | nil => intro acc h; simp [outItems]
  | cons cv rest ih =>
    intro acc h
    have hcv := h cv (List.mem_cons_self cv rest)
    cases cv with
    | styleBlock i =>
      cases i with
      | decl d =>
        rw [List.foldl_cons]
        have hstep : blockStep (visitCompChildren tbl env (fuel + 1))
            (visitQualifiedRuleChildren tbl env (fuel + 1))
            (visitAtRuleChildren tbl env (fuel + 1)) (acc, stOf b)
            (ComponentValue.styleBlock (.decl d)) =
            (acc ++ stagedItems tbl env b d ++
              [ComponentValue.styleBlock (.decl d)], stOf b) := by
          simp [blockStep, visitCompChildren, visitDeclaration, drainDecls,
            foldDrainQual, foldDrainAt, stOf, stagedItems]
        rw [hstep,
          ih (acc ++ stagedItems tbl env b d ++
            [ComponentValue.styleBlock (.decl d)])
            (fun cv2 hcv2 => h cv2 (List.mem_cons_of_mem _ hcv2))]
        rw [outItems]
        show _ = (acc ++ (stagedFor tbl env b
          (ComponentValue.styleBlock (.decl d)) ++
          ComponentValue.styleBlock (.decl d) :: outItems tbl env b rest),
          stOf b)
        rw [show stagedFor tbl env b (ComponentValue.styleBlock (.decl d)) =
          stagedItems tbl env b d from rfl]
        simp [List.append_assoc]
      | qualifiedRule q => exact Bool.noConfusion hcv
      | atRule a => exact Bool.noConfusion hcv
    | declOrAt i => exact Bool.noConfusion hcv
    | rule i => exact Bool.noConfusion hcv
    | keyframeBlock i => exact Bool.noConfusion hcv
    | tok t => exact Bool.noConfusion hcv

theorem visitSimpleBlock_flat (tbl : CompatTable) (env : Versions)
    (fuel : Nat) (sb0 : Option SimpleBlock) (b : SimpleBlock)
    (hb : flatBlock b = true) :
    visitSimpleBlock tbl env (fuel + 2)
        ⟨false, sb0, none, [], [], [], [], none⟩ b =
      (outBlock tbl env b, ⟨false, sb0, none, [], [], [], [], none⟩) := by
  cases b with
  | mk items =>
    show (SimpleBlock.mk (List.foldl (blockStep
        (visitCompChildren tbl env (fuel + 1))
        (visitQualifiedRuleChildren tbl env (fuel + 1))
        (visitAtRuleChildren tbl env (fuel + 1)))
        ([], stOf (.mk items)) items).1,
      { (List.foldl (blockStep (visitCompChildren tbl env (fuel + 1))
          (visitQualifiedRuleChildren tbl env (fuel + 1))
          (visitAtRuleChildren tbl env (fuel + 1)))
          ([], stOf (.mk items)) items).2 with simpleBlock := sb0 }) = _
    rw [flatBlockFold tbl env fuel (.mk items) items []
      (flatBlock_all hb)]
    rfl

theorem visitQualifiedRuleChildren_flat (tbl : CompatTable) (env : Versions)
    (fuel : Nat) (p : SelectorList) (b : SimpleBlock)
    (hb : flatBlock b = true) :
    visitQualifiedRuleChildren tbl env (fuel + 3) initState (.mk p b) =
      (.mk p (outBlock tbl env b), initState) := by
  show (QualifiedRule.mk p
      (visitSimpleBlock tbl env (fuel + 2) initState b).1,
    (visitSimpleBlock tbl env (fuel + 2) initState b).2) = _
  rw [show (initState : PState) = ⟨false, none, none, [], [], [], [], none⟩
    from rfl]
  rw [visitSimpleBlock_flat tbl env fuel none b hb]

theorem visitQualifiedRule_flat (tbl : CompatTable) (env : Versions)
    (fuel : Nat) (p : SelectorList) (b : SimpleBlock)
    (hp : selFlat p = true) (hb : flatBlock b = true) :
    visitQualifiedRule tbl env (fuel + 4) initState (.mk p b) =
      (.mk p (outBlock tbl env b), initState) := by
  show ((visitQualifiedRuleChildren tbl env (fuel + 3) initState
      (.mk p b)).1,
    qualSelectorStaging tbl env
      (visitQualifiedRuleChildren tbl env (fuel + 3) initState
        (.mk p b)).2
      (visitQualifiedRuleChildren tbl env (fuel + 3) initState
        (.mk p b)).1.prelude
      (QualifiedRule.mk p b).block) = _
  rw [visitQualifiedRuleChildren_flat tbl env fuel p b hb]
  show (QualifiedRule.mk p (outBlock tbl env b),
    qualSelectorStaging tbl env initState p b) = _
  rw [qualSelectorStaging_flat tbl env initState p b hp]

theorem visitRuleFull_flat (tbl : CompatTable) (env : Versions)
    (fuel : Nat) (r : CssRule) (hr : flatRule r = true) :
    visitRuleFull tbl env (fuel + 5) initState r =
      (outRule tbl env r, initState) := by
  cases r with
  | atRule a => exact Bool.noConfusion hr
  | qualifiedRule q =>
    cases q with
    | mk p b =>
      rw [flatRule, Bool.and_eq_true] at hr
      show (CssRule.qualifiedRule
        (visitQualifiedRule tbl env (fuel + 4) initState (.mk p b)).1,
        (visitQualifiedRule tbl env (fuel + 4) initState (.mk p b)).2) = _
      rw [visitQualifiedRule_flat tbl env fuel p b hr.1 hr.2]
      rfl

theorem flatSheetFold (tbl : CompatTable) (env : Versions) (fuel : Nat) :
    ∀ (rules : List CssRule) (acc : List CssRule),
      (∀ r ∈ rules, flatRule r = true) →
      List.foldl (sheetStep (visitRuleFull tbl env (fuel + 5)))
        (acc, initState) rules =
      (acc ++ rules.map (outRule tbl env), initState) := by
  intro rules
  induction rules with
  | nil => intro acc h; simp
  | cons r rest ih =>
    intro acc h
    rw [List.foldl_cons]
    have hstep : sheetStep (visitRuleFull tbl env (fuel + 5))
        (acc, initState) r = (acc ++ [outRule tbl env r], initState) := by
      have hrr := visitRuleFull_flat tbl env fuel r
        (h r (List.mem_cons_self r rest))
      simp only [sheetStep, hrr]
      simp [foldDrainTop, initState]
    rw [hstep, ih (acc ++ [outRule tbl env r])
      (fun r2 hr2 => h r2 (List.mem_cons_of_mem _ hr2))]
    simp

theorem visitStylesheet_flat (tbl : CompatTable) (env : Versions)
    (fuel : Nat) (s : Stylesheet) (hs : flatSheet s = true) :
    visitStylesheet tbl env (fuel + 6) initState s =
      (outSheet tbl env s, initState) := by
  show (Stylesheet.mk (List.foldl
      (sheetStep (visitRuleFull tbl env (fuel + 5))) ([], initState)
      s.rules).1,
    (List.foldl (sheetStep (visitRuleFull tbl env (fuel + 5)))
      ([], initState) s.rules).2) = _
  rw [flatSheetFold tbl env fuel s.rules []
    (fun r hr => List.all_eq_true.mp hs r hr)]
  rfl

theorem prefixSheet_flat (tbl : CompatTable) (env : Versions)
    (s : Stylesheet) (hs : flatSheet s = true) :
    prefixSheet tbl env s = outSheet tbl env s := by
  unfold prefixSheet
  obtain ⟨m, hm⟩ : ∃ m, sheetFuel s = m + 6 :=
    ⟨sheetFuel s - 6, by unfold sheetFuel; omega⟩
  rw [hm, visitStylesheet_flat tbl env m s hs]

theorem outBlock_flat {tbl : CompatTable} {env : Versions}
    {b : SimpleBlock} (hb : flatBlock b = true) :
    flatBlock (outBlock tbl env b) = true := by
  have hsat := @outBlock_saturated tbl env b hb
  show (outItems tbl env b b.value).all flatItem = true
  rw [List.all_eq_true]
  intro cv hcv
  obtain ⟨d', rfl, hfl, _⟩ := hsat cv hcv
  exact hfl

theorem outRule_flat {tbl : CompatTable} {env : Versions} {r : CssRule}
    (hr : flatRule r = true) : flatRule (outRule tbl env r) = true := by
  cases r with
  | atRule a => exact Bool.noConfusion hr
  | qualifiedRule q =>
    cases q with
    | mk p b =>
      rw [flatRule, Bool.and_eq_true] at hr
      show (selFlat p && flatBlock (outBlock tbl env b)) = true
      rw [hr.1, outBlock_flat hr.2]
      rfl

theorem outSheet_flat {tbl : CompatTable} {env : Versions} {s : Stylesheet}
    (hs : flatSheet s = true) : flatSheet (outSheet tbl env s) = true := by
  show (s.rules.map (outRule tbl env)).all flatRule = true
  rw [List.all_eq_true]
  intro r hr
  obtain ⟨r0, hr0, rfl⟩ := List.mem_map.mp hr
  exact outRule_flat (List.all_eq_true.mp hs r0 hr0)

theorem outItems_id {tbl : CompatTable} {env : Versions} {B : SimpleBlock} :
    ∀ {items : List ComponentValue},
      (∀ cv ∈ items, ∃ d', cv = ComponentValue.styleBlock (.decl d') ∧
        declAdds tbl env (stOf B) d' = []) →
      outItems tbl env B items = items := by
  intro items
  induction items with
  | nil => intro _; rfl
  | cons cv rest ih =>
    intro h
    obtain ⟨d', rfl, hempty⟩ := h cv (List.mem_cons_self cv rest)
    rw [outItems]
    rw [show stagedFor tbl env B (ComponentValue.styleBlock (.decl d')) =
      stagedItems tbl env B d' from rfl]
    rw [stagedItems, hempty]
    rw [ih (fun cv2 hcv2 => h cv2 (List.mem_cons_of_mem _ hcv2))]
    rfl

theorem outBlock_id {tbl : CompatTable} {env : Versions} {b : SimpleBlock}
    (hb : flatBlock b = true) :
    outBlock tbl env (outBlock tbl env b) = outBlock tbl env b := by
  have hsat := @outBlock_saturated tbl env b hb
  show SimpleBlock.mk (outItems tbl env (outBlock tbl env b)
    (outBlock tbl env b).value) = outBlock tbl env b
  have : (outBlock tbl env b).value = outItems tbl env b b.value := rfl
  rw [outItems_id]
  · cases hbv : outBlock tbl env b with
    | mk items => rfl
  · intro cv hcv
    rw [this] at hcv
    obtain ⟨d', rfl, _, hempty⟩ := hsat cv hcv
    exact ⟨d', rfl, hempty⟩

theorem outRule_id {tbl : CompatTable} {env : Versions} {r : CssRule}
    (hr : flatRule r = true) :
    outRule tbl env (outRule tbl env r) = outRule tbl env r := by
  cases r with
  | atRule a => rfl
  | qualifiedRule q =>
    cases q with
    | mk p b =>
      rw [flatRule, Bool.and_eq_true] at hr
      show CssRule.qualifiedRule
        (.mk p (outBlock tbl env (outBlock tbl env b))) = _
      rw [outBlock_id hr.2]
      rfl

theorem outSheet_id {tbl : CompatTable} {env : Versions} {s : Stylesheet}
    (hs : flatSheet s = true) :
    outSheet tbl env (outSheet tbl env s) = outSheet tbl env s := by
  show Stylesheet.mk ((s.rules.map (outRule tbl env)).map (outRule tbl env))
    = Stylesheet.mk (s.rules.map (outRule tbl env))
  rw [List.map_map]
  congr 1
  apply List.map_congr_left
  intro r hr
  exact outRule_id (List.all_eq_true.mp hs r hr)

/-- C1 (amended): on the flat fragment (top-level qualified rules with
pseudo-free selectors and blocks of declarations with function-free
values whose property names are `appearance`, `transform` or outside the
catalogue) the prefixer is idempotent; outside it the unchecked
same-name pushes of `visit_mut_declaration` (the old-spec display push
and the four tail value-rewrite pushes) and the nested staged rules of
`visit_mut_simple_block` carry no duplicate check, so a second run
duplicates them. -/
theorem c1_amended (tbl : CompatTable) (env : Versions)
    (s : Stylesheet) (hs : flatSheet s = true) :
    prefixSheet tbl env (prefixSheet tbl env s) = prefixSheet tbl env s := by
  rw [prefixSheet_flat tbl env s hs,
    prefixSheet_flat tbl env (outSheet tbl env s) (outSheet_flat hs),
    outSheet_id hs]

/-- Witness for the C1 amended theorem at a concrete flat stylesheet
with an `appearance` declaration, under the all-unset target. -/
theorem c1_witness :
    flatSheet flatFixture = true ∧
    prefixSheet emptyTable anyEnv
        (prefixSheet emptyTable anyEnv flatFixture) =
      prefixSheet emptyTable anyEnv flatFixture :=
  ⟨by decide, c1_amended emptyTable anyEnv flatFixture (by decide)⟩

/-! ## HTML lexer lemmas and theorems -/

theorem crcFold_overflowed :
    ∀ (chars : List (Nat × Nat × Option Char)) (n : Nat) (raw : String),
      (chars.foldl crcStep (n, true, raw)).1 = n := by
  intro chars
  induction chars with
  | nil => intro n raw; rfl
  | cons bvc rest ih =>
    intro n raw
    rw [List.foldl_cons]
    exact ih n _

theorem crcFold_spec :
    ∀ (chars : List (Nat × Nat × Option Char)) (i : Nat) (raw : String),
      (chars.foldl crcStep (i, false, raw)).1 =
        (specCrc chars i).getD 0x110000 := by
  intro chars
  induction chars with
  | nil => intro i raw; rfl
  | cons bvc rest ih =>
    intro i raw
    rw [List.foldl_cons, specCrc]
    by_cases h1 : i * bvc.1 > 4294967295
    · rw [show crcStep (i, false, raw) bvc = (0x110000, true,
        match bvc.2.2 with
        | some c => raw.push c
        | none => raw) from by simp [crcStep, h1]]
      rw [crcFold_overflowed]
      rw [if_neg (by omega)]
      rfl
    · by_cases h2 : i * bvc.1 + bvc.2.1 > 4294967295
      · rw [show crcStep (i, false, raw) bvc = (0x110000, true,
          match bvc.2.2 with
          | some c => raw.push c
          | none => raw) from by simp [crcStep, h1, h2]]
        rw [crcFold_overflowed]
        rw [if_neg (by omega)]
        rfl
      · rw [show crcStep (i, false, raw) bvc = (i * bvc.1 + bvc.2.1, false,
          match bvc.2.2 with
          | some c => raw.push c
          | none => raw) from by simp [crcStep, h1, h2]]
        rw [ih]
        rw [if_pos (by omega)]

theorem crcAccum_eq_spec (chars : List (Nat × Nat × Option Char)) :
    (crcAccum chars).1 = (specCrc chars 0).getD 0x110000 := by
  show (chars.foldl crcStep (0, false, "")).1 = _
  exact crcFold_spec chars 0 ""

/-- C6 (amended): on a NUL input character the Rcdata, Rawtext,
ScriptData and PlainText states record `UnexpectedNullCharacter` and
emit U+FFFD with the raw NUL; the Data state records the same error but
emits the NUL itself as the character value with `Raw::Same`. -/
theorem c6_amended (l : HLexer) (h : lnext l = some '\x00') :
    (l.state = .rcdata ∨ l.state = .rawtext ∨ l.state = .scriptData ∨
        l.state = .plainText →
      ∃ l', runStep l = some l' ∧
        l'.errors = l.errors ++ [.unexpectedNullCharacter] ∧
        l'.pendingTokens = l.pendingTokens ++
          [.character '�' (some (.atom "\x00"))]) ∧
    (l.state = .data →
      ∃ l', runStep l = some l' ∧
        l'.errors = l.errors ++ [.unexpectedNullCharacter] ∧
        l'.pendingTokens = l.pendingTokens ++
          [.character '\x00' (some .same)]) := by
  cases l with
  | mk input pos cur curPos st rst fin toks errs buf crc attrs =>
    simp only [lnext] at h
    constructor
    · intro hs
      rcases hs with hs | hs | hs | hs <;> subst hs <;>
        · simp only [runStep, consumeNextChar, lnext, lconsume]
          rw [h]
          exact ⟨_, rfl, rfl, rfl⟩
    · intro hs
      subst hs
      simp only [runStep, consumeNextChar, lnext, lconsume]
      rw [h]
      exact ⟨_, rfl, rfl, rfl⟩

theorem flushCodePoints_nonattr (l : HLexer) (raw : String) (c : Char)
    (hattr : isConsumedAsPartOfAnAttribute l = false)
    (hbuf : l.temporaryBuffer = String.singleton c) :
    flushCodePoints l (some raw) =
      (let tk : HToken := .character c
         (some (if raw = String.singleton c then .same else .atom raw));
       { l with pendingTokens := l.pendingTokens ++ [tk],
                temporaryBuffer := "" }) := by
  unfold flushCodePoints
  rw [hattr]
  by_cases heq : (raw == l.temporaryBuffer) = true
  · have hr : raw = String.singleton c := by
      rw [hbuf] at heq
      exact eq_of_beq heq
    simp [hbuf, hr]
  · simp only [Bool.not_eq_true] at heq
    have hr : ¬ raw = String.singleton c := by
      intro hh
      rw [hbuf, hh] at heq
      simp at heq
    simp [hbuf, hr]

theorem correctCrc_zero :
    correctCrc 0 = (0xfffd, some .nullCharacterReference) := rfl

theorem correctCrc_over {v : Nat} (h : v > 0x10ffff) :
    correctCrc v = (0xfffd, some .characterReferenceOutsideUnicodeRange) := by
  unfold correctCrc
  rw [if_neg (by omega), if_pos h]

theorem correctCrc_surrogate {v : Nat} (h1 : 0xd800 ≤ v) (h2 : v ≤ 0xdfff) :
    correctCrc v = (0xfffd, some .surrogateCharacterReference) := by
  unfold correctCrc
  rw [if_neg (by omega), if_neg (by omega), if_pos (by
    simp only [isSurrogateCode, Bool.and_eq_true, decide_eq_true_eq]
    exact ⟨h1, h2⟩)]

theorem correctCrc_ctrl {v : Nat} (h1 : 0x80 ≤ v) (h2 : v ≤ 0x9f) :
    correctCrc v = (win1252Remap v, some .controlCharacterReference) := by
  unfold correctCrc
  rw [if_neg (by omega), if_neg (by omega), if_neg (by
      simp only [isSurrogateCode, Bool.and_eq_true, decide_eq_true_eq]
      omega),
    if_neg (by
      intro hcc
      simp only [isNoncharacterCode, Bool.or_eq_true, Bool.and_eq_true,
        decide_eq_true_eq] at hcc
      rcases hcc with ⟨ha, hb⟩ | hc
      · omega
      · have hm := List.elem_iff.mp hc
        simp only [List.mem_cons, List.not_mem_nil, or_false] at hm
        omega),
    if_pos (by
      have hctl : isControlCode v = true := by
        simp only [isControlCode, Bool.and_eq_true, Bool.or_eq_true,
          Bool.not_eq_true', Bool.or_eq_false_iff, decide_eq_true_eq,
          decide_eq_false_iff_not]
        omega
      simp [hctl])]

theorem numericEnd_emit
    (input : List Char) (pos : Nat) (cur : Option Char) (curPos : Nat)
    (rst : HState) (fin : Bool) (toks : List HToken)
    (errs : List ErrKind) (buf : String)
    (chars : List (Nat × Nat × Option Char))
    (attrs : Option (List HAttribute)) (e : ErrKind) (cr : Nat)
    (hattr : isConsumedAsPartOfAnAttribute
      ⟨input, pos, cur, curPos, .numericCharacterReferenceEnd, rst, fin,
       toks, errs, buf, some chars, attrs⟩ = false)
    (hcorr : correctCrc (crcAccum chars).1 = (cr, some e)) :
    ∃ l', runStep
        ⟨input, pos, cur, curPos, .numericCharacterReferenceEnd, rst, fin,
         toks, errs, buf, some chars, attrs⟩ = some l' ∧
      l'.state = rst ∧ l'.errors = errs ++ [e] ∧
      l'.pendingTokens = toks ++
        [.character (Char.ofNat cr) (crRaw buf chars cur (Char.ofNat cr))] := by
  have hfl := flushCodePoints_nonattr
    ⟨input, pos, cur, curPos, .numericCharacterReferenceEnd, rst, fin,
     toks, errs ++ [e], String.singleton (Char.ofNat cr), none, attrs⟩
    (buf ++ (crcAccum chars).2 ++ (if cur = some ';' then ";" else ""))
    (Char.ofNat cr) hattr rfl
  simp only [runStep]
  rw [hcorr]
  show ∃ l2, some
      { flushCodePoints
          ⟨input, pos, cur, curPos, .numericCharacterReferenceEnd, rst,
           fin, toks, errs ++ [e], String.singleton (Char.ofNat cr),
           none, attrs⟩
          (some (buf ++ (crcAccum chars).2 ++
            (if cur = some ';' then ";" else ""))) with
        state := (flushCodePoints
          ⟨input, pos, cur, curPos, .numericCharacterReferenceEnd, rst,
           fin, toks, errs ++ [e], String.singleton (Char.ofNat cr),
           none, attrs⟩
          (some (buf ++ (crcAccum chars).2 ++
            (if cur = some ';' then ";" else "")))).returnState } =
      some l2 ∧
    l2.state = rst ∧ l2.errors = errs ++ [e] ∧
    l2.pendingTokens = toks ++
      [.character (Char.ofNat cr) (crRaw buf chars cur (Char.ofNat cr))]
  rw [hfl]
  exact ⟨_, rfl, rfl, rfl, rfl⟩

/-- C7: the numeric character-reference accumulator equals the ideal
saturating value (checked multiply and add, 0x110000 on overflow), and
the end state corrects the final code before emission: 0 and
out-of-range and surrogate codes become U+FFFD with their parse errors,
and 0x80-0x9F is remapped by the Windows-1252 table with a
`ControlCharacterReference` error. -/
theorem c7_charref
    (input : List Char) (pos : Nat) (cur : Option Char) (curPos : Nat)
    (rst : HState) (fin : Bool) (toks : List HToken)
    (errs : List ErrKind) (buf : String)
    (chars : List (Nat × Nat × Option Char))
    (attrs : Option (List HAttribute))
    (hattr : isConsumedAsPartOfAnAttribute
      ⟨input, pos, cur, curPos, .numericCharacterReferenceEnd, rst, fin,
       toks, errs, buf, some chars, attrs⟩ = false) :
    (crcAccum chars).1 = (specCrc chars 0).getD 0x110000 ∧
    ((specCrc chars 0).getD 0x110000 = 0 →
      ∃ l', runStep
          ⟨input, pos, cur, curPos, .numericCharacterReferenceEnd, rst,
           fin, toks, errs, buf, some chars, attrs⟩ = some l' ∧
        l'.state = rst ∧
        l'.errors = errs ++ [.nullCharacterReference] ∧
        l'.pendingTokens = toks ++
          [.character '�' (crRaw buf chars cur '�')]) ∧
    ((specCrc chars 0).getD 0x110000 > 0x10ffff →
      ∃ l', runStep
          ⟨input, pos, cur, curPos, .numericCharacterReferenceEnd, rst,
           fin, toks, errs, buf, some chars, attrs⟩ = some l' ∧
        l'.state = rst ∧
        l'.errors = errs ++ [.characterReferenceOutsideUnicodeRange] ∧
        l'.pendingTokens = toks ++
          [.character '�' (crRaw buf chars cur '�')]) ∧
    (0xd800 ≤ (specCrc chars 0).getD 0x110000 ∧
        (specCrc chars 0).getD 0x110000 ≤ 0xdfff →
      ∃ l', runStep
          ⟨input, pos, cur, curPos, .numericCharacterReferenceEnd, rst,
           fin, toks, errs, buf, some chars, attrs⟩ = some l' ∧
        l'.state = rst ∧
        l'.errors = errs ++ [.surrogateCharacterReference] ∧
        l'.pendingTokens = toks ++
          [.character '�' (crRaw buf chars cur '�')]) ∧
    (0x80 ≤ (specCrc chars 0).getD 0x110000 ∧
        (specCrc chars 0).getD 0x110000 ≤ 0x9f →
      ∃ l', runStep
          ⟨input, pos, cur, curPos, .numericCharacterReferenceEnd, rst,
           fin, toks, errs, buf, some chars, attrs⟩ = some l' ∧
        l'.state = rst ∧
        l'.errors = errs ++ [.controlCharacterReference] ∧
        l'.pendingTokens = toks ++
          [.character (Char.ofNat
            (win1252Remap ((specCrc chars 0).getD 0x110000)))
            (crRaw buf chars cur (Char.ofNat
              (win1252Remap ((specCrc chars 0).getD 0x110000))))]) := by
  refine ⟨crcAccum_eq_spec chars, ?_, ?_, ?_, ?_⟩
  · intro hv
    obtain ⟨l', h1, h2, h3, h4⟩ := numericEnd_emit input pos cur curPos
      rst fin toks errs buf chars attrs .nullCharacterReference 0xfffd
      hattr (by rw [crcAccum_eq_spec chars, hv]; exact correctCrc_zero)
    exact ⟨l', h1, h2, h3, h4.trans (by rfl)⟩
  · intro hv
    obtain ⟨l', h1, h2, h3, h4⟩ := numericEnd_emit input pos cur curPos
      rst fin toks errs buf chars attrs
      .characterReferenceOutsideUnicodeRange 0xfffd
      hattr (by rw [crcAccum_eq_spec chars]; exact correctCrc_over hv)
    exact ⟨l', h1, h2, h3, h4.trans (by rfl)⟩
  · intro hv
    obtain ⟨l', h1, h2, h3, h4⟩ := numericEnd_emit input pos cur curPos
      rst fin toks errs buf chars attrs .surrogateCharacterReference 0xfffd
      hattr (by rw [crcAccum_eq_spec chars]; exact correctCrc_surrogate hv.1 hv.2)
    exact ⟨l', h1, h2, h3, h4.trans (by rfl)⟩
  · intro hv
    obtain ⟨l', h1, h2, h3, h4⟩ := numericEnd_emit input pos cur curPos
      rst fin toks errs buf chars attrs .controlCharacterReference
      (win1252Remap ((specCrc chars 0).getD 0x110000))
      hattr (by rw [crcAccum_eq_spec chars]; exact correctCrc_ctrl hv.1 hv.2)
    exact ⟨l', h1, h2, h3, h4⟩

/-- Witness for C7 at the lexer state reached by `&#128;`: the emitted
character is U+20AC with a `ControlCharacterReference` error, and the
token's raw is the verbatim source text `&#128;`. -/
theorem c7_witness :
    ∃ l', runStep crefLexer = some l' ∧ l'.state = .data ∧
      l'.errors = [.controlCharacterReference] ∧
      l'.pendingTokens = [.character '€' (some (.atom "&#128;"))] := by
  obtain ⟨l', h1, h2, h3, h4⟩ :=
    (c7_charref [] 0 (some ';') 0 .data false [] [] "&#" crefChars none
      rfl).2.2.2.2 (by decide)
  exact ⟨l', h1, h2, h3, h4.trans (by rfl)⟩

/-- C6 counterexample: in the Data state a NUL input yields a character
token whose value is the raw NUL itself (`Raw::Same`), not U+FFFD as the
claim states for every NUL-handling state. -/
theorem c6_counterexample :
    (runStep nulLexer).map (fun l => l.pendingTokens) =
      some [.character '\x00' (some .same)] ∧
    (runStep nulLexer).map (fun l => l.errors) =
      some [.unexpectedNullCharacter] ∧
    ¬ ((runStep nulLexer).map (fun l => l.pendingTokens) =
      some [.character '�' (some (.atom "\x00"))]) := by
  decide

/-- Witness for the C6 amended theorem at the Rcdata state over the
input consisting of one NUL. -/
theorem c6_witness :
    lnext rcdataNulLexer = some '\x00' ∧
    (∃ l', runStep rcdataNulLexer = some l' ∧
      l'.errors = rcdataNulLexer.errors ++ [.unexpectedNullCharacter] ∧
      l'.pendingTokens = rcdataNulLexer.pendingTokens ++
        [.character '�' (some (.atom "\x00"))]) :=
  ⟨rfl, (c6_amended rcdataNulLexer rfl).1 (Or.inl rfl)⟩

end Spec2Proof
